import Mathlib

/-!
Josiah Gibbs operators (`branches/josiah/josiah/GibbsOperator.h`, `GibbsOperator.cpp`).

A shallow embedding of the sampler core (`log_sum`, `GibbsOperator::doSample`,
`GibbsOperator::doOnlineLearning`, `GibbsOperator::chooseTargetAssignment`), of the
distortion check of the flip operator (`ComputeDistortionDistance`,
`FlipOperator::CheckValidReordering`) and of the delta lists the three operators build.

Conventions of the embedding.

* `double`/`float` scores are elements of a linearly ordered field `α`; `exp` and `log`
  are passed as parameters, and the theorems about probabilities instantiate them with
  `Real.exp` and `Real.log`.
* A C++ pointer is the address (`Nat`) of the object; a nullable pointer is an `Option`.
  Objects created by `new` receive consecutive fresh addresses from an allocation counter.
* Source and target positions are word indices of one sentence; they are natural numbers
  and the casts `(int)` of `ComputeDistortionDistance` keep their value.
* Calls that leave `GibbsOperator.cpp` (the random number generator, the online learner,
  `TranslationDelta::apply`) are recorded as events, in call order.
-/

namespace Josiah

/-! ## Data model -/

/-- A `WordsRange`: start and end position, both inclusive. -/
structure WordsRange where
  startPos : Nat
  endPos : Nat
deriving DecidableEq

/-- A `TargetGap`: target-order predecessor, target-order successor, target segment. -/
structure TargetGap where
  leftHypo : Option Nat
  rightHypo : Option Nat
  segment : WordsRange
deriving DecidableEq

/-- The fields of a `Hypothesis` read by the operators. `prevHypo`/`nextHypo` are the
target-order links (`GetPrevHypo`, `GetNextHypo`), `sourcePrevHypo`/`sourceNextHypo` the
source-order links. -/
structure Hypothesis where
  sourceRange : WordsRange
  targetRange : WordsRange
  translationOption : Nat
  prevHypo : Option Nat
  nextHypo : Option Nat
  sourcePrevHypo : Option Nat
  sourceNextHypo : Option Nat

/-- A `Sample` as the operators see it: the source length, the hypothesis covering each
source position, and the hypothesis stored at each address. -/
structure Sample where
  sourceSize : Nat
  hypAtSourceIndex : Nat → Nat
  hypo : Nat → Hypothesis

/-- What a delta was constructed from (constructor name and constructor arguments). -/
inductive DeltaDesc where
  | translationUpdate (option : Nat) (gap : TargetGap)
  | mergeDelta (option : Nat) (gap : TargetGap)
  | pairedTranslationUpdate (leftOption rightOption : Nat) (leftGap rightGap : TargetGap)
  | splitDelta (leftOption rightOption : Nat) (gap : TargetGap)
  | flipDelta (leftOption rightOption : Nat) (leftGap rightGap : TargetGap)
      (totalDistortion : Int)
deriving DecidableEq

/-- A `TranslationDelta*`: the address of the object, what it was built from, and the
values returned by `getScore()` and `getGain()`. -/
structure TranslationDelta (α : Type) where
  addr : Nat
  desc : DeltaDesc
  score : α
  gain : α

/-- Calls made by the sampler core to its collaborators. -/
inductive Event (α : Type) where
  | next
  | doUpdate (current : TranslationDelta α) (target : Option (TranslationDelta α))
  | apply (delta noChange : TranslationDelta α)

/-! ## `log_sum` and the sampler core -/

section Core

variable {α : Type} [LinearOrderedField α]

/-- The template `log_sum` of `GibbsOperator.h`. -/
def log_sum (exp log : α → α) (log_a log_b : α) : α :=
  if log_a < log_b then
    log_b + log (1 + exp (log_a - log_b))
  else
    log_a + log (1 + exp (log_b - log_a))

/-- The loop of `GibbsOperator::chooseTargetAssignment`; `i` is the index of the head of
the remaining deltas, the state is `(bestGain, bestGainIndex)`. -/
def chooseTargetAssignmentLoop :
    List (TranslationDelta α) → Nat → α × Int → α × Int
  | [], _, best => best
  | d :: rest, i, (bestGain, bestGainIndex) =>
      if d.gain > bestGain then
        chooseTargetAssignmentLoop rest (i + 1) (d.gain, (i : Int))
      else
        chooseTargetAssignmentLoop rest (i + 1) (bestGain, bestGainIndex)

/-- `GibbsOperator::chooseTargetAssignment`. -/
def chooseTargetAssignment (deltas : List (TranslationDelta α)) : Int :=
  (chooseTargetAssignmentLoop deltas 0 (-1, -1)).2

/-- The element `deltas[target]` for an `int` index; `none` when the access is outside
the vector. -/
def deltaAt (deltas : List (TranslationDelta α)) (target : Int) :
    Option (TranslationDelta α) :=
  if target < 0 then none else deltas[target.toNat]?

/-- The test `error` of `GibbsOperator::doOnlineLearning`. -/
def onlineLearningError (chosenScore noChangeScore chosenGain noChangeGain : α) : Bool :=
  (decide (chosenScore > noChangeScore) && decide (chosenGain < noChangeGain)) ||
    (decide (chosenScore < noChangeScore) && decide (chosenGain > noChangeGain))

/-- `GibbsOperator::doOnlineLearning`: the calls to the online learner it makes; `none`
when `deltas[chosen]` is outside the vector. -/
def doOnlineLearning (deltas : List (TranslationDelta α))
    (noChangeDelta : TranslationDelta α) (chosen : Nat) : Option (List (Event α)) :=
  match deltas[chosen]? with
  | none => none
  | some chosenDelta =>
      let chosenScore := chosenDelta.score
      let noChangeScore := noChangeDelta.score
      let chosenGain := chosenDelta.gain
      let noChangeGain := noChangeDelta.gain
      let error := onlineLearningError chosenScore noChangeScore chosenGain noChangeGain
      if error then
        let target := chooseTargetAssignment deltas
        some [Event.doUpdate noChangeDelta (deltaAt deltas target)]
      else
        some []

/-- The annealed and normalised scores of `GibbsOperator::doSample` (source lines 75-98):
every score is multiplied by `1.0 / T`, `sum` is the fold of `log_sum` from `scores[0]`
over `scores[1..]`, and `sum` is subtracted from every entry. -/
def normalisedScores (exp log : α → α) (T : α) (deltas : List (TranslationDelta α)) :
    List α :=
  let scores := deltas.map (fun d => d.score)
  let annealing_factor := 1 / T
  let scores := scores.map (fun s => s * annealing_factor)
  match scores with
  | [] => []
  | s0 :: rest =>
      let sum := rest.foldl (log_sum exp log) s0
      scores.map (fun s => s - sum)

/-- The selection loop of `GibbsOperator::doSample` (source lines 107-109):
`for (; position < scores.size() && sum < random; ++position)
   sum = log_sum(sum, scores[position]);` -/
def selectPosition (logSum : α → α → α) (scores : List α) (random : α)
    (position : Nat) (sum : α) : Nat :=
  if h : position < scores.length ∧ sum < random then
    selectPosition logSum scores random (position + 1) (logSum sum (scores[position]))
  else
    position
termination_by scores.length - position

/-- The index `chosen` of `GibbsOperator::doSample` for the draw `random` (the value
returned by the random number generator, before the logarithm is taken). -/
def chosenIndex (exp log : α → α) (T : α) (deltas : List (TranslationDelta α))
    (random : α) : Nat :=
  let scores := normalisedScores exp log T deltas
  let random := log random
  match scores with
  | [] => 0
  | s0 :: _ => selectPosition (log_sum exp log) scores random 1 s0 - 1

/-- `GibbsOperator::doSample`: the calls it makes, in order. `m_gf` says whether a gain
function is attached, `noChangeDelta` is a nullable pointer, `random` is what the random
number generator returns. The result is `none` when the code dereferences a null pointer
or reads outside `deltas`. -/
def doSample (exp log : α → α) (T : α) (m_gf : Bool)
    (deltas : List (TranslationDelta α)) (noChangeDelta : Option (TranslationDelta α))
    (random : α) : Option (List (Event α)) :=
  if deltas.isEmpty then some []
  else
    let chosen := chosenIndex exp log T deltas random
    match noChangeDelta, deltas[chosen]? with
    | some noChange, some chosenDelta =>
        let learning :=
          if m_gf then doOnlineLearning deltas noChange chosen else some []
        let applied :=
          if chosenDelta.addr ≠ noChange.addr then [Event.apply chosenDelta noChange]
          else []
        match learning with
        | none => none
        | some calls => some (Event.next :: (calls ++ applied))
    | _, _ => none

/-- The sample after a sequence of calls: only `apply` changes it. -/
def sampleAfter {S : Type} (applyDelta : TranslationDelta α → TranslationDelta α → S → S)
    (sample : S) : List (Event α) → S
  | [] => sample
  | Event.apply delta noChange :: rest =>
      sampleAfter applyDelta (applyDelta delta noChange sample) rest
  | _ :: rest => sampleAfter applyDelta sample rest

/-- The deltas on which `apply` is called, in call order. -/
def appliedDeltas : List (Event α) → List (TranslationDelta α)
  | [] => []
  | Event.apply delta _ :: rest => delta :: appliedDeltas rest
  | _ :: rest => appliedDeltas rest

/-- The `doUpdate` calls `(current, target)`, in call order. -/
def updateRequests :
    List (Event α) → List (TranslationDelta α × Option (TranslationDelta α))
  | [] => []
  | Event.doUpdate current target :: rest => (current, target) :: updateRequests rest
  | _ :: rest => updateRequests rest

/-- The number of calls of `RandomNumberGenerator::next`. -/
def randomDraws : List (Event α) → Nat
  | [] => 0
  | Event.next :: rest => randomDraws rest + 1
  | _ :: rest => randomDraws rest

/-- A delta with the given address, score and gain (used for concrete instances). -/
def sampleDelta (addr : Nat) (score gain : α) : TranslationDelta α :=
  { addr := addr,
    desc := DeltaDesc.translationUpdate addr
      { leftHypo := none, rightHypo := none, segment := { startPos := 0, endPos := 0 } },
    score := score, gain := gain }

end Core

/-! ## Distortion and the reordering check of the flip operator -/

/-- Code that the operators call and that lies outside `GibbsOperator.{h,cpp}`:
`WordsRange::GetNumWordsCovered`, `WordsRange::operator<`,
`StaticData::Instance().GetMaxDistortion()`,
`TranslationOptionCollection::GetTranslationOptionList` (the addresses of the options
of a source range, in list order), and the score and gain a delta computes in its
constructor. -/
structure Collaborators (α : Type) where
  numWordsCovered : WordsRange → Nat
  rangeLt : WordsRange → WordsRange → Bool
  maxDistortion : Int
  translationOptionList : WordsRange → List Nat
  score : DeltaDesc → α
  gain : DeltaDesc → α

/-- Modelled from the spec: `WordsRange::GetNumWordsCovered` (`WordsRange.h` is not among
the sources), the "covered (count)" query of a range: the number of positions from
`startPos` to `endPos`, both included, which is zero for a range that ends before it
starts. Used for concrete instances only. -/
def wordsCovered (range : WordsRange) : Nat :=
  range.endPos + 1 - range.startPos

/-- The static function `ComputeDistortionDistance`. -/
def ComputeDistortionDistance (numWordsCovered : WordsRange → Nat)
    (prev current : WordsRange) : Int :=
  let dist : Int :=
    (if numWordsCovered prev = 0 then
      (current.startPos : Int)
    else
      (prev.endPos : Int) - (current.startPos : Int) + 1);
  -(abs dist)

/-- One block `if (link exists) { ... }` of `FlipOperator::CheckValidReordering`: the
distortion of the link `prev -> current` is computed, `return false` is taken when its
absolute value exceeds the maximum distortion (`Except.error`, with `totalDistortion` as
it stands), otherwise it is added to `totalDistortion`. -/
def checkLink (numWordsCovered : WordsRange → Nat) (maxDistortion : Int)
    (link : Option (WordsRange × WordsRange)) (totalDistortion : Int) : Except Int Int :=
  match link with
  | none => Except.ok totalDistortion
  | some (prev, current) =>
      let distortionScore := ComputeDistortionDistance numWordsCovered prev current
      if abs distortionScore > maxDistortion then
        Except.error totalDistortion
      else
        Except.ok (totalDistortion + distortionScore)

/-- `FlipOperator::CheckValidReordering`: the returned boolean and the value left in the
reference parameter `totalDistortion`. -/
def CheckValidReordering (numWordsCovered : WordsRange → Nat) (maxDistortion : Int)
    (hypo : Nat → Hypothesis) (leftTgtHypo rightTgtHypo : Nat)
    (leftTgtPrevHypo leftTgtNextHypo rightTgtPrevHypo rightTgtNextHypo : Option Nat) :
    Bool × Int :=
  let source := fun (h : Nat) => (hypo h).sourceRange
  let check := checkLink numWordsCovered maxDistortion
  let run : Except Int Int := do
    let totalDistortion ← check
      (leftTgtPrevHypo.map fun p => (source p, source leftTgtHypo)) 0
    let totalDistortion ← check
      (leftTgtNextHypo.map fun n => (source leftTgtHypo, source n)) totalDistortion
    let totalDistortion ← check
      ((rightTgtPrevHypo.filter fun p => p ≠ leftTgtHypo).map
        fun p => (source p, source rightTgtHypo)) totalDistortion
    check (rightTgtNextHypo.map fun n => (source rightTgtHypo, source n)) totalDistortion
  match run with
  | Except.ok totalDistortion => (true, totalDistortion)
  | Except.error totalDistortion => (false, totalDistortion)

/-! ## The delta lists built by the operators -/

section Operators

variable {α : Type}

/-- The object created by `new ...Delta(...)` at address `addr`. -/
def newDelta (env : Collaborators α) (addr : Nat) (desc : DeltaDesc) : TranslationDelta α :=
  { addr := addr, desc := desc, score := env.score desc, gain := env.gain desc }

/-- Deltas created one after the other, the first at address `addr`. -/
def newDeltas (env : Collaborators α) : Nat → List DeltaDesc → List (TranslationDelta α)
  | _, [] => []
  | addr, desc :: rest => newDelta env addr desc :: newDeltas env (addr + 1) rest

/-- The `TargetGap` around a hypothesis: its target-order neighbours and target range. -/
def gapOf (h : Hypothesis) : TargetGap :=
  { leftHypo := h.prevHypo, rightHypo := h.nextHypo, segment := h.targetRange }

/-- The body of the loop of `MergeSplitOperator::doIteration` up to the call of
`doSample` (source lines 160-263): the vector `deltas` and the pointer `noChangeDelta`
handed to `doSample`. `nextAddr` is the address of the first delta created. The result is
`none` when one of the two assertions fails. -/
def mergeSplitDeltas (env : Collaborators α) (sample : Sample) (splitIndex nextAddr : Nat) :
    Option (List (TranslationDelta α) × Option (TranslationDelta α)) :=
  let hypothesis := sample.hypo (sample.hypAtSourceIndex splitIndex)
  if hypothesis.sourceRange.startPos = splitIndex then
    let rightSourceSegment := hypothesis.sourceRange
    let rightTargetSegment := hypothesis.targetRange
    match hypothesis.sourcePrevHypo with
    | none => none
    | some prevAddr =>
      let prev := sample.hypo prevAddr
      match prev.sourcePrevHypo with
      | none => none
      | some _ =>
        let leftSourceSegment := prev.sourceRange
        let leftTargetSegment := prev.targetRange
        let mergeDescs : List DeltaDesc :=
          if leftTargetSegment.endPos + 1 = rightTargetSegment.startPos then
            let sourceSegment : WordsRange :=
              { startPos := leftSourceSegment.startPos, endPos := rightSourceSegment.endPos }
            let targetSegment : WordsRange :=
              { startPos := leftTargetSegment.startPos, endPos := rightTargetSegment.endPos }
            let gap : TargetGap :=
              { leftHypo := prev.prevHypo, rightHypo := hypothesis.nextHypo,
                segment := targetSegment }
            (env.translationOptionList sourceSegment).map
              fun option => DeltaDesc.mergeDelta option gap
          else []
        let mergeDeltas := newDeltas env nextAddr mergeDescs
        let nextAddr := nextAddr + mergeDescs.length
        let (leftOptions, rightOptions, leftGap, rightGap, noChangeDesc) :=
          if env.rangeLt leftTargetSegment rightTargetSegment then
            (env.translationOptionList leftSourceSegment,
             env.translationOptionList rightSourceSegment,
             gapOf prev, gapOf hypothesis,
             DeltaDesc.pairedTranslationUpdate prev.translationOption
               hypothesis.translationOption (gapOf prev) (gapOf hypothesis))
          else
            (env.translationOptionList rightSourceSegment,
             env.translationOptionList leftSourceSegment,
             gapOf hypothesis, gapOf prev,
             DeltaDesc.pairedTranslationUpdate hypothesis.translationOption
               prev.translationOption (gapOf hypothesis) (gapOf prev))
        let noChangeDelta := newDelta env nextAddr noChangeDesc
        let pairedDescs : List DeltaDesc :=
          rightOptions.flatMap fun ri => leftOptions.map fun li =>
            DeltaDesc.pairedTranslationUpdate li ri leftGap rightGap
        some (mergeDeltas ++ newDeltas env (nextAddr + 1) pairedDescs, some noChangeDelta)
  else
    let sourceSegment := hypothesis.sourceRange
    let gap := gapOf hypothesis
    let noChangeDelta :=
      newDelta env nextAddr (DeltaDesc.translationUpdate hypothesis.translationOption gap)
    let updateDescs : List DeltaDesc :=
      (env.translationOptionList sourceSegment).map
        fun option => DeltaDesc.translationUpdate option gap
    let leftSourceSegment : WordsRange :=
      { startPos := sourceSegment.startPos, endPos := splitIndex - 1 }
    let rightSourceSegment : WordsRange :=
      { startPos := splitIndex, endPos := sourceSegment.endPos }
    let leftOptions := env.translationOptionList leftSourceSegment
    let rightOptions := env.translationOptionList rightSourceSegment
    let splitDescs : List DeltaDesc :=
      rightOptions.flatMap fun ri => leftOptions.map fun li =>
        DeltaDesc.splitDelta li ri gap
    some (newDeltas env (nextAddr + 1) (updateDescs ++ splitDescs), some noChangeDelta)

/-- The body of the loop of `TranslationSwapOperator::doIteration` up to the call of
`doSample` (source lines 280-301), for the hypothesis at address `currHypo`. -/
def translationSwapDeltas (env : Collaborators α) (sample : Sample)
    (currHypo nextAddr : Nat) : List (TranslationDelta α) × Option (TranslationDelta α) :=
  let hypothesis := sample.hypo currHypo
  let gap := gapOf hypothesis
  let sourceSegment := hypothesis.sourceRange
  let noChangeOption := hypothesis.translationOption
  let noChangeDelta := newDelta env nextAddr (DeltaDesc.translationUpdate noChangeOption gap)
  let options := env.translationOptionList sourceSegment
  let otherDescs : List DeltaDesc :=
    (options.filter fun option => option ≠ noChangeOption).map
      fun option => DeltaDesc.translationUpdate option gap
  (noChangeDelta :: newDeltas env (nextAddr + 1) otherDescs, some noChangeDelta)

/-- The check of the flipped configuration of a pair: `CheckValidReordering` on the
chain in which the two hypotheses have exchanged their places in target order (they
become neighbours of each other when their target ranges are contiguous). -/
def flippedCheck (env : Collaborators α) (sample : Sample) (hypothesis followingHyp : Nat) :
    Bool × Int :=
  let this := sample.hypo hypothesis
  let following := sample.hypo followingHyp
  let thisTargetSegment := this.targetRange
  let followingTargetSegment := following.targetRange
  if env.rangeLt thisTargetSegment followingTargetSegment then
    let contiguous : Bool := thisTargetSegment.endPos + 1 = followingTargetSegment.startPos
    let newLeftNextHypo := if contiguous then some hypothesis else this.nextHypo
    let newRightPrevHypo := if contiguous then some followingHyp else following.prevHypo
    CheckValidReordering env.numWordsCovered env.maxDistortion sample.hypo
      followingHyp hypothesis this.prevHypo newLeftNextHypo newRightPrevHypo
      following.nextHypo
  else
    let contiguous : Bool := thisTargetSegment.startPos = followingTargetSegment.endPos + 1
    let newLeftNextHypo := if contiguous then some followingHyp else following.nextHypo
    let newRightPrevHypo := if contiguous then some hypothesis else this.prevHypo
    CheckValidReordering env.numWordsCovered env.maxDistortion sample.hypo
      hypothesis followingHyp following.prevHypo newLeftNextHypo newRightPrevHypo
      this.nextHypo

/-- The check of the current (not flipped) configuration of a pair: `CheckValidReordering`
on the chain as it is, the hypothesis first in target order as the left one. -/
def currentCheck (env : Collaborators α) (sample : Sample) (hypothesis followingHyp : Nat) :
    Bool × Int :=
  let this := sample.hypo hypothesis
  let following := sample.hypo followingHyp
  if env.rangeLt this.targetRange following.targetRange then
    CheckValidReordering env.numWordsCovered env.maxDistortion sample.hypo
      hypothesis followingHyp this.prevHypo this.nextHypo following.prevHypo
      following.nextHypo
  else
    CheckValidReordering env.numWordsCovered env.maxDistortion sample.hypo
      followingHyp hypothesis following.prevHypo following.nextHypo this.prevHypo
      this.nextHypo

/-- The body of the forward loop of `FlipOperator::doIteration` up to the call of
`doSample` (source lines 402-487): `hypothesis` is the hypothesis at `splitPoints[i]`,
`followingHyp` the one at `splitPoints[j]`, `i < j`. The result is the vector `deltas`
and the pointer `noChangeDelta`. -/
def flipDeltasForward (env : Collaborators α) (sample : Sample)
    (hypothesis followingHyp nextAddr : Nat) :
    List (TranslationDelta α) × Option (TranslationDelta α) :=
  let this := sample.hypo hypothesis
  let following := sample.hypo followingHyp
  let thisTargetSegment := this.targetRange
  let followingTargetSegment := following.targetRange
  let check := CheckValidReordering env.numWordsCovered env.maxDistortion sample.hypo
  if env.rangeLt thisTargetSegment followingTargetSegment then
    let contiguous : Bool := thisTargetSegment.endPos + 1 = followingTargetSegment.startPos
    let newLeftNextHypo := if contiguous then some hypothesis else this.nextHypo
    let newRightPrevHypo := if contiguous then some followingHyp else following.prevHypo
    let (isValidSwap, totalDistortion) :=
      check followingHyp hypothesis this.prevHypo newLeftNextHypo newRightPrevHypo
        following.nextHypo
    if isValidSwap then
      let leftGap : TargetGap :=
        { leftHypo := this.prevHypo, rightHypo := this.nextHypo,
          segment := thisTargetSegment }
      let rightGap : TargetGap :=
        { leftHypo := following.prevHypo, rightHypo := following.nextHypo,
          segment := followingTargetSegment }
      let delta := newDelta env nextAddr
        (DeltaDesc.flipDelta following.translationOption this.translationOption
          leftGap rightGap totalDistortion)
      let (_, totalDistortion) :=
        check hypothesis followingHyp this.prevHypo this.nextHypo following.prevHypo
          following.nextHypo
      let noChangeDelta := newDelta env (nextAddr + 1)
        (DeltaDesc.flipDelta this.translationOption following.translationOption
          leftGap rightGap totalDistortion)
      ([delta, noChangeDelta], some noChangeDelta)
    else ([], none)
  else
    let contiguous : Bool := thisTargetSegment.startPos = followingTargetSegment.endPos + 1
    let newLeftNextHypo := if contiguous then some followingHyp else following.nextHypo
    let newRightPrevHypo := if contiguous then some hypothesis else this.prevHypo
    let (isValidSwap, totalDistortion) :=
      check hypothesis followingHyp following.prevHypo newLeftNextHypo newRightPrevHypo
        this.nextHypo
    if isValidSwap then
      let leftGap : TargetGap :=
        { leftHypo := following.prevHypo, rightHypo := following.nextHypo,
          segment := followingTargetSegment }
      let rightGap : TargetGap :=
        { leftHypo := this.prevHypo, rightHypo := this.nextHypo,
          segment := thisTargetSegment }
      let delta := newDelta env nextAddr
        (DeltaDesc.flipDelta this.translationOption following.translationOption
          leftGap rightGap totalDistortion)
      let (_, totalDistortion) :=
        check followingHyp hypothesis following.prevHypo following.nextHypo this.prevHypo
          this.nextHypo
      let noChangeDelta := newDelta env (nextAddr + 1)
        (DeltaDesc.flipDelta following.translationOption this.translationOption
          leftGap rightGap totalDistortion)
      ([delta, noChangeDelta], some noChangeDelta)
    else ([], none)

/-- The body of the backward loop of `FlipOperator::doIteration` up to the call of
`doSample` (source lines 494-573): `hypothesis` is the hypothesis at `splitPoints[j]`,
`followingHyp` the one at `splitPoints[i]`, `j < i`. -/
def flipDeltasBackward (env : Collaborators α) (sample : Sample)
    (hypothesis followingHyp nextAddr : Nat) :
    List (TranslationDelta α) × Option (TranslationDelta α) :=
  let this := sample.hypo hypothesis
  let following := sample.hypo followingHyp
  let thisTargetSegment := this.targetRange
  let followingTargetSegment := following.targetRange
  let check := CheckValidReordering env.numWordsCovered env.maxDistortion sample.hypo
  if env.rangeLt thisTargetSegment followingTargetSegment then
    let contiguous : Bool := thisTargetSegment.endPos + 1 = followingTargetSegment.startPos
    let newLeftNextHypo := if contiguous then some hypothesis else this.nextHypo
    let newRightPrevHypo := if contiguous then some followingHyp else following.prevHypo
    let (isValidSwap, totalDistortion) :=
      check followingHyp hypothesis this.prevHypo newLeftNextHypo newRightPrevHypo
        following.nextHypo
    if isValidSwap then
      let leftGap : TargetGap :=
        { leftHypo := this.prevHypo, rightHypo := this.nextHypo,
          segment := thisTargetSegment }
      let rightGap : TargetGap :=
        { leftHypo := following.prevHypo, rightHypo := following.nextHypo,
          segment := followingTargetSegment }
      let delta := newDelta env nextAddr
        (DeltaDesc.flipDelta following.translationOption this.translationOption
          leftGap rightGap totalDistortion)
      let (_, totalDistortion) :=
        check hypothesis followingHyp this.prevHypo this.nextHypo following.prevHypo
          following.nextHypo
      let noChangeDelta := newDelta env (nextAddr + 1)
        (DeltaDesc.flipDelta this.translationOption following.translationOption
          leftGap rightGap totalDistortion)
      ([delta, noChangeDelta], some noChangeDelta)
    else ([], none)
  else
    let contiguous : Bool := thisTargetSegment.startPos = followingTargetSegment.endPos + 1
    let newLeftNextHypo := if contiguous then some followingHyp else following.nextHypo
    let newRightPrevHypo := if contiguous then some hypothesis else this.prevHypo
    let (isValidSwap, totalDistortion) :=
      check hypothesis followingHyp following.prevHypo newLeftNextHypo newRightPrevHypo
        this.nextHypo
    if isValidSwap then
      let leftGap : TargetGap :=
        { leftHypo := following.prevHypo, rightHypo := following.nextHypo,
          segment := followingTargetSegment }
      let rightGap : TargetGap :=
        { leftHypo := this.prevHypo, rightHypo := this.nextHypo,
          segment := thisTargetSegment }
      let delta := newDelta env nextAddr
        (DeltaDesc.flipDelta this.translationOption following.translationOption
          leftGap rightGap totalDistortion)
      let (_, totalDistortion) :=
        check followingHyp hypothesis following.prevHypo following.nextHypo this.prevHypo
          this.nextHypo
      let noChangeDelta := newDelta env (nextAddr + 1)
        (DeltaDesc.flipDelta following.translationOption this.translationOption
          leftGap rightGap totalDistortion)
      ([delta, noChangeDelta], some noChangeDelta)
    else ([], none)

end Operators

/-! ## A concrete sample -/

/-- Modelled from the spec: `WordsRange::operator<` (`WordsRange.h` is not among the
sources); ranges are "ordered by start position". Used for concrete instances only. -/
def rangeBefore (a b : WordsRange) : Bool :=
  decide (a.startPos < b.startPos)

/-- A chain of three hypotheses in monotone order, at addresses `1`, `2`, `3`: source and
target ranges `[0,2]`, `[3,9]`, `[10,10]`, translation options `11`, `21`, `31`. -/
def exampleSample : Sample where
  sourceSize := 11
  hypAtSourceIndex := fun i => if i ≤ 2 then 1 else if i ≤ 9 then 2 else 3
  hypo := fun a =>
    if a = 1 then
      { sourceRange := { startPos := 0, endPos := 2 },
        targetRange := { startPos := 0, endPos := 2 },
        translationOption := 11, prevHypo := none, nextHypo := some 2,
        sourcePrevHypo := none, sourceNextHypo := some 2 }
    else if a = 2 then
      { sourceRange := { startPos := 3, endPos := 9 },
        targetRange := { startPos := 3, endPos := 9 },
        translationOption := 21, prevHypo := some 1, nextHypo := some 3,
        sourcePrevHypo := some 1, sourceNextHypo := some 3 }
    else
      { sourceRange := { startPos := 10, endPos := 10 },
        targetRange := { startPos := 10, endPos := 10 },
        translationOption := 31, prevHypo := some 2, nextHypo := none,
        sourcePrevHypo := some 2, sourceNextHypo := none }

/-- Collaborators for `exampleSample`: maximum distortion `5`, two options (`11`, `12`)
for the source range `[0,2]` and none for any other range, all scores and gains `0`. -/
def exampleEnv : Collaborators ℚ where
  numWordsCovered := wordsCovered
  rangeLt := rangeBefore
  maxDistortion := 5
  translationOptionList := fun r =>
    if r = { startPos := 0, endPos := 2 } then [11, 12] else []
  score := fun _ => 0
  gain := fun _ => 0

/-- A chain of three hypotheses in monotone order, at addresses `1`, `2`, `3`: source and
target ranges `[0,1]`, `[2,3]`, `[4,5]`, translation options `11`, `21`, `31`. -/
def mergeExampleSample : Sample where
  sourceSize := 6
  hypAtSourceIndex := fun i => if i ≤ 1 then 1 else if i ≤ 3 then 2 else 3
  hypo := fun a =>
    if a = 1 then
      { sourceRange := { startPos := 0, endPos := 1 },
        targetRange := { startPos := 0, endPos := 1 },
        translationOption := 11, prevHypo := none, nextHypo := some 2,
        sourcePrevHypo := none, sourceNextHypo := some 2 }
    else if a = 2 then
      { sourceRange := { startPos := 2, endPos := 3 },
        targetRange := { startPos := 2, endPos := 3 },
        translationOption := 21, prevHypo := some 1, nextHypo := some 3,
        sourcePrevHypo := some 1, sourceNextHypo := some 3 }
    else
      { sourceRange := { startPos := 4, endPos := 5 },
        targetRange := { startPos := 4, endPos := 5 },
        translationOption := 31, prevHypo := some 2, nextHypo := none,
        sourcePrevHypo := some 2, sourceNextHypo := none }

/-- Collaborators for `mergeExampleSample`: options `41`, `42` for the source range
`[2,5]`, `21`, `22` for `[2,3]`, `31`, `32` for `[4,5]`, `51` for `[2,2]`, `61`, `62` for
`[3,3]`, none for any other range; all scores and gains `0`. -/
def mergeExampleEnv : Collaborators ℚ where
  numWordsCovered := wordsCovered
  rangeLt := rangeBefore
  maxDistortion := 5
  translationOptionList := fun r =>
    if r = { startPos := 2, endPos := 5 } then [41, 42]
    else if r = { startPos := 2, endPos := 3 } then [21, 22]
    else if r = { startPos := 4, endPos := 5 } then [31, 32]
    else if r = { startPos := 2, endPos := 2 } then [51]
    else if r = { startPos := 3, endPos := 3 } then [61, 62]
    else []
  score := fun _ => 0
  gain := fun _ => 0

/-! ## The iterations of the operators -/

/-- The loop of `FlipOperator::CollectAllSplitPoints`, entered at `splitIndex` with the
points pushed so far (`static_cast<int>` keeps the value of a word index). -/
def collectSplitPointsFrom (sample : Sample) (sourceSize splitIndex : Nat)
    (splitPoints : List Nat) : List Nat :=
  if splitIndex < sourceSize then
    let hypothesis := sample.hypo (sample.hypAtSourceIndex splitIndex)
    if hypothesis.sourceRange.endPos = splitIndex then
      collectSplitPointsFrom sample sourceSize (splitIndex + 1) (splitPoints ++ [splitIndex])
    else
      collectSplitPointsFrom sample sourceSize (splitIndex + 1) splitPoints
  else
    splitPoints
termination_by sourceSize - splitIndex

/-- `FlipOperator::CollectAllSplitPoints`. -/
def CollectAllSplitPoints (sample : Sample) : List Nat :=
  collectSplitPointsFrom sample sample.sourceSize 0 []

/-- What an operator works with during an iteration: the functions `exp` and `log`, the
annealing temperature, whether a gain function is attached, the values returned by the
random number generator (the `k`-th call returns `random k`), the effect of
`TranslationDelta::apply` on the sample, and the collaborators for the sample as it
stands. -/
structure SamplerConfig (α : Type) where
  exp : α → α
  log : α → α
  T : α
  m_gf : Bool
  random : Nat → α
  applyDelta : TranslationDelta α → TranslationDelta α → Sample → Sample
  collaborators : Sample → Collaborators α

/-- One invocation of `doSample`: the position of the operator, the arguments, and the
calls made. -/
structure SampleCall (α π : Type) where
  position : π
  deltas : List (TranslationDelta α)
  noChangeDelta : Option (TranslationDelta α)
  calls : List (Event α)

/-- The state threaded through an iteration: the sample, the number of random numbers
drawn, the next free address, and the invocations of `doSample` so far. -/
structure OperatorState (α π : Type) where
  sample : Sample
  draws : Nat
  nextAddr : Nat
  sampled : List (SampleCall α π)

/-- Ways an iteration stops early: a failed `assert`, or undefined behaviour (a null
pointer dereferenced, a read outside a vector). -/
inductive Failure where
  | assertion
  | undefinedBehaviour
deriving DecidableEq

section Iterations

variable {α π : Type} [LinearOrderedField α]

/-- The call `doSample(deltas, noChangeDelta)` at a position, after `allocated` objects
were created for it, and its effect on the state. -/
def sampleAt (cfg : SamplerConfig α) (position : π)
    (built : List (TranslationDelta α) × Option (TranslationDelta α)) (allocated : Nat)
    (st : OperatorState α π) : Except (Failure × OperatorState α π) (OperatorState α π) :=
  match doSample cfg.exp cfg.log cfg.T cfg.m_gf built.1 built.2 (cfg.random st.draws) with
  | none => Except.error (Failure.undefinedBehaviour, st)
  | some calls =>
      Except.ok
        { sample := sampleAfter cfg.applyDelta st.sample calls,
          draws := st.draws + randomDraws calls,
          nextAddr := st.nextAddr + allocated,
          sampled := st.sampled ++
            [{ position := position, deltas := built.1, noChangeDelta := built.2,
               calls := calls }] }

/-- The loop `for (k = i; k < bound; ++k) body(k)`; an error ends it. -/
def forUp {σ ε : Type} (body : Nat → σ → Except ε σ) (bound i : Nat) (s : σ) : Except ε σ :=
  if i < bound then
    match body i s with
    | Except.ok s' => forUp body bound (i + 1) s'
    | Except.error e => Except.error e
  else
    Except.ok s
termination_by bound - i

/-- The loop `for (int j = k - 1; j >= 0; --j) body(j)`; an error ends it. -/
def forDown {σ ε : Type} (body : Nat → σ → Except ε σ) : Nat → σ → Except ε σ
  | 0, s => Except.ok s
  | k + 1, s =>
      match body k s with
      | Except.ok s' => forDown body k s'
      | Except.error e => Except.error e

/-- The body of the loop of `MergeSplitOperator::doIteration` for the boundary
`splitIndex` (source lines 157-270): a failed assertion stops the iteration with the
state as it is; otherwise `doSample` is called on the deltas built. -/
def mergeSplitBody (cfg : SamplerConfig α) (splitIndex : Nat) (st : OperatorState α Nat) :
    Except (Failure × OperatorState α Nat) (OperatorState α Nat) :=
  match mergeSplitDeltas (cfg.collaborators st.sample) st.sample splitIndex st.nextAddr with
  | none => Except.error (Failure.assertion, st)
  | some built => sampleAt cfg splitIndex built (built.1.length + 1) st

/-- `MergeSplitOperator::doIteration`:
`for (size_t splitIndex = 1; splitIndex < sourceSize; ++splitIndex)`, with `sourceSize`
read before the loop. -/
def MergeSplitOperator.doIteration (cfg : SamplerConfig α) (st : OperatorState α Nat) :
    Except (Failure × OperatorState α Nat) (OperatorState α Nat) :=
  let sourceSize := st.sample.sourceSize
  forUp (mergeSplitBody cfg) sourceSize 1 st

/-- The body of the forward loop of `FlipOperator::doIteration` for the outer index `i`
and the inner index `j` (source lines 400-490). -/
def flipForwardBody (cfg : SamplerConfig α) (splitPoints : List Nat) (i j : Nat)
    (st : OperatorState α (Nat × Nat)) :
    Except (Failure × OperatorState α (Nat × Nat)) (OperatorState α (Nat × Nat)) :=
  let hypothesis := st.sample.hypAtSourceIndex (splitPoints.getD i 0)
  let followingHyp := st.sample.hypAtSourceIndex (splitPoints.getD j 0)
  let built := flipDeltasForward (cfg.collaborators st.sample) st.sample hypothesis
    followingHyp st.nextAddr
  sampleAt cfg (i, j) built built.1.length st

/-- The body of the backward loop of `FlipOperator::doIteration` for the outer index `i`
and the inner index `j` (source lines 493-576). -/
def flipBackwardBody (cfg : SamplerConfig α) (splitPoints : List Nat) (i j : Nat)
    (st : OperatorState α (Nat × Nat)) :
    Except (Failure × OperatorState α (Nat × Nat)) (OperatorState α (Nat × Nat)) :=
  let hypothesis := st.sample.hypAtSourceIndex (splitPoints.getD j 0)
  let followingHyp := st.sample.hypAtSourceIndex (splitPoints.getD i 0)
  let built := flipDeltasBackward (cfg.collaborators st.sample) st.sample hypothesis
    followingHyp st.nextAddr
  sampleAt cfg (i, j) built built.1.length st

/-- `FlipOperator::doIteration`: the split points are collected once, then for every
`i` the forward loop `for (j = i + 1; j < splitPoints.size(); ++j)` and the backward loop
`for (int j = i - 1; j >= 0; --j)` run. -/
def FlipOperator.doIteration (cfg : SamplerConfig α) (st : OperatorState α (Nat × Nat)) :
    Except (Failure × OperatorState α (Nat × Nat)) (OperatorState α (Nat × Nat)) :=
  let splitPoints := CollectAllSplitPoints st.sample
  forUp
    (fun i st =>
      match forUp (flipForwardBody cfg splitPoints i) splitPoints.length (i + 1) st with
      | Except.ok st' => forDown (flipBackwardBody cfg splitPoints i) i st'
      | Except.error e => Except.error e)
    splitPoints.length 0 st

end Iterations

/-- Two hypotheses whose target order is the reverse of their source order: at address
`1` the source range `[10,10]` translated first (target `[0,0]`), at address `2` the
source range `[0,9]` translated second (target `[1,10]`). -/
def swappedExampleSample : Sample where
  sourceSize := 11
  hypAtSourceIndex := fun i => if i ≤ 9 then 2 else 1
  hypo := fun a =>
    if a = 1 then
      { sourceRange := { startPos := 10, endPos := 10 },
        targetRange := { startPos := 0, endPos := 0 },
        translationOption := 11, prevHypo := none, nextHypo := some 2,
        sourcePrevHypo := some 2, sourceNextHypo := none }
    else
      { sourceRange := { startPos := 0, endPos := 9 },
        targetRange := { startPos := 1, endPos := 10 },
        translationOption := 21, prevHypo := some 1, nextHypo := none,
        sourcePrevHypo := none, sourceNextHypo := some 1 }

/-- A configuration for concrete instances about the positions visited and the
assertions, where the values of `exp` and `log` play no part (rational stand-ins are
used): temperature `1`, no gain function, every draw `1/2`, an `apply` that leaves the
sample as it is, and the collaborators `mergeExampleEnv`. -/
def exampleConfig : SamplerConfig ℚ where
  exp := fun x => 1 + x
  log := fun x => x - 1
  T := 1
  m_gf := false
  random := fun _ => 1 / 2
  applyDelta := fun _ _ sample => sample
  collaborators := fun _ => mergeExampleEnv

/-- The state at the start of an iteration over `mergeExampleSample`. -/
def exampleState : OperatorState ℚ Nat where
  sample := mergeExampleSample
  draws := 0
  nextAddr := 0
  sampled := []

/-! ## Lemmas on the sampler core -/

section CoreLemmas

theorem log_sum_real (a b : ℝ) :
    log_sum Real.exp Real.log a b = Real.log (Real.exp a + Real.exp b) := by
  unfold log_sum
  split_ifs with h
  · have e : Real.exp a + Real.exp b = Real.exp b * (1 + Real.exp (a - b)) := by
      rw [mul_add, mul_one, ← Real.exp_add]
      ring_nf
    rw [e, Real.log_mul (Real.exp_pos b).ne' (by positivity), Real.log_exp]
  · have e : Real.exp a + Real.exp b = Real.exp a * (1 + Real.exp (b - a)) := by
      rw [mul_add, mul_one, ← Real.exp_add]
      ring_nf
    rw [e, Real.log_mul (Real.exp_pos a).ne' (by positivity), Real.log_exp]

theorem sum_map_exp_nonneg (xs : List ℝ) : 0 ≤ (xs.map Real.exp).sum := by
  induction xs with
  | nil => simp
  | cons x xs ih =>
      simp only [List.map_cons, List.sum_cons]
      have := Real.exp_pos x
      linarith

theorem foldl_log_sum_real (xs : List ℝ) (x : ℝ) :
    xs.foldl (log_sum Real.exp Real.log) x
      = Real.log (Real.exp x + (xs.map Real.exp).sum) := by
  induction xs generalizing x with
  | nil => simp
  | cons y ys ih =>
      simp only [List.foldl_cons, List.map_cons, List.sum_cons]
      rw [ih, log_sum_real, Real.exp_log (by positivity)]
      ring_nf

theorem normalisedScores_cons {α : Type} [LinearOrderedField α] (exp log : α → α) (T : α)
    (d0 : TranslationDelta α) (drest : List (TranslationDelta α)) :
    normalisedScores exp log T (d0 :: drest)
      = (d0 :: drest).map (fun d => d.score * (1 / T)
          - (drest.map (fun d => d.score * (1 / T))).foldl (log_sum exp log)
              (d0.score * (1 / T))) := by
  simp [normalisedScores, List.map_map, Function.comp_def]

theorem sum_map_exp_sub (xs : List ℝ) (z : ℝ) :
    (xs.map (fun x => Real.exp (x - z))).sum = (xs.map Real.exp).sum * Real.exp (-z) := by
  induction xs with
  | nil => simp
  | cons x xs ih =>
      simp only [List.map_cons, List.sum_cons, ih, add_mul, ← Real.exp_add]
      ring_nf

/-- The normalising constant is the logarithm of the sum of the exponentials, so the
exponentials of the shifted values sum to one. -/
theorem sum_exp_sub_foldl (x : ℝ) (xs : List ℝ) :
    (((x :: xs).map (fun y => y - xs.foldl (log_sum Real.exp Real.log) x)).map
      Real.exp).sum = 1 := by
  have hpos : 0 < Real.exp x + (xs.map Real.exp).sum := by
    have := sum_map_exp_nonneg xs
    have := Real.exp_pos x
    linarith
  rw [List.map_map]
  have e : (Real.exp ∘ fun y => y - xs.foldl (log_sum Real.exp Real.log) x)
      = fun y => Real.exp (y - xs.foldl (log_sum Real.exp Real.log) x) := rfl
  rw [e, sum_map_exp_sub, foldl_log_sum_real, Real.exp_neg, Real.exp_log hpos]
  simp only [List.map_cons, List.sum_cons]
  exact mul_inv_cancel₀ hpos.ne'

theorem take_succ_foldl {α : Type} (f : α → α → α) (x : α) (xs : List α) (q : Nat)
    (h : q < xs.length) :
    (xs.take (q + 1)).foldl f x = f ((xs.take q).foldl f x) (xs[q]) := by
  rw [List.take_succ, List.foldl_append]
  simp [List.getElem?_eq_getElem h]

/-- What the selection loop returns when it is entered at `position = q + 1` with `sum`
the accumulation of entries `0..q`. -/
theorem selectPosition_spec {α : Type} [LinearOrderedField α] (logSum : α → α → α)
    (p0 : α) (prest : List α) (random : α) (n : Nat) :
    ∀ (q : Nat), prest.length - q = n → q ≤ prest.length →
      q + 1 ≤ selectPosition logSum (p0 :: prest) random (q + 1)
          ((prest.take q).foldl logSum p0) ∧
      selectPosition logSum (p0 :: prest) random (q + 1)
          ((prest.take q).foldl logSum p0) ≤ prest.length + 1 ∧
      (∀ j, q ≤ j →
        j + 1 < selectPosition logSum (p0 :: prest) random (q + 1)
          ((prest.take q).foldl logSum p0) →
        (prest.take j).foldl logSum p0 < random) ∧
      (random ≤ (prest.take
          (selectPosition logSum (p0 :: prest) random (q + 1)
            ((prest.take q).foldl logSum p0) - 1)).foldl logSum p0 ∨
        selectPosition logSum (p0 :: prest) random (q + 1)
          ((prest.take q).foldl logSum p0) = prest.length + 1) := by
  induction n with
  | zero =>
      intro q hq hle
      have hq' : q = prest.length := by omega
      rw [selectPosition]
      have : ¬ (q + 1 < (p0 :: prest).length ∧ (prest.take q).foldl logSum p0 < random) := by
        simp only [List.length_cons]
        omega
      rw [dif_neg this]
      refine ⟨le_refl _, by omega, ?_, Or.inr (by omega)⟩
      intro j h1 h2
      omega
  | succ n ih =>
      intro q hq hle
      have hlt : q < prest.length := by omega
      rw [selectPosition]
      by_cases hs : (prest.take q).foldl logSum p0 < random
      · have hc : q + 1 < (p0 :: prest).length ∧ (prest.take q).foldl logSum p0 < random :=
          ⟨by simp only [List.length_cons]; omega, hs⟩
        rw [dif_pos hc]
        have hget : (p0 :: prest)[q + 1] = prest[q] := by simp
        rw [hget, ← take_succ_foldl logSum p0 prest q hlt]
        obtain ⟨h1, h2, h3, h4⟩ := ih (q + 1) (by omega) (by omega)
        refine ⟨by omega, h2, ?_, h4⟩
        intro j hj1 hj2
        rcases Nat.eq_or_lt_of_le hj1 with hj | hj
        · rw [← hj]
          exact hs
        · exact h3 j hj hj2
      · have hc : ¬ (q + 1 < (p0 :: prest).length ∧
            (prest.take q).foldl logSum p0 < random) := fun h => hs h.2
        rw [dif_neg hc]
        refine ⟨le_refl _, by omega, ?_, Or.inl ?_⟩
        · intro j h1 h2
          omega
        · simpa using not_lt.mp hs

theorem chosenIndex_cons {α : Type} [LinearOrderedField α] (exp log : α → α) (T r : α)
    (deltas : List (TranslationDelta α)) (p0 : α) (prest : List α)
    (h : normalisedScores exp log T deltas = p0 :: prest) :
    chosenIndex exp log T deltas r
      = selectPosition (log_sum exp log) (p0 :: prest) (log r) 1 p0 - 1 := by
  simp only [chosenIndex, h]

/-- Over the reals the accumulation of entries `0..j` is the logarithm of the sum of
their exponentials. -/
theorem prefix_foldl_real (p0 : ℝ) (prest : List ℝ) (j : Nat) :
    (prest.take j).foldl (log_sum Real.exp Real.log) p0
      = Real.log ((((p0 :: prest).take (j + 1)).map Real.exp).sum) := by
  rw [foldl_log_sum_real]
  simp

theorem prefix_sum_exp_pos (p0 : ℝ) (prest : List ℝ) (j : Nat) :
    0 < (((p0 :: prest).take (j + 1)).map Real.exp).sum := by
  simp only [List.take_succ_cons, List.map_cons, List.sum_cons]
  have := sum_map_exp_nonneg (prest.take j)
  have := Real.exp_pos p0
  linarith

end CoreLemmas

/-! ## The sampler core: selection and normalisation -/

section SamplerCore

/-- C1: for a non-empty delta list, `T > 0` and a draw `r` in `(0,1)`, the index chosen by
`doSample` is in range; every earlier index has its left-to-right `log_sum` accumulation
of the normalised log-probabilities below `log r`; at the chosen index the accumulation
is at least `log r`, or the chosen index is the last one; and in terms of the
probabilities `p_i = exp (s_i / T - logZ)` the chosen index is the smallest `k` with
`r ≤ p_0 + ... + p_k`. -/
theorem doSample_chooses_first_prefix_reaching_draw
    (d0 : TranslationDelta ℝ) (drest : List (TranslationDelta ℝ)) (T r : ℝ)
    (_hT : 0 < T) (hr0 : 0 < r) (hr1 : r < 1) :
    let logSum := log_sum Real.exp Real.log
    let logZ := (drest.map (fun d => d.score / T)).foldl logSum (d0.score / T)
    let p0 := d0.score / T - logZ
    let prest := drest.map (fun d => d.score / T - logZ)
    let k := chosenIndex Real.exp Real.log T (d0 :: drest) r
    normalisedScores Real.exp Real.log T (d0 :: drest) = p0 :: prest ∧
    k < (d0 :: drest).length ∧
    (∀ j, j < k → (prest.take j).foldl logSum p0 < Real.log r) ∧
    (Real.log r ≤ (prest.take k).foldl logSum p0 ∨ k = (d0 :: drest).length - 1) ∧
    r ≤ (((p0 :: prest).take (k + 1)).map Real.exp).sum ∧
    (∀ j, j < k → (((p0 :: prest).take (j + 1)).map Real.exp).sum < r) := by
  intro logSum logZ p0 prest k
  have hnorm : normalisedScores Real.exp Real.log T (d0 :: drest) = p0 :: prest := by
    rw [normalisedScores_cons]
    simp only [p0, prest, logZ, logSum, List.map_cons, mul_one_div]
  have hk : k = selectPosition logSum (p0 :: prest) (Real.log r) 1 p0 - 1 :=
    chosenIndex_cons Real.exp Real.log T r (d0 :: drest) p0 prest hnorm
  have hlen : prest.length = drest.length := by simp [prest]
  obtain ⟨h1, h2, h3, h4⟩ :=
    selectPosition_spec logSum p0 prest (Real.log r) (prest.length - 0) 0 rfl (Nat.zero_le _)
  simp only [List.take_zero, List.foldl_nil, zero_add] at h1 h2 h3 h4
  rw [← hk] at h4
  have hlt : ∀ j, j < k → (prest.take j).foldl logSum p0 < Real.log r := by
    intro j hj
    exact h3 j (Nat.zero_le _) (by omega)
  have htotal : (((p0 :: prest).take (drest.length + 1)).map Real.exp).sum = 1 := by
    have hfull : (p0 :: prest).take (drest.length + 1) = p0 :: prest := by
      apply List.take_of_length_le
      simp [prest]
    rw [hfull]
    have := sum_exp_sub_foldl (d0.score / T) (drest.map (fun d => d.score / T))
    simpa [p0, prest, logZ, logSum, List.map_map, Function.comp_def] using this
  have hreach : r ≤ (((p0 :: prest).take (k + 1)).map Real.exp).sum := by
    rcases h4 with h | h
    · rw [prefix_foldl_real] at h
      exact (Real.log_le_log_iff hr0 (prefix_sum_exp_pos p0 prest k)).mp h
    · have hk' : k = drest.length := by omega
      rw [hk', htotal]
      exact hr1.le
  refine ⟨hnorm, ?_, hlt, ?_, hreach, ?_⟩
  · simp only [List.length_cons]
    omega
  · rcases h4 with h | h
    · exact Or.inl h
    · right
      simp only [List.length_cons]
      omega
  · intro j hj
    have := hlt j hj
    rw [prefix_foldl_real] at this
    exact (Real.log_lt_log_iff (prefix_sum_exp_pos p0 prest j) hr0).mp this

/-- Instance of C1: two deltas with scores `1` and `2`, temperature `2`, draw `1/2`. -/
theorem doSample_chooses_first_prefix_reaching_draw_witness :
    chosenIndex Real.exp Real.log 2
        [sampleDelta 0 (1 : ℝ) 0, sampleDelta 1 (2 : ℝ) 0] (1 / 2) < 2 :=
  (doSample_chooses_first_prefix_reaching_draw (sampleDelta 0 (1 : ℝ) 0)
    [sampleDelta 1 (2 : ℝ) 0] 2 (1 / 2) (by norm_num) (by norm_num) (by norm_num)).2.1

/-- C2: for a non-empty list of scores and `T > 0`, with `logZ` the left fold of
`log_sum` over the scaled scores `s_i / T`, the normalised log-probabilities computed by
`doSample` are `s_i / T - logZ`, and their exponentials sum to exactly `1`. -/
theorem normalised_probabilities_sum_to_one
    (d0 : TranslationDelta ℝ) (drest : List (TranslationDelta ℝ)) (T : ℝ) (_hT : 0 < T) :
    let logSum := log_sum Real.exp Real.log
    let logZ := (drest.map (fun d => d.score / T)).foldl logSum (d0.score / T)
    normalisedScores Real.exp Real.log T (d0 :: drest)
        = (d0 :: drest).map (fun d => d.score / T - logZ) ∧
      ((normalisedScores Real.exp Real.log T (d0 :: drest)).map Real.exp).sum = 1 ∧
      ((d0 :: drest).map (fun d => Real.exp (d.score / T - logZ))).sum = 1 := by
  intro logSum logZ
  have hnorm : normalisedScores Real.exp Real.log T (d0 :: drest)
      = (d0 :: drest).map (fun d => d.score / T - logZ) := by
    rw [normalisedScores_cons]
    simp only [logZ, logSum, List.map_cons, mul_one_div]
  have hsum : ((d0 :: drest).map (fun d => Real.exp (d.score / T - logZ))).sum = 1 := by
    have := sum_exp_sub_foldl (d0.score / T) (drest.map (fun d => d.score / T))
    simpa [logZ, logSum, List.map_map, Function.comp_def] using this
  refine ⟨hnorm, ?_, hsum⟩
  rw [hnorm, List.map_map]
  exact hsum

/-- Instance of C2: two deltas with scores `1` and `2` at temperature `2`. -/
theorem normalised_probabilities_sum_to_one_witness :
    ((normalisedScores Real.exp Real.log 2
        [sampleDelta 0 (1 : ℝ) 0, sampleDelta 1 (2 : ℝ) 0]).map Real.exp).sum = 1 :=
  (normalised_probabilities_sum_to_one (sampleDelta 0 (1 : ℝ) 0)
    [sampleDelta 1 (2 : ℝ) 0] 2 (by norm_num)).2.1

end SamplerCore

/-! ## The online-learning bridge and the application of the chosen delta -/

section Bridge

variable {α : Type} [LinearOrderedField α]

theorem onlineLearningError_iff (chosenScore noChangeScore chosenGain noChangeGain : α) :
    onlineLearningError chosenScore noChangeScore chosenGain noChangeGain = true ↔
      (chosenScore > noChangeScore ∧ chosenGain < noChangeGain) ∨
        (chosenScore < noChangeScore ∧ chosenGain > noChangeGain) := by
  simp [onlineLearningError]

theorem doOnlineLearning_eq (deltas : List (TranslationDelta α))
    (noChangeDelta chosenDelta : TranslationDelta α) (chosen : Nat)
    (h : deltas[chosen]? = some chosenDelta) :
    doOnlineLearning deltas noChangeDelta chosen
      = some (if onlineLearningError chosenDelta.score noChangeDelta.score
                chosenDelta.gain noChangeDelta.gain = true
              then [Event.doUpdate noChangeDelta
                      (deltaAt deltas (chooseTargetAssignment deltas))]
              else []) := by
  simp only [doOnlineLearning, h]
  split_ifs <;> rfl

/-- C3: `doOnlineLearning` requests an update from the learner exactly when the chosen
delta and the baseline are ranked in opposite order by model score and by gain; it
requests none when the chosen delta is the baseline itself, when the scores tie or when
the gains tie. -/
theorem doOnlineLearning_updates_iff_rankings_disagree
    (deltas : List (TranslationDelta α)) (noChangeDelta chosenDelta : TranslationDelta α)
    (chosen : Nat) (h : deltas[chosen]? = some chosenDelta) :
    ∃ calls, doOnlineLearning deltas noChangeDelta chosen = some calls ∧
      (updateRequests calls ≠ [] ↔
        (chosenDelta.score > noChangeDelta.score ∧ chosenDelta.gain < noChangeDelta.gain) ∨
        (chosenDelta.score < noChangeDelta.score ∧ chosenDelta.gain > noChangeDelta.gain)) ∧
      (chosenDelta = noChangeDelta → updateRequests calls = []) ∧
      (chosenDelta.score = noChangeDelta.score → updateRequests calls = []) ∧
      (chosenDelta.gain = noChangeDelta.gain → updateRequests calls = []) := by
  refine ⟨_, doOnlineLearning_eq deltas noChangeDelta chosenDelta chosen h, ?_⟩
  by_cases herr : onlineLearningError chosenDelta.score noChangeDelta.score
      chosenDelta.gain noChangeDelta.gain = true
  · have hdis := (onlineLearningError_iff _ _ _ _).mp herr
    rw [if_pos herr]
    refine ⟨⟨fun _ => hdis, fun _ => by simp [updateRequests]⟩, ?_, ?_, ?_⟩
    · intro he
      subst he
      rcases hdis with ⟨h1, _⟩ | ⟨h1, _⟩ <;> exact absurd h1 (lt_irrefl _)
    · intro he
      rw [he] at hdis
      rcases hdis with ⟨h1, _⟩ | ⟨h1, _⟩ <;> exact absurd h1 (lt_irrefl _)
    · intro he
      rw [he] at hdis
      rcases hdis with ⟨_, h1⟩ | ⟨_, h1⟩ <;> exact absurd h1 (lt_irrefl _)
  · have hdis := mt (onlineLearningError_iff _ _ _ _).mpr herr
    rw [if_neg herr]
    refine ⟨⟨fun hne => absurd rfl hne, fun hd => absurd hd hdis⟩, ?_, ?_, ?_⟩ <;>
      intro _ <;> rfl

/-- Instance of C3: baseline score `1` and gain `1/5`, chosen delta score `1/2` and gain
`9/10`. -/
theorem doOnlineLearning_updates_iff_rankings_disagree_witness :
    ∃ calls, doOnlineLearning
        [sampleDelta 0 (1 : ℚ) (1 / 5), sampleDelta 1 (1 / 2 : ℚ) (9 / 10)]
        (sampleDelta 0 (1 : ℚ) (1 / 5)) 1 = some calls ∧ updateRequests calls ≠ [] := by
  obtain ⟨calls, h1, h2, _⟩ := doOnlineLearning_updates_iff_rankings_disagree
    [sampleDelta 0 (1 : ℚ) (1 / 5), sampleDelta 1 (1 / 2 : ℚ) (9 / 10)]
    (sampleDelta 0 (1 : ℚ) (1 / 5)) (sampleDelta 1 (1 / 2 : ℚ) (9 / 10)) 1 rfl
  refine ⟨calls, h1, h2.mpr (Or.inr ⟨?_, ?_⟩)⟩ <;> norm_num [sampleDelta]

/-- The loop of `chooseTargetAssignment` entered with `(bestGain, bestGainIndex)` at
index `i`: either no remaining gain exceeds `bestGain` and the state is returned as it
is, or the result is the first position of the largest remaining gain. -/
theorem chooseTargetAssignmentLoop_spec (rest : List (TranslationDelta α)) :
    ∀ (i : Nat) (bestGain : α) (bestGainIndex : Int),
      ((∀ d ∈ rest, d.gain ≤ bestGain) ∧
        chooseTargetAssignmentLoop rest i (bestGain, bestGainIndex)
          = (bestGain, bestGainIndex)) ∨
      ∃ (j : Nat) (hj : j < rest.length),
        chooseTargetAssignmentLoop rest i (bestGain, bestGainIndex)
          = (rest[j].gain, ((i + j : Nat) : Int)) ∧
        bestGain < rest[j].gain ∧
        (∀ d ∈ rest, d.gain ≤ rest[j].gain) ∧
        ∀ (j' : Nat) (hj' : j' < rest.length), j' < j → rest[j'].gain < rest[j].gain := by
  induction rest with
  | nil =>
      intro i bestGain bestGainIndex
      left
      exact ⟨by simp, rfl⟩
  | cons d rest ih =>
      intro i bestGain bestGainIndex
      by_cases hd : d.gain > bestGain
      · have hstep : chooseTargetAssignmentLoop (d :: rest) i (bestGain, bestGainIndex)
            = chooseTargetAssignmentLoop rest (i + 1) (d.gain, (i : Int)) := by
          simp only [chooseTargetAssignmentLoop, if_pos hd]
        right
        rcases ih (i + 1) d.gain (i : Int) with ⟨hall, heq⟩ | ⟨j, hj, heq, hgt, hall, hfirst⟩
        · refine ⟨0, by simp, ?_, ?_, ?_, ?_⟩
          · rw [hstep, heq]
            simp
          · simpa using hd
          · intro e he
            rcases List.mem_cons.mp he with h | h
            · simp [h]
            · simpa using hall e h
          · intro j' _ hlt
            omega
        · refine ⟨j + 1, by simp only [List.length_cons]; omega, ?_, ?_, ?_, ?_⟩
          · rw [hstep, heq]
            simp only [List.getElem_cons_succ, Prod.mk.injEq, true_and]
            congr 1
            omega
          · simp only [List.getElem_cons_succ]
            exact lt_trans hd hgt
          · intro e he
            simp only [List.getElem_cons_succ]
            rcases List.mem_cons.mp he with h | h
            · rw [h]
              exact hgt.le
            · exact hall e h
          · intro j' hj' hlt
            simp only [List.getElem_cons_succ]
            cases j' with
            | zero => simpa using hgt
            | succ n =>
                simp only [List.getElem_cons_succ]
                exact hfirst n (by simpa using hj') (by omega)
      · have hstep : chooseTargetAssignmentLoop (d :: rest) i (bestGain, bestGainIndex)
            = chooseTargetAssignmentLoop rest (i + 1) (bestGain, bestGainIndex) := by
          simp only [chooseTargetAssignmentLoop, if_neg hd]
        have hd' : d.gain ≤ bestGain := not_lt.mp hd
        rcases ih (i + 1) bestGain bestGainIndex with
          ⟨hall, heq⟩ | ⟨j, hj, heq, hgt, hall, hfirst⟩
        · left
          refine ⟨?_, by rw [hstep, heq]⟩
          intro e he
          rcases List.mem_cons.mp he with h | h
          · rw [h]
            exact hd'
          · exact hall e h
        · right
          refine ⟨j + 1, by simp only [List.length_cons]; omega, ?_, ?_, ?_, ?_⟩
          · rw [hstep, heq]
            simp only [List.getElem_cons_succ, Prod.mk.injEq, true_and]
            congr 1
            omega
          · simpa using hgt
          · intro e he
            simp only [List.getElem_cons_succ]
            rcases List.mem_cons.mp he with h | h
            · rw [h]
              exact le_trans hd' hgt.le
            · exact hall e h
          · intro j' hj' hlt
            simp only [List.getElem_cons_succ]
            cases j' with
            | zero =>
                simp only [List.getElem_cons_zero]
                exact lt_of_le_of_lt hd' hgt
            | succ n =>
                simp only [List.getElem_cons_succ]
                exact hfirst n (by simpa using hj') (by omega)

/-- When some gain exceeds `-1`, `chooseTargetAssignment` returns the smallest index whose
gain is maximal over the list; when no gain exceeds `-1` it returns `-1`. -/
theorem chooseTargetAssignment_spec (deltas : List (TranslationDelta α)) :
    ((∀ d ∈ deltas, d.gain ≤ -1) ∧ chooseTargetAssignment deltas = -1) ∨
    ∃ (m : Nat) (hm : m < deltas.length),
      chooseTargetAssignment deltas = (m : Int) ∧ -1 < deltas[m].gain ∧
      (∀ d ∈ deltas, d.gain ≤ deltas[m].gain) ∧
      ∀ (j : Nat) (hj : j < deltas.length), j < m → deltas[j].gain < deltas[m].gain := by
  rcases chooseTargetAssignmentLoop_spec deltas 0 (-1) (-1) with
    ⟨hall, heq⟩ | ⟨j, hj, heq, hgt, hall, hfirst⟩
  · left
    exact ⟨hall, by simp [chooseTargetAssignment, heq]⟩
  · right
    exact ⟨j, hj, by simp [chooseTargetAssignment, heq], hgt, hall, hfirst⟩

/-- C4 (evaluation at a failing input): with baseline score `1` and gain `-3` and chosen
delta score `1/2` and gain `-2` the bridge detects a disagreement, but
`chooseTargetAssignment` returns `-1` instead of index `1` of the maximal gain, and the
update is reported with the element read at index `-1`, outside the list. -/
theorem chooseTargetAssignment_gains_at_most_minus_one :
    onlineLearningError (1 / 2 : ℚ) 1 (-2) (-3) = true ∧
    chooseTargetAssignment [sampleDelta 0 (1 : ℚ) (-3), sampleDelta 1 (1 / 2 : ℚ) (-2)] = -1 ∧
    doOnlineLearning [sampleDelta 0 (1 : ℚ) (-3), sampleDelta 1 (1 / 2 : ℚ) (-2)]
        (sampleDelta 0 (1 : ℚ) (-3)) 1
      = some [Event.doUpdate (sampleDelta 0 (1 : ℚ) (-3)) none] := by
  have herr : onlineLearningError (1 / 2 : ℚ) 1 (-2) (-3) = true := by
    rw [onlineLearningError_iff]
    right
    constructor <;> norm_num
  have htarget : chooseTargetAssignment
      [sampleDelta 0 (1 : ℚ) (-3), sampleDelta 1 (1 / 2 : ℚ) (-2)] = -1 := by
    rcases chooseTargetAssignment_spec
        [sampleDelta 0 (1 : ℚ) (-3), sampleDelta 1 (1 / 2 : ℚ) (-2)] with
      ⟨_, h⟩ | ⟨m, hm, _, hgt, _, _⟩
    · exact h
    · exfalso
      simp only [List.length_cons, List.length_nil] at hm
      interval_cases m <;> norm_num [sampleDelta] at hgt
  refine ⟨herr, htarget, ?_⟩
  rw [doOnlineLearning_eq _ _ (sampleDelta 1 (1 / 2 : ℚ) (-2)) 1 rfl]
  have herr' : onlineLearningError (sampleDelta 1 (1 / 2 : ℚ) (-2)).score
      (sampleDelta 0 (1 : ℚ) (-3)).score (sampleDelta 1 (1 / 2 : ℚ) (-2)).gain
      (sampleDelta 0 (1 : ℚ) (-3)).gain = true := herr
  rw [if_pos herr', htarget]
  rfl

/-- The index chosen by `doSample` on a non-empty list lies inside the list. -/
theorem chosenIndex_lt_length (exp log : α → α) (T random : α)
    (d0 : TranslationDelta α) (drest : List (TranslationDelta α)) :
    chosenIndex exp log T (d0 :: drest) random < (d0 :: drest).length := by
  have hnorm := normalisedScores_cons exp log T d0 drest
  rw [List.map_cons] at hnorm
  rw [chosenIndex_cons exp log T random (d0 :: drest) _ _ hnorm]
  obtain ⟨h1, h2, _, _⟩ := selectPosition_spec (log_sum exp log)
    (d0.score * (1 / T) - (drest.map (fun d => d.score * (1 / T))).foldl (log_sum exp log)
      (d0.score * (1 / T)))
    (drest.map (fun d => d.score * (1 / T)
      - (drest.map (fun d => d.score * (1 / T))).foldl (log_sum exp log)
          (d0.score * (1 / T))))
    (log random) _ 0 rfl (Nat.zero_le _)
  simp only [List.take_zero, List.foldl_nil, zero_add, List.length_map] at h1 h2
  simp only [List.length_cons]
  omega

/-- The calls of `doSample` on a non-empty list with a baseline, given the chosen
element. -/
theorem doSample_eq (exp log : α → α) (T random : α) ( m_gf : Bool)
    (d0 : TranslationDelta α) (drest : List (TranslationDelta α))
    (noChangeDelta chosenDelta : TranslationDelta α)
    (hget : (d0 :: drest)[chosenIndex exp log T (d0 :: drest) random]? = some chosenDelta) :
    doSample exp log T m_gf (d0 :: drest) (some noChangeDelta) random
      = some (Event.next ::
          ((if m_gf = true ∧ onlineLearningError chosenDelta.score noChangeDelta.score
                chosenDelta.gain noChangeDelta.gain = true
            then [Event.doUpdate noChangeDelta
                    (deltaAt (d0 :: drest) (chooseTargetAssignment (d0 :: drest)))]
            else []) ++
           (if chosenDelta.addr ≠ noChangeDelta.addr
            then [Event.apply chosenDelta noChangeDelta] else []))) := by
  have hlearn := doOnlineLearning_eq (d0 :: drest) noChangeDelta chosenDelta _ hget
  simp only [doSample, List.isEmpty_cons, Bool.false_eq_true, if_false, hget, hlearn]
  cases m_gf <;> simp

/-- C5: on a non-empty delta list with a baseline, `doSample` returns, and it calls
`apply` on `deltas[chosen]` alone and exactly when `deltas[chosen]` is not the baseline
object; when the chosen entry is the baseline no delta is applied and the sample is as
before, otherwise the sample is the result of that one application. -/
theorem doSample_applies_chosen_unless_baseline (exp log : α → α) (T random : α)
    ( m_gf : Bool) (d0 : TranslationDelta α) (drest : List (TranslationDelta α))
    (noChangeDelta : TranslationDelta α) :
    ∃ (chosenDelta : TranslationDelta α) (calls : List (Event α)),
      (d0 :: drest)[chosenIndex exp log T (d0 :: drest) random]? = some chosenDelta ∧
      doSample exp log T m_gf (d0 :: drest) (some noChangeDelta) random = some calls ∧
      appliedDeltas calls
        = (if chosenDelta.addr ≠ noChangeDelta.addr then [chosenDelta] else []) ∧
      (chosenDelta.addr = noChangeDelta.addr →
        appliedDeltas calls = [] ∧
        ∀ (S : Type) (applyDelta : TranslationDelta α → TranslationDelta α → S → S)
          (sample : S), sampleAfter applyDelta sample calls = sample) ∧
      (chosenDelta.addr ≠ noChangeDelta.addr →
        appliedDeltas calls = [chosenDelta] ∧
        ∀ (S : Type) (applyDelta : TranslationDelta α → TranslationDelta α → S → S)
          (sample : S),
          sampleAfter applyDelta sample calls = applyDelta chosenDelta noChangeDelta sample) := by
  have hlt := chosenIndex_lt_length exp log T random d0 drest
  have hget : (d0 :: drest)[chosenIndex exp log T (d0 :: drest) random]?
      = some ((d0 :: drest)[chosenIndex exp log T (d0 :: drest) random]) :=
    List.getElem?_eq_getElem hlt
  generalize (d0 :: drest)[chosenIndex exp log T (d0 :: drest) random] = chosenDelta at hget
  refine ⟨chosenDelta, _, hget,
    doSample_eq exp log T random m_gf d0 drest noChangeDelta chosenDelta hget, ?_⟩
  have hL : (if m_gf = true ∧ onlineLearningError chosenDelta.score noChangeDelta.score
        chosenDelta.gain noChangeDelta.gain = true
      then [Event.doUpdate noChangeDelta
              (deltaAt (d0 :: drest) (chooseTargetAssignment (d0 :: drest)))]
      else []) = [] ∨
      (if m_gf = true ∧ onlineLearningError chosenDelta.score noChangeDelta.score
        chosenDelta.gain noChangeDelta.gain = true
      then [Event.doUpdate noChangeDelta
              (deltaAt (d0 :: drest) (chooseTargetAssignment (d0 :: drest)))]
      else []) = [Event.doUpdate noChangeDelta
              (deltaAt (d0 :: drest) (chooseTargetAssignment (d0 :: drest)))] := by
    by_cases hb : m_gf = true ∧ onlineLearningError chosenDelta.score noChangeDelta.score
        chosenDelta.gain noChangeDelta.gain = true
    · right
      rw [if_pos hb]
    · left
      rw [if_neg hb]
  by_cases ha : chosenDelta.addr = noChangeDelta.addr
  · rw [if_neg (not_not.mpr ha), if_neg (not_not.mpr ha)]
    rcases hL with h | h <;> rw [h] <;>
      exact ⟨rfl, fun _ => ⟨rfl, fun _ _ _ => rfl⟩, fun hne => absurd ha hne⟩
  · rw [if_pos ha, if_pos ha]
    rcases hL with h | h <;> rw [h] <;>
      exact ⟨rfl, fun heq => absurd heq ha, fun _ => ⟨rfl, fun _ _ _ => rfl⟩⟩

end Bridge






/-! ## Distortion of a link -/

section Distortion

/-- C9 (counterexample): a previous range covering no words and a current range starting
at source position `3` give distortion `-3`, not `0`. -/
theorem ComputeDistortionDistance_start_of_derivation_nonzero :
    wordsCovered { startPos := 1, endPos := 0 } = 0 ∧
    ComputeDistortionDistance wordsCovered { startPos := 1, endPos := 0 }
      { startPos := 3, endPos := 4 } = -3 ∧
    ComputeDistortionDistance wordsCovered { startPos := 1, endPos := 0 }
      { startPos := 3, endPos := 4 } ≠ 0 := by
  decide

/-- C9 (amended): when the previous range covers no words, `ComputeDistortionDistance`
returns minus the start position of the current range; it is `0` exactly when the
current range starts at source position `0`. -/
theorem ComputeDistortionDistance_start_of_derivation
    (numWordsCovered : WordsRange → Nat) (prev current : WordsRange)
    (h : numWordsCovered prev = 0) :
    ComputeDistortionDistance numWordsCovered prev current = -(current.startPos : Int) ∧
    (ComputeDistortionDistance numWordsCovered prev current = 0 ↔ current.startPos = 0) := by
  have e : ComputeDistortionDistance numWordsCovered prev current
      = -(current.startPos : Int) := by
    simp only [ComputeDistortionDistance, h, if_true]
    rw [abs_of_nonneg (Int.ofNat_nonneg _)]
  rw [e]
  exact ⟨rfl, by omega⟩

/-- Instance of C9 (amended): empty previous range, current range starting at `3`. -/
theorem ComputeDistortionDistance_start_of_derivation_witness :
    ComputeDistortionDistance wordsCovered { startPos := 1, endPos := 0 }
      { startPos := 3, endPos := 4 } = -((3 : Nat) : Int) :=
  (ComputeDistortionDistance_start_of_derivation wordsCovered { startPos := 1, endPos := 0 }
    { startPos := 3, endPos := 4 } (by decide)).1

/-- C10: when the previous range covers at least one word, `ComputeDistortionDistance`
returns `-|prev.end - current.start + 1|` computed in the integers; the value is never
positive, and it is `0` exactly when the current range starts at the position right
after the end of the previous range. -/
theorem ComputeDistortionDistance_covered
    (numWordsCovered : WordsRange → Nat) (prev current : WordsRange)
    (h : 1 ≤ numWordsCovered prev) :
    ComputeDistortionDistance numWordsCovered prev current
      = -|(prev.endPos : Int) - (current.startPos : Int) + 1| ∧
    ComputeDistortionDistance numWordsCovered prev current ≤ 0 ∧
    (ComputeDistortionDistance numWordsCovered prev current = 0 ↔
      current.startPos = prev.endPos + 1) := by
  have hne : ¬ numWordsCovered prev = 0 := by omega
  have e : ComputeDistortionDistance numWordsCovered prev current
      = -|(prev.endPos : Int) - (current.startPos : Int) + 1| := by
    simp only [ComputeDistortionDistance, hne, if_false]
  rw [e]
  refine ⟨rfl, ?_, ?_⟩
  · have := abs_nonneg ((prev.endPos : Int) - (current.startPos : Int) + 1)
    omega
  · rw [neg_eq_zero, abs_eq_zero]
    omega

/-- Instance of C10: previous range `[2,3]`, current range `[6,7]`. -/
theorem ComputeDistortionDistance_covered_witness :
    ComputeDistortionDistance wordsCovered { startPos := 2, endPos := 3 }
      { startPos := 6, endPos := 7 }
      = -|((3 : Nat) : Int) - ((6 : Nat) : Int) + 1| :=
  (ComputeDistortionDistance_covered wordsCovered { startPos := 2, endPos := 3 }
    { startPos := 6, endPos := 7 } (by decide)).1

end Distortion

/-! ## The reordering check -/

section Reordering

theorem checkLink_none (numWordsCovered : WordsRange → Nat) (maxDistortion total : Int) :
    checkLink numWordsCovered maxDistortion none total = Except.ok total := rfl

theorem checkLink_some (numWordsCovered : WordsRange → Nat) (maxDistortion total : Int)
    (prev current : WordsRange) :
    checkLink numWordsCovered maxDistortion (some (prev, current)) total
      = if |ComputeDistortionDistance numWordsCovered prev current| > maxDistortion then
          Except.error total
        else
          Except.ok (total + ComputeDistortionDistance numWordsCovered prev current) := rfl

/-- A chain of four link checks fails exactly when one of the four links exceeds the
maximum distortion. -/
theorem checkLink_chain_false_iff (numWordsCovered : WordsRange → Nat) (maxDistortion : Int)
    (l1 l2 l3 l4 : Option (WordsRange × WordsRange)) :
    ((match (do
          let totalDistortion ← checkLink numWordsCovered maxDistortion l1 0
          let totalDistortion ← checkLink numWordsCovered maxDistortion l2 totalDistortion
          let totalDistortion ← checkLink numWordsCovered maxDistortion l3 totalDistortion
          checkLink numWordsCovered maxDistortion l4 totalDistortion : Except Int Int) with
      | Except.ok totalDistortion => (true, totalDistortion)
      | Except.error totalDistortion => (false, totalDistortion)).1 = false) ↔
      (∃ l, l1 = some l ∧ |ComputeDistortionDistance numWordsCovered l.1 l.2| > maxDistortion) ∨
      (∃ l, l2 = some l ∧ |ComputeDistortionDistance numWordsCovered l.1 l.2| > maxDistortion) ∨
      (∃ l, l3 = some l ∧ |ComputeDistortionDistance numWordsCovered l.1 l.2| > maxDistortion) ∨
      (∃ l, l4 = some l ∧ |ComputeDistortionDistance numWordsCovered l.1 l.2| > maxDistortion) := by
  rcases l1 with _ | ⟨p1, c1⟩ <;> rcases l2 with _ | ⟨p2, c2⟩ <;>
    rcases l3 with _ | ⟨p3, c3⟩ <;> rcases l4 with _ | ⟨p4, c4⟩ <;>
    simp only [checkLink_none, checkLink_some, bind, Except.bind] <;>
    (try split_ifs) <;> simp_all

/-- C7: `CheckValidReordering` returns false exactly when one of the links it evaluates
has `|distortion| > maxDistortion`; the links are `leftPrev -> left` (when `leftPrev`
exists), `left -> leftNext` (when `leftNext` exists), `rightPrev -> right` (when
`rightPrev` exists and is not the left hypothesis) and `right -> rightNext` (when
`rightNext` exists). With no neighbour at all it returns true. -/
theorem CheckValidReordering_false_iff_some_link_exceeds
    (numWordsCovered : WordsRange → Nat) (maxDistortion : Int) (hypo : Nat → Hypothesis)
    (leftTgtHypo rightTgtHypo : Nat)
    (leftTgtPrevHypo leftTgtNextHypo rightTgtPrevHypo rightTgtNextHypo : Option Nat) :
    ((CheckValidReordering numWordsCovered maxDistortion hypo leftTgtHypo rightTgtHypo
        leftTgtPrevHypo leftTgtNextHypo rightTgtPrevHypo rightTgtNextHypo).1 = false ↔
      (∃ p, leftTgtPrevHypo = some p ∧
        |ComputeDistortionDistance numWordsCovered (hypo p).sourceRange
          (hypo leftTgtHypo).sourceRange| > maxDistortion) ∨
      (∃ n, leftTgtNextHypo = some n ∧
        |ComputeDistortionDistance numWordsCovered (hypo leftTgtHypo).sourceRange
          (hypo n).sourceRange| > maxDistortion) ∨
      (∃ p, rightTgtPrevHypo = some p ∧ p ≠ leftTgtHypo ∧
        |ComputeDistortionDistance numWordsCovered (hypo p).sourceRange
          (hypo rightTgtHypo).sourceRange| > maxDistortion) ∨
      (∃ n, rightTgtNextHypo = some n ∧
        |ComputeDistortionDistance numWordsCovered (hypo rightTgtHypo).sourceRange
          (hypo n).sourceRange| > maxDistortion)) ∧
    (CheckValidReordering numWordsCovered maxDistortion hypo leftTgtHypo rightTgtHypo
        none none none none).1 = true := by
  refine ⟨?_, rfl⟩
  have h := checkLink_chain_false_iff numWordsCovered maxDistortion
    (leftTgtPrevHypo.map fun p => ((hypo p).sourceRange, (hypo leftTgtHypo).sourceRange))
    (leftTgtNextHypo.map fun n => ((hypo leftTgtHypo).sourceRange, (hypo n).sourceRange))
    ((rightTgtPrevHypo.filter fun p => p ≠ leftTgtHypo).map
      fun p => ((hypo p).sourceRange, (hypo rightTgtHypo).sourceRange))
    (rightTgtNextHypo.map fun n => ((hypo rightTgtHypo).sourceRange, (hypo n).sourceRange))
  have hmap : ∀ (o : Option Nat) (f : Nat → WordsRange × WordsRange),
      (∃ l, o.map f = some l ∧
          |ComputeDistortionDistance numWordsCovered l.1 l.2| > maxDistortion) ↔
        ∃ p, o = some p ∧
          |ComputeDistortionDistance numWordsCovered (f p).1 (f p).2| > maxDistortion := by
    intro o f
    cases o <;> simp
  have hfilter : ∀ p, (rightTgtPrevHypo.filter fun p => p ≠ leftTgtHypo) = some p ↔
      rightTgtPrevHypo = some p ∧ p ≠ leftTgtHypo := by
    intro p
    cases rightTgtPrevHypo with
    | none => simp [Option.filter]
    | some q =>
        by_cases hq : q = leftTgtHypo
        · simp [Option.filter, hq]
          intro hp
          rw [← hp]
        · simp only [Option.filter, ne_eq, hq, not_false_eq_true, decide_True, if_true,
            Option.some.injEq]
          constructor
          · intro hp
            exact ⟨hp, by rw [← hp]; exact hq⟩
          · intro hp
            exact hp.1
  rw [hmap, hmap, hmap, hmap] at h
  simp only [hfilter, and_assoc] at h
  exact h

end Reordering

/-! ## The delta lists of the operators -/

section DeltaLists

variable {α : Type}

/-- Deltas created one after the other from address `addr` occupy the addresses
`addr, addr + 1, ...`. -/
theorem newDeltas_addr (env : Collaborators α) (descs : List DeltaDesc) :
    ∀ (addr : Nat) (d : TranslationDelta α), d ∈ newDeltas env addr descs →
      addr ≤ d.addr ∧ d.addr < addr + descs.length := by
  induction descs with
  | nil =>
      intro addr d hd
      simp [newDeltas] at hd
  | cons desc rest ih =>
      intro addr d hd
      simp only [newDeltas, List.mem_cons] at hd
      rcases hd with h | h
      · subst h
        simp [newDelta]
      · have := ih (addr + 1) d h
        simp only [List.length_cons]
        omega

/-- The flip operator hands `doSample` either nothing or the flipped delta followed by the
baseline, for the forward and for the backward loop alike. -/
theorem flipDeltas_eq (env : Collaborators α) (sample : Sample)
    (hypothesis followingHyp nextAddr : Nat) :
    let this := sample.hypo hypothesis
    let following := sample.hypo followingHyp
    let sameOrder := env.rangeLt this.targetRange following.targetRange
    let left := if sameOrder = true then this else following
    let right := if sameOrder = true then following else this
    let flipped := newDelta env nextAddr
      (DeltaDesc.flipDelta right.translationOption left.translationOption
        (gapOf left) (gapOf right) (flippedCheck env sample hypothesis followingHyp).2)
    let baseline := newDelta env (nextAddr + 1)
      (DeltaDesc.flipDelta left.translationOption right.translationOption
        (gapOf left) (gapOf right) (currentCheck env sample hypothesis followingHyp).2)
    flipDeltasForward env sample hypothesis followingHyp nextAddr
      = (if (flippedCheck env sample hypothesis followingHyp).1 = true
          then ([flipped, baseline], some baseline) else ([], none)) ∧
    flipDeltasBackward env sample hypothesis followingHyp nextAddr
      = (if (flippedCheck env sample hypothesis followingHyp).1 = true
          then ([flipped, baseline], some baseline) else ([], none)) := by
  intro this following sameOrder left right flipped baseline
  by_cases hlt : env.rangeLt (sample.hypo hypothesis).targetRange
      (sample.hypo followingHyp).targetRange = true
  · constructor <;>
      simp only [flipDeltasForward, flipDeltasBackward, flippedCheck, currentCheck, hlt,
        if_true, flipped, baseline, left, right, sameOrder, this, following, gapOf]
  · have hlt' : env.rangeLt (sample.hypo hypothesis).targetRange
        (sample.hypo followingHyp).targetRange = false := by simpa using hlt
    constructor <;>
      simp only [flipDeltasForward, flipDeltasBackward, flippedCheck, currentCheck, hlt',
        Bool.false_eq_true, if_false, flipped, baseline, left, right, sameOrder, this,
        following, gapOf]

/-- The baseline of the merge-split operator is an object of its own: no entry of the
list handed to `doSample` has its address. -/
theorem mergeSplitDeltas_baseline_fresh (env : Collaborators α) (sample : Sample)
    (splitIndex nextAddr : Nat) (deltas : List (TranslationDelta α))
    (baseline : Option (TranslationDelta α))
    (h : mergeSplitDeltas env sample splitIndex nextAddr = some (deltas, baseline)) :
    ∃ noChangeDelta, baseline = some noChangeDelta ∧
      ∀ d ∈ deltas, d.addr ≠ noChangeDelta.addr := by
  simp only [mergeSplitDeltas] at h
  split_ifs at h with hsplit
  · split at h
    · exact absurd h (by simp)
    · split at h
      · exact absurd h (by simp)
      · by_cases hlt : env.rangeLt (sample.hypo ‹Nat›).targetRange
            (sample.hypo (sample.hypAtSourceIndex splitIndex)).targetRange = true
        all_goals
          simp only [hlt, if_true, if_false, Bool.false_eq_true, Option.some.injEq,
            Prod.mk.injEq] at h
          obtain ⟨hd, hb⟩ := h
          refine ⟨_, hb.symm, ?_⟩
          intro d hmem
          rw [← hd, List.mem_append] at hmem
          rcases hmem with hm | hm
          · have := newDeltas_addr env _ _ d hm
            simp only [newDelta]
            omega
          · have := newDeltas_addr env _ _ d hm
            simp only [newDelta]
            omega
  · simp only [Option.some.injEq, Prod.mk.injEq] at h
    obtain ⟨hd, hb⟩ := h
    refine ⟨_, hb.symm, ?_⟩
    intro d hmem
    rw [← hd] at hmem
    have := newDeltas_addr env _ _ d hmem
    simp only [newDelta]
    omega

/-- C6 (counterexample): at source boundary `1` of `exampleSample`, inside the segment
`[0,2]`, the merge-split operator hands `doSample` two deltas, the objects at addresses
`1` and `2`, and the baseline is the object at address `0`, which is not in the list. -/
theorem mergeSplit_baseline_is_not_an_entry :
    (mergeSplitDeltas exampleEnv exampleSample 1 0).map
        (fun r => (r.1.map (fun d => d.addr), r.2.map (fun d => d.addr)))
      = some ([1, 2], some 0) := by
  decide

/-- C6 (amended): the translation-swap operator hands `doSample` a list whose entry `0`
is the baseline; the flip operator (forward and backward loop) hands it either the empty
list or a list that contains the baseline; the merge-split operator passes a baseline
that is an object of its own and is the address of no entry of its list. -/
theorem baseline_entry_of_swap_and_flip_not_of_mergeSplit
    (env : Collaborators α) (sample : Sample) (currHypo hypothesis followingHyp : Nat)
    (splitIndex nextAddr : Nat) :
    (∃ noChangeDelta rest,
      translationSwapDeltas env sample currHypo nextAddr
        = (noChangeDelta :: rest, some noChangeDelta)) ∧
    ((flipDeltasForward env sample hypothesis followingHyp nextAddr).1 = [] ∨
      ∃ noChangeDelta,
        (flipDeltasForward env sample hypothesis followingHyp nextAddr).2
          = some noChangeDelta ∧
        noChangeDelta ∈ (flipDeltasForward env sample hypothesis followingHyp nextAddr).1) ∧
    ((flipDeltasBackward env sample hypothesis followingHyp nextAddr).1 = [] ∨
      ∃ noChangeDelta,
        (flipDeltasBackward env sample hypothesis followingHyp nextAddr).2
          = some noChangeDelta ∧
        noChangeDelta ∈ (flipDeltasBackward env sample hypothesis followingHyp nextAddr).1) ∧
    (match mergeSplitDeltas env sample splitIndex nextAddr with
      | none => True
      | some (deltas, baseline) =>
          ∃ noChangeDelta, baseline = some noChangeDelta ∧
            ∀ d ∈ deltas, d.addr ≠ noChangeDelta.addr) := by
  obtain ⟨hf, hb⟩ := flipDeltas_eq env sample hypothesis followingHyp nextAddr
  refine ⟨⟨_, _, rfl⟩, ?_, ?_, ?_⟩
  · rw [hf]
    by_cases hv : (flippedCheck env sample hypothesis followingHyp).1 = true
    · rw [if_pos hv]
      right
      exact ⟨_, rfl, by simp⟩
    · rw [if_neg hv]
      left
      rfl
  · rw [hb]
    by_cases hv : (flippedCheck env sample hypothesis followingHyp).1 = true
    · rw [if_pos hv]
      right
      exact ⟨_, rfl, by simp⟩
    · rw [if_neg hv]
      left
      rfl
  · cases hms : mergeSplitDeltas env sample splitIndex nextAddr with
    | none => trivial
    | some r =>
        obtain ⟨deltas, baseline⟩ := r
        exact mergeSplitDeltas_baseline_fresh env sample splitIndex nextAddr deltas baseline hms

/-- The pair of the first and third hypothesis of `exampleSample` with maximum distortion
`5`: after the flip the link from the new left hypothesis `[10,10]` to its successor
`[3,9]` has distortion `-8`, the check rejects, and no delta is built. -/
theorem flip_rejected_example :
    |ComputeDistortionDistance wordsCovered { startPos := 10, endPos := 10 }
        { startPos := 3, endPos := 9 }| = 8 ∧
    (flippedCheck exampleEnv exampleSample 1 3).1 = false ∧
    ((flipDeltasForward exampleEnv exampleSample 1 3 0).1.map (fun d => d.addr)) = [] ∧
    ((flipDeltasForward exampleEnv exampleSample 1 3 0).2.map (fun d => d.addr)) = none := by
  decide

/-- C8: for a pair examined by `FlipOperator::doIteration`, in the forward and in the
backward loop, the list handed to `doSample` is empty (with a null baseline) when
`CheckValidReordering` rejects the flipped configuration, and then `doSample` makes no
call and the sample stays as it is; otherwise the list is exactly the flipped delta
(options exchanged, distortion of the flipped configuration) followed by the not-flipped
baseline delta (current options, distortion of the current configuration). -/
theorem flip_hands_nothing_or_flipped_then_baseline [LinearOrderedField α]
    (env : Collaborators α) (sample : Sample) (hypothesis followingHyp nextAddr : Nat) :
    let this := sample.hypo hypothesis
    let following := sample.hypo followingHyp
    let sameOrder := env.rangeLt this.targetRange following.targetRange
    let left := if sameOrder = true then this else following
    let right := if sameOrder = true then following else this
    let flipped := newDelta env nextAddr
      (DeltaDesc.flipDelta right.translationOption left.translationOption
        (gapOf left) (gapOf right) (flippedCheck env sample hypothesis followingHyp).2)
    let baseline := newDelta env (nextAddr + 1)
      (DeltaDesc.flipDelta left.translationOption right.translationOption
        (gapOf left) (gapOf right) (currentCheck env sample hypothesis followingHyp).2)
    let forward := flipDeltasForward env sample hypothesis followingHyp nextAddr
    let backward := flipDeltasBackward env sample hypothesis followingHyp nextAddr
    (((flippedCheck env sample hypothesis followingHyp).1 = false ∧
        forward = ([], none) ∧ backward = ([], none) ∧
        ∀ (exp log : α → α) (T random : α) ( m_gf : Bool),
          doSample exp log T m_gf forward.1 forward.2 random = some [] ∧
          doSample exp log T m_gf backward.1 backward.2 random = some [] ∧
          ∀ (S : Type) (applyDelta : TranslationDelta α → TranslationDelta α → S → S)
            (s : S), sampleAfter applyDelta s ([] : List (Event α)) = s) ∨
      ((flippedCheck env sample hypothesis followingHyp).1 = true ∧
        forward = ([flipped, baseline], some baseline) ∧
        backward = ([flipped, baseline], some baseline))) := by
  intro this following sameOrder left right flipped baseline forward backward
  obtain ⟨hf, hb⟩ := flipDeltas_eq env sample hypothesis followingHyp nextAddr
  by_cases hv : (flippedCheck env sample hypothesis followingHyp).1 = true
  · right
    rw [if_pos hv] at hf hb
    exact ⟨hv, hf, hb⟩
  · left
    rw [if_neg hv] at hf hb
    have hf' : forward = ([], none) := hf
    have hb' : backward = ([], none) := hb
    refine ⟨by simpa using hv, hf', hb', ?_⟩
    intro exp log T random m_gf
    rw [hf', hb']
    exact ⟨rfl, rfl, fun _ _ _ => rfl⟩

end DeltaLists

/-! ## The empty candidate list and the algebra of `log_sum` -/

section EmptyAndLogSum

/-- C11: `doSample` on an empty delta list returns at once for every baseline argument,
the null pointer included: it makes no call at all, so it draws no random number,
requests no update from the learner, applies no delta, and the sample is as before. -/
theorem doSample_empty_is_noop {α : Type} [LinearOrderedField α] (exp log : α → α)
    (T random : α) ( m_gf : Bool) (noChangeDelta : Option (TranslationDelta α)) :
    ∃ calls, doSample exp log T m_gf [] noChangeDelta random = some calls ∧
      calls = [] ∧ randomDraws calls = 0 ∧ updateRequests calls = [] ∧
      appliedDeltas calls = [] ∧
      ∀ (S : Type) (applyDelta : TranslationDelta α → TranslationDelta α → S → S)
        (sample : S), sampleAfter applyDelta sample calls = sample :=
  ⟨[], rfl, rfl, rfl, rfl, rfl, fun _ _ _ => rfl⟩

/-- C16: over the reals `log_sum a b` is `max a b + log (1 + exp (-|a - b|))`, which is
`log (exp a + exp b)`; in particular `log_sum a a = a + log 2`. -/
theorem log_sum_closed_form (a b : ℝ) :
    log_sum Real.exp Real.log a b = max a b + Real.log (1 + Real.exp (-|a - b|)) ∧
    log_sum Real.exp Real.log a b = Real.log (Real.exp a + Real.exp b) ∧
    log_sum Real.exp Real.log a a = a + Real.log 2 := by
  refine ⟨?_, log_sum_real a b, ?_⟩
  · unfold log_sum
    split_ifs with h
    · rw [max_eq_right h.le, abs_of_neg (by linarith), neg_neg]
    · have hba : b ≤ a := not_lt.mp h
      rw [max_eq_left hba, abs_of_nonneg (by linarith), neg_sub]
  · unfold log_sum
    rw [if_neg (lt_irrefl a), sub_self, Real.exp_zero]
    norm_num

/-- C17: `log_sum` is commutative, whatever `exp` and `log` are; for `a = b` both calls
take the same branch. -/
theorem log_sum_comm {α : Type} [LinearOrderedField α] (exp log : α → α) (a b : α) :
    log_sum exp log a b = log_sum exp log b a := by
  unfold log_sum
  rcases lt_trichotomy a b with h | h | h
  · rw [if_pos h, if_neg (not_lt.mpr h.le)]
  · subst h
    rfl
  · rw [if_neg (not_lt.mpr h.le), if_pos h]

end EmptyAndLogSum

/-! ## Selection in terms of cumulative probabilities -/

section Cumulative

/-- Over the reals, for a draw in `(0,1)`, the chosen index is in range, the cumulative
probability at the chosen index reaches the draw, and no earlier one does. -/
theorem chosenIndex_real_spec (d0 : TranslationDelta ℝ) (drest : List (TranslationDelta ℝ))
    (T r : ℝ) (hr0 : 0 < r) (hr1 : r < 1) :
    chosenIndex Real.exp Real.log T (d0 :: drest) r < (d0 :: drest).length ∧
    r ≤ (((normalisedScores Real.exp Real.log T (d0 :: drest)).take
          (chosenIndex Real.exp Real.log T (d0 :: drest) r + 1)).map Real.exp).sum ∧
    ∀ j, j < chosenIndex Real.exp Real.log T (d0 :: drest) r →
      (((normalisedScores Real.exp Real.log T (d0 :: drest)).take (j + 1)).map
        Real.exp).sum < r := by
  have hnorm := normalisedScores_cons Real.exp Real.log T d0 drest
  rw [List.map_cons] at hnorm
  generalize hz : (drest.map (fun d => d.score * (1 / T))).foldl
    (log_sum Real.exp Real.log) (d0.score * (1 / T)) = logZ at hnorm
  generalize hp0 : d0.score * (1 / T) - logZ = p0 at hnorm
  generalize hprest : drest.map (fun d => d.score * (1 / T) - logZ) = prest at hnorm
  have hk := chosenIndex_cons Real.exp Real.log T r (d0 :: drest) p0 prest hnorm
  have hlen : prest.length = drest.length := by simp [← hprest]
  obtain ⟨h1, h2, h3, h4⟩ := selectPosition_spec (log_sum Real.exp Real.log) p0 prest
    (Real.log r) (prest.length - 0) 0 rfl (Nat.zero_le _)
  simp only [List.take_zero, List.foldl_nil, zero_add] at h1 h2 h3 h4
  rw [← hk] at h4
  rw [hnorm]
  generalize chosenIndex Real.exp Real.log T (d0 :: drest) r = k at hk h4 ⊢
  have hlt : ∀ j, j < k →
      (prest.take j).foldl (log_sum Real.exp Real.log) p0 < Real.log r := by
    intro j hj
    exact h3 j (Nat.zero_le _) (by omega)
  have htotal : (((p0 :: prest).take (drest.length + 1)).map Real.exp).sum = 1 := by
    have hfull : (p0 :: prest).take (drest.length + 1) = p0 :: prest := by
      apply List.take_of_length_le
      simp [hlen]
    rw [hfull]
    have := sum_exp_sub_foldl (d0.score * (1 / T)) (drest.map (fun d => d.score * (1 / T)))
    rw [hz] at this
    simpa [← hp0, ← hprest, List.map_map, Function.comp_def] using this
  refine ⟨?_, ?_, ?_⟩
  · simp only [List.length_cons]
    omega
  · rcases h4 with h | h
    · rw [prefix_foldl_real] at h
      exact (Real.log_le_log_iff hr0 (prefix_sum_exp_pos p0 prest k)).mp h
    · have hk' : k = drest.length := by omega
      rw [hk', htotal]
      exact hr1.le
  · intro j hj
    have := hlt j hj
    rw [prefix_foldl_real] at this
    exact (Real.log_lt_log_iff (prefix_sum_exp_pos p0 prest j) hr0).mp this

/-- The chosen index is `m` as soon as the cumulative probability reaches the draw at `m`
and at no earlier index. -/
theorem chosenIndex_real_eq (d0 : TranslationDelta ℝ) (drest : List (TranslationDelta ℝ))
    (T r : ℝ) (hr0 : 0 < r) (hr1 : r < 1) (m : Nat)
    (hreach : r ≤ (((normalisedScores Real.exp Real.log T (d0 :: drest)).take
        (m + 1)).map Real.exp).sum)
    (hbelow : ∀ j, j < m →
      (((normalisedScores Real.exp Real.log T (d0 :: drest)).take (j + 1)).map
        Real.exp).sum < r) :
    chosenIndex Real.exp Real.log T (d0 :: drest) r = m := by
  obtain ⟨_, h2, h3⟩ := chosenIndex_real_spec d0 drest T r hr0 hr1
  rcases lt_trichotomy (chosenIndex Real.exp Real.log T (d0 :: drest) r) m with h | h | h
  · exact absurd h2 (not_le.mpr (hbelow _ h))
  · exact h
  · exact absurd hreach (not_le.mpr (h3 m h))

end Cumulative

/-! ## Equal scores -/

section EqualScores

/-- C18: at `T = 1` two deltas with the same score `s` get the normalised log-probability
`-log 2` each, that is probability `1/2` each, and for a draw `r > 0` the chosen index is
`0` when `r ≤ 1/2` and `1` when `r > 1/2`. -/
theorem equal_scores_split_evenly (d0 d1 : TranslationDelta ℝ) (s r : ℝ)
    (h0 : d0.score = s) (h1 : d1.score = s) (hr0 : 0 < r) :
    normalisedScores Real.exp Real.log 1 [d0, d1] = [-Real.log 2, -Real.log 2] ∧
    (normalisedScores Real.exp Real.log 1 [d0, d1]).map Real.exp = [1 / 2, 1 / 2] ∧
    (r ≤ 1 / 2 → chosenIndex Real.exp Real.log 1 [d0, d1] r = 0) ∧
    (1 / 2 < r → chosenIndex Real.exp Real.log 1 [d0, d1] r = 1) := by
  have hnorm : normalisedScores Real.exp Real.log 1 [d0, d1]
      = [-Real.log 2, -Real.log 2] := by
    rw [normalisedScores_cons]
    have hls : log_sum Real.exp Real.log s s = s + Real.log 2 := by
      unfold log_sum
      rw [if_neg (lt_irrefl s), sub_self, Real.exp_zero]
      norm_num
    simp only [List.map_cons, List.map_nil, List.foldl_cons, List.foldl_nil, h0, h1,
      div_one, mul_one, hls]
    norm_num
  have hhalf : Real.exp (-Real.log 2) = 1 / 2 := by
    rw [Real.exp_neg, Real.exp_log (by norm_num)]
    norm_num
  have hlog : Real.log (1 / 2) = -Real.log 2 := by
    rw [one_div, Real.log_inv]
  have hk := chosenIndex_cons Real.exp Real.log 1 r [d0, d1] _ _ hnorm
  refine ⟨hnorm, ?_, ?_, ?_⟩
  · rw [hnorm]
    simp only [List.map_cons, List.map_nil, hhalf]
  · intro hr
    have hle : Real.log r ≤ -Real.log 2 := by
      rw [← hlog]
      exact Real.log_le_log hr0 hr
    rw [hk, selectPosition, dif_neg (fun h => absurd h.2 (not_lt.mpr hle))]
  · intro hr
    have hlt : -Real.log 2 < Real.log r := by
      rw [← hlog]
      exact Real.log_lt_log (by norm_num) hr
    have hc : 1 < [-Real.log 2, -Real.log 2].length ∧ -Real.log 2 < Real.log r :=
      ⟨by simp, hlt⟩
    rw [hk, selectPosition, dif_pos hc, selectPosition, dif_neg (by simp)]

/-- Instance of C18: two deltas of score `3`, draw `1/4`. -/
theorem equal_scores_split_evenly_witness :
    chosenIndex Real.exp Real.log 1 [sampleDelta 0 (3 : ℝ) 0, sampleDelta 1 (3 : ℝ) 0]
      (1 / 4) = 0 :=
  (equal_scores_split_evenly (sampleDelta 0 (3 : ℝ) 0) (sampleDelta 1 (3 : ℝ) 0) 3 (1 / 4)
    rfl rfl (by norm_num)).2.2.1 (by norm_num)

end EqualScores

/-! ## The delta lists of the merge-split and translation-swap operators -/

section MergeSplitLists

variable {α : Type}

theorem newDeltas_map_desc (env : Collaborators α) (descs : List DeltaDesc) :
    ∀ (addr : Nat), (newDeltas env addr descs).map (fun d => d.desc) = descs := by
  induction descs with
  | nil => intro addr; rfl
  | cons desc rest ih =>
      intro addr
      simp only [newDeltas, List.map_cons, ih, newDelta]

theorem newDeltas_length (env : Collaborators α) (descs : List DeltaDesc) (addr : Nat) :
    (newDeltas env addr descs).length = descs.length := by
  rw [← List.length_map (newDeltas env addr descs) (fun d => d.desc), newDeltas_map_desc]

theorem newDeltas_desc_mem (env : Collaborators α) (descs : List DeltaDesc) (addr : Nat)
    (d : TranslationDelta α) (h : d ∈ newDeltas env addr descs) : d.desc ∈ descs := by
  rw [← newDeltas_map_desc env descs addr]
  exact List.mem_map_of_mem (fun d => d.desc) h

/-- The nested loops `for ri ... for li ...` produce one entry per pair. -/
theorem length_pairs {β γ : Type} (ls rs : List β) (f : β → β → γ) :
    (rs.flatMap fun ri => ls.map fun li => f li ri).length = ls.length * rs.length := by
  induction rs with
  | nil => simp
  | cons r rs ih =>
      simp only [List.flatMap_cons, List.length_append, List.length_map, ih,
        List.length_cons]
      ring

/-- The list and the baseline built at a boundary that is an existing split, when both
assertions hold. -/
theorem mergeSplitDeltas_existing_split (env : Collaborators α) (sample : Sample)
    (splitIndex nextAddr prevAddr prevPrev : Nat)
    (hsplit : (sample.hypo (sample.hypAtSourceIndex splitIndex)).sourceRange.startPos
      = splitIndex)
    (hprev : (sample.hypo (sample.hypAtSourceIndex splitIndex)).sourcePrevHypo
      = some prevAddr)
    (hprevprev : (sample.hypo prevAddr).sourcePrevHypo = some prevPrev) :
    mergeSplitDeltas env sample splitIndex nextAddr
      = some
        (newDeltas env nextAddr
            (if (sample.hypo prevAddr).targetRange.endPos + 1
                = (sample.hypo (sample.hypAtSourceIndex splitIndex)).targetRange.startPos
             then
              (env.translationOptionList
                { startPos := (sample.hypo prevAddr).sourceRange.startPos,
                  endPos := (sample.hypo
                    (sample.hypAtSourceIndex splitIndex)).sourceRange.endPos }).map
                fun option => DeltaDesc.mergeDelta option
                  { leftHypo := (sample.hypo prevAddr).prevHypo,
                    rightHypo := (sample.hypo (sample.hypAtSourceIndex splitIndex)).nextHypo,
                    segment :=
                      { startPos := (sample.hypo prevAddr).targetRange.startPos,
                        endPos := (sample.hypo
                          (sample.hypAtSourceIndex splitIndex)).targetRange.endPos } }
             else []) ++
          newDeltas env
            (nextAddr +
              (if (sample.hypo prevAddr).targetRange.endPos + 1
                  = (sample.hypo (sample.hypAtSourceIndex splitIndex)).targetRange.startPos
               then
                (env.translationOptionList
                  { startPos := (sample.hypo prevAddr).sourceRange.startPos,
                    endPos := (sample.hypo
                      (sample.hypAtSourceIndex splitIndex)).sourceRange.endPos }).length
               else 0) + 1)
            ((env.translationOptionList
                (if env.rangeLt (sample.hypo prevAddr).targetRange
                    (sample.hypo (sample.hypAtSourceIndex splitIndex)).targetRange = true
                 then sample.hypo (sample.hypAtSourceIndex splitIndex)
                 else sample.hypo prevAddr).sourceRange).flatMap fun ri =>
              (env.translationOptionList
                (if env.rangeLt (sample.hypo prevAddr).targetRange
                    (sample.hypo (sample.hypAtSourceIndex splitIndex)).targetRange = true
                 then sample.hypo prevAddr
                 else sample.hypo (sample.hypAtSourceIndex splitIndex)).sourceRange).map
                fun li => DeltaDesc.pairedTranslationUpdate li ri
                  (gapOf (if env.rangeLt (sample.hypo prevAddr).targetRange
                      (sample.hypo (sample.hypAtSourceIndex splitIndex)).targetRange = true
                    then sample.hypo prevAddr
                    else sample.hypo (sample.hypAtSourceIndex splitIndex)))
                  (gapOf (if env.rangeLt (sample.hypo prevAddr).targetRange
                      (sample.hypo (sample.hypAtSourceIndex splitIndex)).targetRange = true
                    then sample.hypo (sample.hypAtSourceIndex splitIndex)
                    else sample.hypo prevAddr))),
         some (newDelta env
            (nextAddr +
              (if (sample.hypo prevAddr).targetRange.endPos + 1
                  = (sample.hypo (sample.hypAtSourceIndex splitIndex)).targetRange.startPos
               then
                (env.translationOptionList
                  { startPos := (sample.hypo prevAddr).sourceRange.startPos,
                    endPos := (sample.hypo
                      (sample.hypAtSourceIndex splitIndex)).sourceRange.endPos }).length
               else 0))
            (DeltaDesc.pairedTranslationUpdate
              (if env.rangeLt (sample.hypo prevAddr).targetRange
                  (sample.hypo (sample.hypAtSourceIndex splitIndex)).targetRange = true
               then sample.hypo prevAddr
               else sample.hypo (sample.hypAtSourceIndex splitIndex)).translationOption
              (if env.rangeLt (sample.hypo prevAddr).targetRange
                  (sample.hypo (sample.hypAtSourceIndex splitIndex)).targetRange = true
               then sample.hypo (sample.hypAtSourceIndex splitIndex)
               else sample.hypo prevAddr).translationOption
              (gapOf (if env.rangeLt (sample.hypo prevAddr).targetRange
                  (sample.hypo (sample.hypAtSourceIndex splitIndex)).targetRange = true
                then sample.hypo prevAddr
                else sample.hypo (sample.hypAtSourceIndex splitIndex)))
              (gapOf (if env.rangeLt (sample.hypo prevAddr).targetRange
                  (sample.hypo (sample.hypAtSourceIndex splitIndex)).targetRange = true
                then sample.hypo (sample.hypAtSourceIndex splitIndex)
                else sample.hypo prevAddr))))) := by
  simp only [mergeSplitDeltas, hsplit, if_true, hprev, hprevprev]
  by_cases hlt : env.rangeLt (sample.hypo prevAddr).targetRange
      (sample.hypo (sample.hypAtSourceIndex splitIndex)).targetRange = true <;>
    by_cases hc : (sample.hypo prevAddr).targetRange.endPos + 1
      = (sample.hypo (sample.hypAtSourceIndex splitIndex)).targetRange.startPos <;>
    simp [hlt, hc]

/-- C12: at a boundary on an existing split (both assertions holding), the list handed
to `doSample` starts with the Merge deltas and no other entry is a Merge delta; Merge
deltas are present only if the target range of the left segment ends right before the
target range of the right segment starts, and in that case there is exactly one per
translation option of the source range `[left.sourceStart, right.sourceEnd]`, in option
order, each with the target gap `[left.targetStart, right.targetEnd]` between the target
predecessor of the left segment and the target successor of the right segment. -/
theorem mergeSplit_merge_deltas_iff_target_contiguous
    (env : Collaborators α) (sample : Sample)
    (splitIndex nextAddr prevAddr prevPrev : Nat)
    (hsplit : (sample.hypo (sample.hypAtSourceIndex splitIndex)).sourceRange.startPos
      = splitIndex)
    (hprev : (sample.hypo (sample.hypAtSourceIndex splitIndex)).sourcePrevHypo
      = some prevAddr)
    (hprevprev : (sample.hypo prevAddr).sourcePrevHypo = some prevPrev) :
    let hypothesis := sample.hypo (sample.hypAtSourceIndex splitIndex)
    let prev := sample.hypo prevAddr
    let sourceSegment : WordsRange :=
      { startPos := prev.sourceRange.startPos, endPos := hypothesis.sourceRange.endPos }
    let gap : TargetGap :=
      { leftHypo := prev.prevHypo, rightHypo := hypothesis.nextHypo,
        segment :=
          { startPos := prev.targetRange.startPos, endPos := hypothesis.targetRange.endPos } }
    let options := env.translationOptionList sourceSegment
    ∃ mergeDeltas others baseline,
      mergeSplitDeltas env sample splitIndex nextAddr
        = some (mergeDeltas ++ others, baseline) ∧
      (∀ d ∈ others, ∀ option g, d.desc ≠ DeltaDesc.mergeDelta option g) ∧
      (prev.targetRange.endPos + 1 = hypothesis.targetRange.startPos →
        mergeDeltas.map (fun d => d.desc)
            = options.map (fun option => DeltaDesc.mergeDelta option gap) ∧
          mergeDeltas.length = options.length) ∧
      (prev.targetRange.endPos + 1 ≠ hypothesis.targetRange.startPos → mergeDeltas = []) ∧
      (mergeDeltas ≠ [] → prev.targetRange.endPos + 1 = hypothesis.targetRange.startPos) := by
  intro hypothesis prev sourceSegment gap options
  refine ⟨_, _, _,
    mergeSplitDeltas_existing_split env sample splitIndex nextAddr prevAddr prevPrev
      hsplit hprev hprevprev, ?_, ?_, ?_, ?_⟩
  · intro d hd option g hdesc
    have hmem := newDeltas_desc_mem env _ _ d hd
    rw [hdesc, List.mem_flatMap] at hmem
    obtain ⟨ri, _, hri⟩ := hmem
    rw [List.mem_map] at hri
    obtain ⟨li, _, hli⟩ := hri
    exact absurd hli (by simp)
  · intro hc
    rw [if_pos hc]
    exact ⟨newDeltas_map_desc env _ _, by rw [newDeltas_length, List.length_map]⟩
  · intro hc
    rw [if_neg hc]
    rfl
  · intro hne
    by_contra hc
    rw [if_neg hc] at hne
    exact hne rfl

/-- Instance of C12: source ranges `[2,3]`, `[4,5]` with target ranges `[2,3]`, `[4,5]`
and two options for `[2,5]`: two Merge deltas with target segment `[2,5]`. -/
theorem mergeSplit_merge_deltas_iff_target_contiguous_witness :
    ∃ mergeDeltas others baseline,
      mergeSplitDeltas mergeExampleEnv mergeExampleSample 4 0
        = some (mergeDeltas ++ others, baseline) ∧
      mergeDeltas.map (fun d => d.desc)
        = [DeltaDesc.mergeDelta 41
            { leftHypo := some 1, rightHypo := none,
              segment := { startPos := 2, endPos := 5 } },
           DeltaDesc.mergeDelta 42
            { leftHypo := some 1, rightHypo := none,
              segment := { startPos := 2, endPos := 5 } }] := by
  obtain ⟨mergeDeltas, others, baseline, h1, _, h3, _, _⟩ :=
    mergeSplit_merge_deltas_iff_target_contiguous mergeExampleEnv mergeExampleSample
      4 0 2 1 (by decide) (by decide) (by decide)
  exact ⟨mergeDeltas, others, baseline, h1, (h3 (by decide)).1⟩

/-- C13: at a boundary on an existing split (both assertions holding), with `left` the
one of the two segments whose target range is the smaller and `right` the other, for an
order of ranges that is asymmetric: the target segment of the right gap is not before
that of the left gap; the baseline is the PairedTranslationUpdate delta of the options
currently held by `left` and `right` with their own gaps; and after the Merge deltas the
list consists of exactly one PairedTranslationUpdate delta per pair of an option of the
source range of `left` and an option of the source range of `right`. -/
theorem mergeSplit_pairs_by_target_order
    (env : Collaborators α) (sample : Sample)
    (splitIndex nextAddr prevAddr prevPrev : Nat)
    (hsplit : (sample.hypo (sample.hypAtSourceIndex splitIndex)).sourceRange.startPos
      = splitIndex)
    (hprev : (sample.hypo (sample.hypAtSourceIndex splitIndex)).sourcePrevHypo
      = some prevAddr)
    (hprevprev : (sample.hypo prevAddr).sourcePrevHypo = some prevPrev)
    (hasym : ∀ a b, env.rangeLt a b = true → env.rangeLt b a = false) :
    let hypothesis := sample.hypo (sample.hypAtSourceIndex splitIndex)
    let prev := sample.hypo prevAddr
    let sameOrder := env.rangeLt prev.targetRange hypothesis.targetRange
    let left := if sameOrder = true then prev else hypothesis
    let right := if sameOrder = true then hypothesis else prev
    let leftOptions := env.translationOptionList left.sourceRange
    let rightOptions := env.translationOptionList right.sourceRange
    ∃ mergeDeltas pairedDeltas baseline,
      mergeSplitDeltas env sample splitIndex nextAddr
        = some (mergeDeltas ++ pairedDeltas, some baseline) ∧
      (∀ d ∈ mergeDeltas, ∃ option g, d.desc = DeltaDesc.mergeDelta option g) ∧
      env.rangeLt (gapOf right).segment (gapOf left).segment = false ∧
      baseline.desc = DeltaDesc.pairedTranslationUpdate left.translationOption
        right.translationOption (gapOf left) (gapOf right) ∧
      pairedDeltas.map (fun d => d.desc)
        = (rightOptions.flatMap fun ri => leftOptions.map fun li =>
            DeltaDesc.pairedTranslationUpdate li ri (gapOf left) (gapOf right)) ∧
      pairedDeltas.length = leftOptions.length * rightOptions.length ∧
      (∀ li ∈ leftOptions, ∀ ri ∈ rightOptions,
        DeltaDesc.pairedTranslationUpdate li ri (gapOf left) (gapOf right)
          ∈ pairedDeltas.map (fun d => d.desc)) := by
  intro hypothesis prev sameOrder left right leftOptions rightOptions
  refine ⟨_, _, _,
    mergeSplitDeltas_existing_split env sample splitIndex nextAddr prevAddr prevPrev
      hsplit hprev hprevprev, ?_, ?_, rfl, newDeltas_map_desc env _ _, ?_, ?_⟩
  · intro d hd
    have hmem := newDeltas_desc_mem env _ _ d hd
    split_ifs at hmem
    · rw [List.mem_map] at hmem
      obtain ⟨option, _, ho⟩ := hmem
      exact ⟨option, _, ho.symm⟩
    · exact absurd hmem (by simp)
  · by_cases hlt : env.rangeLt (sample.hypo prevAddr).targetRange
        (sample.hypo (sample.hypAtSourceIndex splitIndex)).targetRange = true
    · simp only [right, left, sameOrder, prev, hypothesis, hlt, if_true, gapOf]
      exact hasym _ _ hlt
    · simp only [right, left, sameOrder, prev, hypothesis, hlt, if_false, gapOf]
      simpa using hlt
  · rw [newDeltas_length]
    exact length_pairs _ _ _
  · intro li hli ri hri
    rw [newDeltas_map_desc, List.mem_flatMap]
    exact ⟨ri, hri, List.mem_map.mpr ⟨li, hli, rfl⟩⟩

/-- Instance of C13: the boundary `4` of `mergeExampleSample`, in monotone order: two
options on the left, two on the right, four paired deltas. -/
theorem mergeSplit_pairs_by_target_order_witness :
    ∃ mergeDeltas pairedDeltas baseline,
      mergeSplitDeltas mergeExampleEnv mergeExampleSample 4 0
        = some (mergeDeltas ++ pairedDeltas, some baseline) ∧
      baseline.desc = DeltaDesc.pairedTranslationUpdate 21 31
        { leftHypo := some 1, rightHypo := some 3,
          segment := { startPos := 2, endPos := 3 } }
        { leftHypo := some 2, rightHypo := none,
          segment := { startPos := 4, endPos := 5 } } ∧
      pairedDeltas.length = 2 * 2 := by
  obtain ⟨mergeDeltas, pairedDeltas, baseline, h1, _, _, h4, _, h6, _⟩ :=
    mergeSplit_pairs_by_target_order mergeExampleEnv mergeExampleSample
      4 0 2 1 (by decide) (by decide) (by decide)
      (by
        intro a b h
        simp only [mergeExampleEnv, rangeBefore, decide_eq_true_eq,
          decide_eq_false_iff_not] at h ⊢
        omega)
  exact ⟨mergeDeltas, pairedDeltas, baseline, h1, h4, h6⟩

/-- C14: at a boundary `splitIndex` strictly inside a segment `[s,e]`
(`s < splitIndex ≤ e`) the list handed to `doSample` is one TranslationUpdate delta per
option of `[s,e]` followed by one Split delta per pair of an option of
`[s, splitIndex-1]` and an option of `[splitIndex, e]`, every one with the target gap of
the unsplit segment; it has `|opts[s,e]| + |opts(left)| * |opts(right)|` entries; the two
sub-ranges are non-empty, adjacent and disjoint, and together cover exactly `[s,e]`. -/
theorem mergeSplit_inside_segment_updates_and_splits
    (env : Collaborators α) (sample : Sample) (splitIndex nextAddr : Nat)
    (hs : (sample.hypo (sample.hypAtSourceIndex splitIndex)).sourceRange.startPos
      < splitIndex)
    (he : splitIndex
      ≤ (sample.hypo (sample.hypAtSourceIndex splitIndex)).sourceRange.endPos) :
    let hypothesis := sample.hypo (sample.hypAtSourceIndex splitIndex)
    let gap := gapOf hypothesis
    let options := env.translationOptionList hypothesis.sourceRange
    let leftSegment : WordsRange :=
      { startPos := hypothesis.sourceRange.startPos, endPos := splitIndex - 1 }
    let rightSegment : WordsRange :=
      { startPos := splitIndex, endPos := hypothesis.sourceRange.endPos }
    let leftOptions := env.translationOptionList leftSegment
    let rightOptions := env.translationOptionList rightSegment
    ∃ deltas baseline,
      mergeSplitDeltas env sample splitIndex nextAddr = some (deltas, some baseline) ∧
      baseline.desc = DeltaDesc.translationUpdate hypothesis.translationOption gap ∧
      deltas.map (fun d => d.desc)
        = options.map (fun option => DeltaDesc.translationUpdate option gap) ++
          (rightOptions.flatMap fun ri => leftOptions.map fun li =>
            DeltaDesc.splitDelta li ri gap) ∧
      deltas.length = options.length + leftOptions.length * rightOptions.length ∧
      leftSegment.startPos ≤ leftSegment.endPos ∧
      rightSegment.startPos ≤ rightSegment.endPos ∧
      leftSegment.endPos + 1 = rightSegment.startPos ∧
      (∀ i, (hypothesis.sourceRange.startPos ≤ i ∧ i ≤ hypothesis.sourceRange.endPos) ↔
        ((leftSegment.startPos ≤ i ∧ i ≤ leftSegment.endPos) ∨
          (rightSegment.startPos ≤ i ∧ i ≤ rightSegment.endPos))) ∧
      (∀ i, ¬ ((leftSegment.startPos ≤ i ∧ i ≤ leftSegment.endPos) ∧
          (rightSegment.startPos ≤ i ∧ i ≤ rightSegment.endPos))) := by
  intro hypothesis gap options leftSegment rightSegment leftOptions rightOptions
  have hne : ¬ (sample.hypo (sample.hypAtSourceIndex splitIndex)).sourceRange.startPos
      = splitIndex := by omega
  have hdef : mergeSplitDeltas env sample splitIndex nextAddr
      = some (newDeltas env (nextAddr + 1)
          (options.map (fun option => DeltaDesc.translationUpdate option gap) ++
            (rightOptions.flatMap fun ri => leftOptions.map fun li =>
              DeltaDesc.splitDelta li ri gap)),
        some (newDelta env nextAddr
          (DeltaDesc.translationUpdate hypothesis.translationOption gap))) := by
    simp only [mergeSplitDeltas, hne, if_false]
  refine ⟨_, _, hdef, rfl, newDeltas_map_desc env _ _, ?_, ?_, he, ?_, ?_, ?_⟩
  · rw [newDeltas_length, List.length_append, List.length_map, length_pairs]
  · show (sample.hypo (sample.hypAtSourceIndex splitIndex)).sourceRange.startPos
      ≤ splitIndex - 1
    omega
  · show splitIndex - 1 + 1 = splitIndex
    omega
  · intro i
    show ((sample.hypo (sample.hypAtSourceIndex splitIndex)).sourceRange.startPos ≤ i
      ∧ i ≤ (sample.hypo (sample.hypAtSourceIndex splitIndex)).sourceRange.endPos) ↔
      ((sample.hypo (sample.hypAtSourceIndex splitIndex)).sourceRange.startPos ≤ i
      ∧ i ≤ splitIndex - 1) ∨
      (splitIndex ≤ i ∧ i ≤ (sample.hypo (sample.hypAtSourceIndex splitIndex)).sourceRange.endPos)
    omega
  · intro i
    show ¬ (((sample.hypo (sample.hypAtSourceIndex splitIndex)).sourceRange.startPos ≤ i
      ∧ i ≤ splitIndex - 1) ∧
      (splitIndex ≤ i ∧ i ≤ (sample.hypo (sample.hypAtSourceIndex splitIndex)).sourceRange.endPos))
    omega

/-- Instance of C14: the boundary `3` of `mergeExampleSample`, inside the segment
`[2,3]`: two options for `[2,3]`, one for `[2,2]`, two for `[3,3]`, four deltas. -/
theorem mergeSplit_inside_segment_updates_and_splits_witness :
    ∃ deltas baseline,
      mergeSplitDeltas mergeExampleEnv mergeExampleSample 3 0 = some (deltas, some baseline) ∧
      deltas.length = 2 + 1 * 2 := by
  obtain ⟨deltas, baseline, h1, _, _, h4, _⟩ :=
    mergeSplit_inside_segment_updates_and_splits mergeExampleEnv mergeExampleSample 3 0
      (by decide) (by decide)
  exact ⟨deltas, baseline, h1, h4⟩

/-- C15: for a hypothesis visited by the translation-swap operator the list handed to
`doSample` has the baseline, the TranslationUpdate delta of the current option, as entry
`0`; the entries after it are the TranslationUpdate deltas of the options of the same
source range other than the current one, in option-list order; every entry has the
target gap of the hypothesis; the list is not empty and exactly one entry is for the
current option. -/
theorem translationSwap_baseline_then_other_options
    (env : Collaborators α) (sample : Sample) (currHypo nextAddr : Nat) :
    let hypothesis := sample.hypo currHypo
    let gap := gapOf hypothesis
    let noChangeOption := hypothesis.translationOption
    let options := env.translationOptionList hypothesis.sourceRange
    ∃ noChangeDelta others,
      translationSwapDeltas env sample currHypo nextAddr
        = (noChangeDelta :: others, some noChangeDelta) ∧
      noChangeDelta.desc = DeltaDesc.translationUpdate noChangeOption gap ∧
      others.map (fun d => d.desc)
        = (options.filter fun option => option ≠ noChangeOption).map
            (fun option => DeltaDesc.translationUpdate option gap) ∧
      (∀ d ∈ noChangeDelta :: others, ∃ option, d.desc = DeltaDesc.translationUpdate option gap) ∧
      noChangeDelta :: others ≠ [] ∧
      (∀ d ∈ others, d.desc ≠ DeltaDesc.translationUpdate noChangeOption gap) ∧
      ((noChangeDelta :: others).filter
        fun d => decide (d.desc = DeltaDesc.translationUpdate noChangeOption gap)).length = 1 := by
  intro hypothesis gap noChangeOption options
  have hothers : ∀ d ∈ newDeltas env (nextAddr + 1)
      ((options.filter fun option => option ≠ noChangeOption).map
        (fun option => DeltaDesc.translationUpdate option gap)),
      ∃ option, option ≠ noChangeOption ∧ d.desc = DeltaDesc.translationUpdate option gap := by
    intro d hd
    have hmem := newDeltas_desc_mem env _ _ d hd
    rw [List.mem_map] at hmem
    obtain ⟨option, ho, hdesc⟩ := hmem
    rw [List.mem_filter] at ho
    exact ⟨option, by simpa using ho.2, hdesc.symm⟩
  have hnot : ∀ d ∈ newDeltas env (nextAddr + 1)
      ((options.filter fun option => option ≠ noChangeOption).map
        (fun option => DeltaDesc.translationUpdate option gap)),
      d.desc ≠ DeltaDesc.translationUpdate noChangeOption gap := by
    intro d hd heq
    obtain ⟨option, hne, hdesc⟩ := hothers d hd
    rw [hdesc] at heq
    injection heq with h1 _
    exact hne h1
  refine ⟨newDelta env nextAddr (DeltaDesc.translationUpdate noChangeOption gap),
    newDeltas env (nextAddr + 1)
      ((options.filter fun option => option ≠ noChangeOption).map
        (fun option => DeltaDesc.translationUpdate option gap)),
    rfl, rfl, newDeltas_map_desc env _ _, ?_, by simp, hnot, ?_⟩
  · intro d hd
    rcases List.mem_cons.mp hd with h | h
    · exact ⟨noChangeOption, by rw [h]; rfl⟩
    · obtain ⟨option, _, hdesc⟩ := hothers d h
      exact ⟨option, hdesc⟩
  · have hfilter : (newDeltas env (nextAddr + 1)
        ((options.filter fun option => option ≠ noChangeOption).map
          (fun option => DeltaDesc.translationUpdate option gap))).filter
        (fun d => decide (d.desc = DeltaDesc.translationUpdate noChangeOption gap)) = [] := by
      rw [List.filter_eq_nil_iff]
      intro d hd
      simpa using hnot d hd
    rw [List.filter_cons_of_pos (by simp [newDelta]), hfilter]
    rfl

end MergeSplitLists

/-! ## The temperature limits -/

section Temperature

open Filter

/-- The sum of the exponentials of the scaled scores is positive. -/
theorem sum_exp_scores_pos (d0 : TranslationDelta ℝ) (drest : List (TranslationDelta ℝ))
    (T : ℝ) : 0 < ((d0 :: drest).map (fun e => Real.exp (e.score / T))).sum := by
  simp only [List.map_cons, List.sum_cons]
  have h1 := Real.exp_pos (d0.score / T)
  have h2 : 0 ≤ (drest.map (fun e => Real.exp (e.score / T))).sum := by
    have := sum_map_exp_nonneg (drest.map (fun e => e.score / T))
    simpa [List.map_map, Function.comp_def] using this
  linarith

/-- The probabilities of `doSample`: the exponential of the normalised score of a delta
is the exponential of its scaled score divided by the sum of all of them. -/
theorem exp_normalisedScores (d0 : TranslationDelta ℝ) (drest : List (TranslationDelta ℝ))
    (T : ℝ) :
    (normalisedScores Real.exp Real.log T (d0 :: drest)).map Real.exp
      = (d0 :: drest).map (fun d => Real.exp (d.score / T)
          / ((d0 :: drest).map (fun e => Real.exp (e.score / T))).sum) := by
  have hpos := sum_exp_scores_pos d0 drest T
  have hz : (drest.map (fun d => d.score * (1 / T))).foldl (log_sum Real.exp Real.log)
      (d0.score * (1 / T))
      = Real.log (((d0 :: drest).map (fun e => Real.exp (e.score / T))).sum) := by
    rw [foldl_log_sum_real]
    simp only [List.map_map, Function.comp_def, mul_one_div, List.map_cons, List.sum_cons]
  rw [normalisedScores_cons, hz, List.map_map]
  apply List.map_congr_left
  intro d _
  simp only [Function.comp_apply, mul_one_div]
  rw [Real.exp_sub, Real.exp_log hpos]

/-- The probability of the delta at index `i`, read from the normalised scores. -/
theorem exp_normalisedScores_getD (d0 : TranslationDelta ℝ)
    (drest : List (TranslationDelta ℝ)) (T : ℝ) (i : Nat)
    (hi : i < (d0 :: drest).length) :
    Real.exp ((normalisedScores Real.exp Real.log T (d0 :: drest)).getD i 0)
      = Real.exp ((d0 :: drest)[i].score / T)
          / ((d0 :: drest).map (fun e => Real.exp (e.score / T))).sum := by
  have h := exp_normalisedScores d0 drest T
  have hlen : (normalisedScores Real.exp Real.log T (d0 :: drest)).length
      = (d0 :: drest).length := by
    have := congrArg List.length h
    simpa using this
  have hi' : i < (normalisedScores Real.exp Real.log T (d0 :: drest)).length := by
    rw [hlen]
    exact hi
  have h2 := congrArg (fun l => l[i]?) h
  simp only [List.getElem?_map, List.getElem?_eq_getElem hi', List.getElem?_eq_getElem hi,
    Option.map_some', Option.some.injEq] at h2
  rw [List.getD_eq_getElem _ _ hi']
  exact h2

/-- C20: for a fixed non-empty delta list of `n` entries and an index `i` of it, the
probability `exp (s_i / T - logZ T)` that `doSample` gives to entry `i` tends to `1 / n`
as `T` tends to infinity. -/
theorem probabilities_tend_to_uniform (d0 : TranslationDelta ℝ)
    (drest : List (TranslationDelta ℝ)) (i : Nat) (hi : i < (d0 :: drest).length) :
    Tendsto
      (fun T : ℝ =>
        Real.exp ((normalisedScores Real.exp Real.log T (d0 :: drest)).getD i 0))
      atTop (nhds (1 / ((d0 :: drest).length : ℝ))) := by
  have hfun : (fun T : ℝ =>
        Real.exp ((normalisedScores Real.exp Real.log T (d0 :: drest)).getD i 0))
      = fun T : ℝ => Real.exp ((d0 :: drest)[i].score / T)
          / ((d0 :: drest).map (fun e => Real.exp (e.score / T))).sum := by
    funext T
    exact exp_normalisedScores_getD d0 drest T i hi
  rw [hfun]
  have hone : ∀ c : ℝ, Tendsto (fun T : ℝ => Real.exp (c / T)) atTop (nhds 1) := by
    intro c
    have h0 : Tendsto (fun T : ℝ => c / T) atTop (nhds 0) :=
      tendsto_const_nhds.div_atTop tendsto_id
    have := (Real.continuous_exp.tendsto 0).comp h0
    simpa [Function.comp_def] using this
  have hden : Tendsto
      (fun T : ℝ => ((d0 :: drest).map (fun e => Real.exp (e.score / T))).sum)
      atTop (nhds (((d0 :: drest).map (fun _ => (1 : ℝ))).sum)) :=
    tendsto_list_sum (d0 :: drest) (fun e _ => hone e.score)
  have hsum : ((d0 :: drest).map (fun _ => (1 : ℝ))).sum = ((d0 :: drest).length : ℝ) := by
    simp [add_comm]
  rw [hsum] at hden
  have hne : ((d0 :: drest).length : ℝ) ≠ 0 := by
    simp only [List.length_cons]
    positivity
  exact (hone _).div hden hne

/-- Instance of C20: entry `1` of a list of two deltas. -/
theorem probabilities_tend_to_uniform_witness :
    Tendsto
      (fun T : ℝ =>
        Real.exp ((normalisedScores Real.exp Real.log T
          [sampleDelta 0 (1 : ℝ) 0, sampleDelta 1 (2 : ℝ) 0]).getD 1 0))
      atTop
      (nhds (1 / (([sampleDelta 0 (1 : ℝ) 0, sampleDelta 1 (2 : ℝ) 0].length : ℕ) : ℝ))) :=
  probabilities_tend_to_uniform (sampleDelta 0 (1 : ℝ) 0) [sampleDelta 1 (2 : ℝ) 0] 1
    (by decide)

/-- The probability of a delta is at most the exponential of its scaled score distance
to any delta of the list. -/
theorem probability_le_exp_gap (deltas : List (TranslationDelta ℝ))
    (d e : TranslationDelta ℝ) (he : e ∈ deltas) (T : ℝ) :
    Real.exp (d.score / T) / (deltas.map (fun x => Real.exp (x.score / T))).sum
      ≤ Real.exp ((d.score - e.score) / T) := by
  have hmem : Real.exp (e.score / T) ∈ deltas.map (fun x => Real.exp (x.score / T)) :=
    List.mem_map.mpr ⟨e, he, rfl⟩
  have hnn : ∀ x ∈ deltas.map (fun x => Real.exp (x.score / T)), (0 : ℝ) ≤ x := by
    intro x hx
    obtain ⟨y, _, hy⟩ := List.mem_map.mp hx
    rw [← hy]
    exact (Real.exp_pos _).le
  have hle := List.single_le_sum hnn _ hmem
  have hpos := Real.exp_pos (e.score / T)
  rw [sub_div, Real.exp_sub]
  exact div_le_div_of_nonneg_left (Real.exp_pos _).le hpos hle

/-- As `T` tends to `0` from above, the probability of a delta whose score is below the
score of another delta of the list tends to `0`. -/
theorem probability_tendsto_zero (deltas : List (TranslationDelta ℝ))
    (d e : TranslationDelta ℝ) (he : e ∈ deltas) (hlt : d.score < e.score) :
    Tendsto
      (fun T : ℝ =>
        Real.exp (d.score / T) / (deltas.map (fun x => Real.exp (x.score / T))).sum)
      (nhdsWithin 0 (Set.Ioi 0)) (nhds 0) := by
  have hg : Tendsto (fun T : ℝ => Real.exp ((d.score - e.score) / T))
      (nhdsWithin 0 (Set.Ioi 0)) (nhds 0) := by
    have h1 : Tendsto (fun T : ℝ => (d.score - e.score) * T⁻¹)
        (nhdsWithin 0 (Set.Ioi 0)) atBot :=
      Tendsto.const_mul_atTop_of_neg (by linarith) tendsto_inv_zero_atTop
    have h2 := Real.tendsto_exp_atBot.comp h1
    simpa [Function.comp_def, div_eq_mul_inv] using h2
  refine squeeze_zero (fun T => ?_) (fun T => probability_le_exp_gap deltas d e he T) hg
  apply div_nonneg (Real.exp_pos _).le
  apply List.sum_nonneg
  intro x hx
  obtain ⟨y, _, hy⟩ := List.mem_map.mp hx
  rw [← hy]
  exact (Real.exp_pos _).le

/-- For a list of non-negative reals: the sums of the prefixes before index `m` are at
most the sum of the first `m` entries, entry `m` is at most the sum of the first `m + 1`
entries, and the list splits around entry `m`. -/
theorem prefix_sums_around (qs : List ℝ) (hnn : ∀ x ∈ qs, 0 ≤ x) (m : Nat)
    (hm : m < qs.length) :
    (∀ j, j < m → (qs.take (j + 1)).sum ≤ (qs.take m).sum) ∧
    qs[m] ≤ (qs.take (m + 1)).sum ∧
    (qs.take m).sum + qs[m] + (qs.drop (m + 1)).sum = qs.sum := by
  refine ⟨?_, ?_, ?_⟩
  · intro j hj
    have hsplit := List.sum_take_add_sum_drop (qs.take m) (j + 1)
    rw [List.take_take, min_eq_left (by omega : j + 1 ≤ m)] at hsplit
    have hdrop : 0 ≤ ((qs.take m).drop (j + 1)).sum := by
      apply List.sum_nonneg
      intro x hx
      exact hnn x (List.mem_of_mem_take (List.mem_of_mem_drop hx))
    linarith
  · have hsplit : (qs.take (m + 1)).sum = (qs.take m).sum + qs[m] := by
      rw [List.take_succ, List.getElem?_eq_getElem hm]
      simp only [Option.toList, List.sum_append, List.sum_cons, List.sum_nil, add_zero]
    have htake : 0 ≤ (qs.take m).sum := by
      apply List.sum_nonneg
      intro x hx
      exact hnn x (List.mem_of_mem_take hx)
    linarith
  · have h1 := List.sum_take_add_sum_drop qs m
    rw [List.drop_eq_getElem_cons hm, List.sum_cons] at h1
    linarith

theorem sum_map_zero_const (deltas : List (TranslationDelta ℝ)) :
    (deltas.map (fun _ : TranslationDelta ℝ => (0 : ℝ))).sum = 0 := by
  induction deltas with
  | nil => rfl
  | cons d rest ih => rw [List.map_cons, List.sum_cons, ih, add_zero]

theorem sum_map_div_const (deltas : List (TranslationDelta ℝ))
    (f : TranslationDelta ℝ → ℝ) (c : ℝ) :
    (deltas.map (fun d => f d / c)).sum = (deltas.map f).sum / c := by
  induction deltas with
  | nil => simp
  | cons d rest ih =>
      simp only [List.map_cons, List.sum_cons, ih]
      ring

/-- C19: for a non-empty delta list with pairwise distinct scores, `m` the index of the
highest score and a draw `r` in `(0,1)`, there is a temperature `T0 > 0` below which
`doSample` chooses `m`; and the probability of `m` tends to `1` as `T` tends to `0` from
above. -/
theorem low_temperature_selects_argmax (d0 : TranslationDelta ℝ)
    (drest : List (TranslationDelta ℝ)) (r : ℝ) (m : Nat)
    (hm : m < (d0 :: drest).length)
    (hdistinct : ((d0 :: drest).map (fun d => d.score)).Nodup)
    (hmax : ∀ (j : Nat) (hj : j < (d0 :: drest).length),
      (d0 :: drest)[j].score ≤ (d0 :: drest)[m].score)
    (hr0 : 0 < r) (hr1 : r < 1) :
    (∃ T0 : ℝ, 0 < T0 ∧ ∀ T : ℝ, 0 < T → T < T0 →
      chosenIndex Real.exp Real.log T (d0 :: drest) r = m) ∧
    Tendsto
      (fun T : ℝ =>
        Real.exp ((normalisedScores Real.exp Real.log T (d0 :: drest)).getD m 0))
      (nhdsWithin 0 (Set.Ioi 0)) (nhds 1) := by
  have hstrict : ∀ (j : Nat) (hj : j < (d0 :: drest).length), j ≠ m →
      (d0 :: drest)[j].score < (d0 :: drest)[m].score := by
    intro j hj hne
    refine lt_of_le_of_ne (hmax j hj) ?_
    intro heq
    have hj' : j < ((d0 :: drest).map (fun d => d.score)).length := by
      rw [List.length_map]
      exact hj
    have hm' : m < ((d0 :: drest).map (fun d => d.score)).length := by
      rw [List.length_map]
      exact hm
    have hget : ((d0 :: drest).map (fun d => d.score))[j]
        = ((d0 :: drest).map (fun d => d.score))[m] := by
      rw [List.getElem_map, List.getElem_map]
      exact heq
    exact hne (hdistinct.getElem_inj_iff.mp hget)
  have hbefore : ∀ d ∈ (d0 :: drest).take m, d.score < (d0 :: drest)[m].score := by
    intro d hd
    obtain ⟨i, hi, hdi⟩ := List.mem_iff_getElem.mp hd
    rw [List.getElem_take] at hdi
    rw [List.length_take] at hi
    rw [← hdi]
    exact hstrict i (by omega) (by omega)
  have hafter : ∀ d ∈ (d0 :: drest).drop (m + 1), d.score < (d0 :: drest)[m].score := by
    intro d hd
    obtain ⟨i, hi, hdi⟩ := List.mem_iff_getElem.mp hd
    rw [List.getElem_drop] at hdi
    rw [List.length_drop] at hi
    rw [← hdi]
    exact hstrict (m + 1 + i) (by omega) (by omega)
  have hmem : (d0 :: drest)[m] ∈ d0 :: drest := List.getElem_mem hm
  have hA : Tendsto (fun T : ℝ => (((d0 :: drest).take m).map (fun d : TranslationDelta ℝ => Real.exp (d.score / T) / ((d0 :: drest).map (fun x => Real.exp (x.score / T))).sum)).sum)
      (nhdsWithin 0 (Set.Ioi 0)) (nhds 0) := by
    have h := tendsto_list_sum ((d0 :: drest).take m)
      (fun d hd => probability_tendsto_zero (d0 :: drest) d _ hmem (hbefore d hd))
    have hz : (((d0 :: drest).take m).map (fun _ : TranslationDelta ℝ => (0 : ℝ))).sum = 0 :=
      sum_map_zero_const _
    rw [hz] at h
    exact h
  have hB : Tendsto (fun T : ℝ => (((d0 :: drest).drop (m + 1)).map (fun d : TranslationDelta ℝ => Real.exp (d.score / T) / ((d0 :: drest).map (fun x => Real.exp (x.score / T))).sum)).sum)
      (nhdsWithin 0 (Set.Ioi 0)) (nhds 0) := by
    have h := tendsto_list_sum ((d0 :: drest).drop (m + 1))
      (fun d hd => probability_tendsto_zero (d0 :: drest) d _ hmem (hafter d hd))
    have hz : (((d0 :: drest).drop (m + 1)).map
        (fun _ : TranslationDelta ℝ => (0 : ℝ))).sum = 0 :=
      sum_map_zero_const _
    rw [hz] at h
    exact h
  have hnn : ∀ (T : ℝ), ∀ x ∈ (d0 :: drest).map (fun d : TranslationDelta ℝ => Real.exp (d.score / T) / ((d0 :: drest).map (fun x => Real.exp (x.score / T))).sum), (0 : ℝ) ≤ x := by
    intro T x hx
    obtain ⟨d, _, hd⟩ := List.mem_map.mp hx
    rw [← hd]
    exact div_nonneg (Real.exp_pos _).le (sum_exp_scores_pos d0 drest T).le
  have hlen : ∀ (T : ℝ), m < ((d0 :: drest).map (fun d : TranslationDelta ℝ => Real.exp (d.score / T) / ((d0 :: drest).map (fun x => Real.exp (x.score / T))).sum)).length := by
    intro T
    rw [List.length_map]
    exact hm
  have htotal : ∀ (T : ℝ), ((d0 :: drest).map (fun d : TranslationDelta ℝ => Real.exp (d.score / T) / ((d0 :: drest).map (fun x => Real.exp (x.score / T))).sum)).sum = 1 := by
    intro T
    rw [sum_map_div_const (d0 :: drest) (fun d => Real.exp (d.score / T))]
    exact div_self (sum_exp_scores_pos d0 drest T).ne'
  have hsplit : ∀ (T : ℝ),
      (((d0 :: drest).take m).map (fun d : TranslationDelta ℝ => Real.exp (d.score / T) / ((d0 :: drest).map (fun x => Real.exp (x.score / T))).sum)).sum + (fun d : TranslationDelta ℝ => Real.exp (d.score / T) / ((d0 :: drest).map (fun x => Real.exp (x.score / T))).sum) ((d0 :: drest)[m])
        + (((d0 :: drest).drop (m + 1)).map (fun d : TranslationDelta ℝ => Real.exp (d.score / T) / ((d0 :: drest).map (fun x => Real.exp (x.score / T))).sum)).sum = 1 := by
    intro T
    have h := (prefix_sums_around _ (hnn T) m (hlen T)).2.2
    rw [htotal T, ← List.map_take, ← List.map_drop, List.getElem_map] at h
    exact h
  have hq : Tendsto (fun T : ℝ => (fun d : TranslationDelta ℝ => Real.exp (d.score / T) / ((d0 :: drest).map (fun x => Real.exp (x.score / T))).sum) ((d0 :: drest)[m]))
      (nhdsWithin 0 (Set.Ioi 0)) (nhds 1) := by
    have hfun : (fun T : ℝ => (fun d : TranslationDelta ℝ => Real.exp (d.score / T) / ((d0 :: drest).map (fun x => Real.exp (x.score / T))).sum) ((d0 :: drest)[m]))
        = fun T : ℝ => 1 - (((d0 :: drest).take m).map (fun d : TranslationDelta ℝ => Real.exp (d.score / T) / ((d0 :: drest).map (fun x => Real.exp (x.score / T))).sum)).sum
            - (((d0 :: drest).drop (m + 1)).map (fun d : TranslationDelta ℝ => Real.exp (d.score / T) / ((d0 :: drest).map (fun x => Real.exp (x.score / T))).sum)).sum := by
      funext T
      have := hsplit T
      linarith
    rw [hfun]
    have h := ((tendsto_const_nhds :
      Tendsto (fun _ : ℝ => (1 : ℝ)) (nhdsWithin 0 (Set.Ioi 0)) (nhds 1)).sub hA).sub hB
    rw [sub_zero, sub_zero] at h
    exact h
  refine ⟨?_, ?_⟩
  · have hev := ((tendsto_order.1 hA).2 r hr0).and ((tendsto_order.1 hq).1 r hr1)
    rw [eventually_nhdsWithin_iff, Metric.eventually_nhds_iff] at hev
    obtain ⟨ε, hε, h⟩ := hev
    refine ⟨ε, hε, fun T hT0 hTε => ?_⟩
    have hd : dist T 0 < ε := by
      rw [Real.dist_eq, sub_zero, abs_of_pos hT0]
      exact hTε
    obtain ⟨hAr, hqr⟩ := h hd (Set.mem_Ioi.mpr hT0)
    apply chosenIndex_real_eq d0 drest T r hr0 hr1 m
    · rw [List.map_take, exp_normalisedScores]
      have h2 := (prefix_sums_around _ (hnn T) m (hlen T)).2.1
      rw [List.getElem_map] at h2
      exact le_trans hqr.le h2
    · intro j hj
      rw [List.map_take, exp_normalisedScores]
      have h1 := (prefix_sums_around _ (hnn T) m (hlen T)).1 j hj
      rw [← List.map_take _ _ m] at h1
      exact lt_of_le_of_lt h1 hAr
  · have hfun : (fun T : ℝ =>
          Real.exp ((normalisedScores Real.exp Real.log T (d0 :: drest)).getD m 0))
        = fun T : ℝ => (fun d : TranslationDelta ℝ => Real.exp (d.score / T) / ((d0 :: drest).map (fun x => Real.exp (x.score / T))).sum) ((d0 :: drest)[m]) := by
      funext T
      exact exp_normalisedScores_getD d0 drest T m hm
    rw [hfun]
    exact hq

/-- Instance of C19: scores `1` and `2`, draw `1/2`: the arg-max is index `1`. -/
theorem low_temperature_selects_argmax_witness :
    ∃ T0 : ℝ, 0 < T0 ∧ ∀ T : ℝ, 0 < T → T < T0 →
      chosenIndex Real.exp Real.log T
        [sampleDelta 0 (1 : ℝ) 0, sampleDelta 1 (2 : ℝ) 0] (1 / 2) = 1 :=
  (low_temperature_selects_argmax (sampleDelta 0 (1 : ℝ) 0) [sampleDelta 1 (2 : ℝ) 0]
    (1 / 2) 1 (by decide) (by simp [sampleDelta])
    (by
      intro j hj
      simp only [List.length_cons, List.length_nil] at hj
      interval_cases j <;> simp [sampleDelta])
    (by norm_num) (by norm_num)).1

end Temperature

/-! ## What the selection depends on -/

section Dependence

theorem normalisedScores_congr {α : Type} [LinearOrderedField α] (exp log : α → α) (T : α)
    (deltas deltas' : List (TranslationDelta α))
    (h : deltas.map (fun d => d.score) = deltas'.map (fun d => d.score)) :
    normalisedScores exp log T deltas = normalisedScores exp log T deltas' := by
  simp only [normalisedScores, h]

theorem chosenIndex_congr {α : Type} [LinearOrderedField α] (exp log : α → α) (T r : α)
    (deltas deltas' : List (TranslationDelta α))
    (h : normalisedScores exp log T deltas = normalisedScores exp log T deltas') :
    chosenIndex exp log T deltas r = chosenIndex exp log T deltas' r := by
  simp only [chosenIndex, h]

/-- C21: the index chosen by `doSample` is a function of the ordered list of model scores,
the temperature and the draw: two delta lists with the same scores, whatever their gains,
addresses and kinds, get the same normalised scores and the same chosen index (the
baseline is not an argument of the choice at all); and two runs over sequences of delta
lists and draws that agree on scores and draws produce the same sequence of chosen
indices. -/
theorem chosenIndex_depends_on_scores_only {α : Type} [LinearOrderedField α]
    (exp log : α → α) (T r : α) (deltas deltas' : List (TranslationDelta α))
    (h : deltas.map (fun d => d.score) = deltas'.map (fun d => d.score)) :
    normalisedScores exp log T deltas = normalisedScores exp log T deltas' ∧
    chosenIndex exp log T deltas r = chosenIndex exp log T deltas' r ∧
    ∀ (runs runs' : List (List (TranslationDelta α) × α)),
      runs.map (fun p => (p.1.map (fun d => d.score), p.2))
          = runs'.map (fun p => (p.1.map (fun d => d.score), p.2)) →
        runs.map (fun p => chosenIndex exp log T p.1 p.2)
          = runs'.map (fun p => chosenIndex exp log T p.1 p.2) := by
  refine ⟨normalisedScores_congr exp log T deltas deltas' h,
    chosenIndex_congr exp log T r deltas deltas'
      (normalisedScores_congr exp log T deltas deltas' h), ?_⟩
  intro runs
  induction runs with
  | nil =>
      intro runs' hr
      cases runs' with
      | nil => rfl
      | cons p ps => simp at hr
  | cons p ps ih =>
      intro runs' hr
      cases runs' with
      | nil => simp at hr
      | cons q qs =>
          simp only [List.map_cons, List.cons.injEq, Prod.mk.injEq] at hr ⊢
          obtain ⟨⟨hs, hd⟩, hrest⟩ := hr
          refine ⟨?_, ih qs hrest⟩
          rw [hd]
          exact chosenIndex_congr exp log T q.2 p.1 q.1
            (normalisedScores_congr exp log T p.1 q.1 hs)

/-- Instance of C21: same scores `1`, `2`, different addresses and gains. -/
theorem chosenIndex_depends_on_scores_only_witness :
    chosenIndex Real.exp Real.log 2
        [sampleDelta 0 (1 : ℝ) 0, sampleDelta 1 (2 : ℝ) 0] (1 / 2)
      = chosenIndex Real.exp Real.log 2
        [sampleDelta 5 (1 : ℝ) 7, sampleDelta 6 (2 : ℝ) 3] (1 / 2) :=
  (chosenIndex_depends_on_scores_only Real.exp Real.log 2 (1 / 2)
    [sampleDelta 0 (1 : ℝ) 0, sampleDelta 1 (2 : ℝ) 0]
    [sampleDelta 5 (1 : ℝ) 7, sampleDelta 6 (2 : ℝ) 3] rfl).2.1

/-- C22: without a gain function (`m_gf` null) `doSample` never reaches the online
learner: whatever the deltas, their scores and gains, the baseline and the draw, every
call it makes is the random draw or the application of the chosen delta, and no update
is requested. -/
theorem doSample_without_gain_function_requests_no_update {α : Type}
    [LinearOrderedField α] (exp log : α → α) (T random : α)
    (deltas : List (TranslationDelta α)) (noChangeDelta : Option (TranslationDelta α))
    (calls : List (Event α))
    (h : doSample exp log T false deltas noChangeDelta random = some calls) :
    updateRequests calls = [] ∧
    ∀ e ∈ calls, e = Event.next ∨ ∃ delta noChange, e = Event.apply delta noChange := by
  cases deltas with
  | nil =>
      have hc : calls = [] := by
        have : doSample exp log T false [] noChangeDelta random = some [] := rfl
        rw [this] at h
        exact (Option.some.inj h).symm
      subst hc
      exact ⟨rfl, by simp⟩
  | cons d0 drest =>
      cases noChangeDelta with
      | none =>
          exfalso
          simp [doSample] at h
      | some nc =>
          have hlt := chosenIndex_lt_length exp log T random d0 drest
          have hget := List.getElem?_eq_getElem hlt
          rw [doSample_eq exp log T random false d0 drest nc _ hget] at h
          have hc := (Option.some.inj h).symm
          subst hc
          simp only [Bool.false_eq_true, false_and, if_false, List.nil_append]
          by_cases ha : (d0 :: drest)[chosenIndex exp log T (d0 :: drest) random].addr
              = nc.addr
          · rw [if_neg (not_not.mpr ha)]
            exact ⟨rfl, by simp⟩
          · rw [if_pos ha]
            refine ⟨rfl, ?_⟩
            intro e he
            simp only [List.mem_cons, List.mem_singleton, List.not_mem_nil, or_false] at he
            rcases he with h1 | h1
            · exact Or.inl h1
            · exact Or.inr ⟨_, _, h1⟩

/-- Instance of C22: a single delta of score `1/2` and gain `9/10` against a baseline of
score `1` and gain `1/5` (a disagreement): without a gain function the calls are the draw
and the application, and no update is requested. -/
theorem doSample_without_gain_function_requests_no_update_witness :
    updateRequests
      [Event.next,
        Event.apply (sampleDelta 0 (1 / 2 : ℚ) (9 / 10)) (sampleDelta 1 (1 : ℚ) (1 / 5))]
      = [] := by
  have hlt := chosenIndex_lt_length (fun x : ℚ => x) (fun x => x) 1 (1 / 2)
    (sampleDelta 0 (1 / 2 : ℚ) (9 / 10)) []
  have h0 : chosenIndex (fun x : ℚ => x) (fun x => x) 1
      [sampleDelta 0 (1 / 2 : ℚ) (9 / 10)] (1 / 2) = 0 := by
    simp only [List.length_singleton] at hlt
    omega
  have hget : [sampleDelta 0 (1 / 2 : ℚ) (9 / 10)][chosenIndex (fun x : ℚ => x)
      (fun x => x) 1 [sampleDelta 0 (1 / 2 : ℚ) (9 / 10)] (1 / 2)]?
      = some (sampleDelta 0 (1 / 2 : ℚ) (9 / 10)) := by
    rw [h0]
    rfl
  have h : doSample (fun x : ℚ => x) (fun x => x) 1 false
      [sampleDelta 0 (1 / 2 : ℚ) (9 / 10)] (some (sampleDelta 1 (1 : ℚ) (1 / 5))) (1 / 2)
      = some [Event.next,
          Event.apply (sampleDelta 0 (1 / 2 : ℚ) (9 / 10)) (sampleDelta 1 (1 : ℚ) (1 / 5))] := by
    rw [doSample_eq _ _ _ _ false _ [] _ _ hget]
    simp [sampleDelta]
  exact (doSample_without_gain_function_requests_no_update (fun x : ℚ => x) (fun x => x)
    1 (1 / 2) _ _ _ h).1

end Dependence

/-! ## Bounds of the chosen index and shift of the scores -/

section BoundsAndShift

/-- C29: on a non-empty delta list of length `n` the index chosen by `doSample` is below
`n`, for every temperature, every draw and every value of its logarithm; when the first
comparison `sum < random` fails (as it does for `random = -∞`) the index is `0`; on a
one-element list it is `0`; so `deltas[chosen]` exists, `doOnlineLearning` reads inside
the list and `doSample` with a baseline returns. -/
theorem chosenIndex_in_bounds {α : Type} [LinearOrderedField α] (exp log : α → α)
    (T random : α) ( m_gf : Bool) (d0 : TranslationDelta α)
    (drest : List (TranslationDelta α)) (noChangeDelta : TranslationDelta α) :
    chosenIndex exp log T (d0 :: drest) random < (d0 :: drest).length ∧
    (∃ chosenDelta,
      (d0 :: drest)[chosenIndex exp log T (d0 :: drest) random]? = some chosenDelta) ∧
    (∃ calls, doOnlineLearning (d0 :: drest) noChangeDelta
      (chosenIndex exp log T (d0 :: drest) random) = some calls) ∧
    (∃ calls, doSample exp log T m_gf (d0 :: drest) (some noChangeDelta) random
      = some calls) ∧
    chosenIndex exp log T [d0] random = 0 ∧
    ((normalisedScores exp log T (d0 :: drest)).head? = none ∨
      (∃ p0, (normalisedScores exp log T (d0 :: drest)).head? = some p0 ∧
        (p0 < log random ∨ chosenIndex exp log T (d0 :: drest) random = 0))) := by
  have hlt := chosenIndex_lt_length exp log T random d0 drest
  have hget := List.getElem?_eq_getElem hlt
  refine ⟨hlt, ⟨_, hget⟩, ⟨_, doOnlineLearning_eq _ noChangeDelta _ _ hget⟩,
    ⟨_, doSample_eq exp log T random m_gf d0 drest noChangeDelta _ hget⟩, ?_, ?_⟩
  · have h1 := chosenIndex_lt_length exp log T random d0 []
    simp only [List.length_singleton] at h1
    omega
  · right
    have hnorm := normalisedScores_cons exp log T d0 drest
    rw [List.map_cons] at hnorm
    refine ⟨_, by rw [hnorm]; rfl, ?_⟩
    by_cases hc : d0.score * (1 / T) - (drest.map (fun d => d.score * (1 / T))).foldl
        (log_sum exp log) (d0.score * (1 / T)) < log random
    · exact Or.inl hc
    · right
      rw [chosenIndex_cons exp log T random (d0 :: drest) _ _ hnorm, selectPosition,
        dif_neg (fun h => hc h.2)]

/-- Scaling by `1 / T` after adding `c` is adding `c * (1 / T)` after scaling, and the
normalising constant moves by the same amount. -/
theorem foldl_log_sum_shift (x k : ℝ) (xs : List ℝ) :
    (xs.map (fun y => y + k)).foldl (log_sum Real.exp Real.log) (x + k)
      = xs.foldl (log_sum Real.exp Real.log) x + k := by
  rw [foldl_log_sum_real, foldl_log_sum_real]
  have hpos : 0 < Real.exp x + (xs.map Real.exp).sum := by
    have := sum_map_exp_nonneg xs
    have := Real.exp_pos x
    linarith
  have hsum : ((xs.map (fun y => y + k)).map Real.exp).sum
      = (xs.map Real.exp).sum * Real.exp k := by
    induction xs with
    | nil => simp
    | cons y ys ih =>
        have hys : 0 < Real.exp x + (ys.map Real.exp).sum := by
          have := sum_map_exp_nonneg ys
          have := Real.exp_pos x
          linarith
        simp only [List.map_cons, List.sum_cons, ih hys, Real.exp_add]
        ring
  rw [hsum, Real.exp_add]
  have e : Real.exp x * Real.exp k + (xs.map Real.exp).sum * Real.exp k
      = (Real.exp x + (xs.map Real.exp).sum) * Real.exp k := by ring
  rw [e, Real.log_mul hpos.ne' (Real.exp_pos k).ne', Real.log_exp]

/-- C30: over the reals, adding one constant `c` to every score changes neither the
normalised log-probabilities computed by `doSample` nor, for any draw, the chosen
index. -/
theorem selection_invariant_under_score_shift (deltas : List (TranslationDelta ℝ))
    (c T r : ℝ) :
    normalisedScores Real.exp Real.log T
        (deltas.map fun d => { d with score := d.score + c })
      = normalisedScores Real.exp Real.log T deltas ∧
    chosenIndex Real.exp Real.log T
        (deltas.map fun d => { d with score := d.score + c }) r
      = chosenIndex Real.exp Real.log T deltas r := by
  have hnorm : normalisedScores Real.exp Real.log T
        (deltas.map fun d => { d with score := d.score + c })
      = normalisedScores Real.exp Real.log T deltas := by
    cases deltas with
    | nil => rfl
    | cons d0 drest =>
        rw [List.map_cons, normalisedScores_cons, normalisedScores_cons]
        have hz : ((drest.map fun d => { d with score := d.score + c }).map
            (fun d => d.score * (1 / T))).foldl (log_sum Real.exp Real.log)
              ((d0.score + c) * (1 / T))
            = (drest.map (fun d => d.score * (1 / T))).foldl (log_sum Real.exp Real.log)
              (d0.score * (1 / T)) + c * (1 / T) := by
          rw [← foldl_log_sum_shift, add_mul, List.map_map, List.map_map]
          congr 1
          apply List.map_congr_left
          intro d _
          simp only [Function.comp_apply]
          ring
        rw [hz]
        simp only [List.map_cons, List.map_map, List.cons.injEq]
        refine ⟨by ring, ?_⟩
        apply List.map_congr_left
        intro d _
        simp only [Function.comp_apply]
        ring
  exact ⟨hnorm, chosenIndex_congr Real.exp Real.log T r _ _ hnorm⟩

end BoundsAndShift

/-! ## The split points of the flip operator -/

section SplitPoints

/-- The loop of `CollectAllSplitPoints` appends, in ascending order, the positions from
`splitIndex` on at which the covering hypothesis ends. -/
theorem collectSplitPointsFrom_eq (sample : Sample) (sourceSize : Nat) (n : Nat) :
    ∀ (splitIndex : Nat) (splitPoints : List Nat), sourceSize - splitIndex = n →
      collectSplitPointsFrom sample sourceSize splitIndex splitPoints
        = splitPoints ++ (List.range' splitIndex (sourceSize - splitIndex)).filter
            (fun i => decide
              ((sample.hypo (sample.hypAtSourceIndex i)).sourceRange.endPos = i)) := by
  induction n with
  | zero =>
      intro splitIndex splitPoints hn
      rw [collectSplitPointsFrom, if_neg (by omega), hn]
      simp
  | succ n ih =>
      intro splitIndex splitPoints hn
      have hlt : splitIndex < sourceSize := by omega
      have hrange : List.range' splitIndex (sourceSize - splitIndex)
          = splitIndex :: List.range' (splitIndex + 1) (sourceSize - (splitIndex + 1)) := by
        have : sourceSize - splitIndex = (sourceSize - (splitIndex + 1)) + 1 := by omega
        rw [this, List.range'_succ]
      rw [collectSplitPointsFrom, if_pos hlt, hrange]
      by_cases he : (sample.hypo (sample.hypAtSourceIndex splitIndex)).sourceRange.endPos
          = splitIndex
      · simp only [he, if_true]
        rw [ih (splitIndex + 1) _ (by omega), List.filter_cons_of_pos (by simpa using he)]
        simp
      · simp only [he, if_false]
        rw [ih (splitIndex + 1) _ (by omega), List.filter_cons_of_neg (by simpa using he)]

theorem CollectAllSplitPoints_eq (sample : Sample) :
    CollectAllSplitPoints sample
      = (List.range sample.sourceSize).filter
          (fun i => decide
            ((sample.hypo (sample.hypAtSourceIndex i)).sourceRange.endPos = i)) := by
  rw [CollectAllSplitPoints, collectSplitPointsFrom_eq sample _ _ 0 [] rfl,
    List.range_eq_range']
  simp

/-- C23 (counterexample): for the segments `[0,2]`, `[3,9]`, `[10,10]` of `exampleSample`
the collected split points are `2`, `9`, `10`, while the positions that begin a segment
are `0`, `3`, `10`. -/
theorem CollectAllSplitPoints_are_not_segment_starts :
    CollectAllSplitPoints exampleSample = [2, 9, 10] ∧
    (List.range exampleSample.sourceSize).filter
      (fun i => decide
        ((exampleSample.hypo (exampleSample.hypAtSourceIndex i)).sourceRange.startPos = i))
      = [0, 3, 10] ∧
    CollectAllSplitPoints exampleSample
      ≠ (List.range exampleSample.sourceSize).filter
        (fun i => decide
          ((exampleSample.hypo (exampleSample.hypAtSourceIndex i)).sourceRange.startPos = i)) := by
  rw [CollectAllSplitPoints_eq]
  decide

/-- C23 (amended): the split points collected by `CollectAllSplitPoints` are exactly the
source positions that end a segment (the positions `i` below the source length at which
the hypothesis covering `i` has source end position `i`), in ascending order. -/
theorem CollectAllSplitPoints_are_segment_ends (sample : Sample) :
    CollectAllSplitPoints sample
      = (List.range sample.sourceSize).filter
          (fun i => decide
            ((sample.hypo (sample.hypAtSourceIndex i)).sourceRange.endPos = i)) ∧
    (∀ i, i ∈ CollectAllSplitPoints sample ↔
      (i < sample.sourceSize ∧
        (sample.hypo (sample.hypAtSourceIndex i)).sourceRange.endPos = i)) ∧
    (CollectAllSplitPoints sample).Pairwise (fun a b => a < b) := by
  refine ⟨CollectAllSplitPoints_eq sample, ?_, ?_⟩
  · intro i
    rw [CollectAllSplitPoints_eq, List.mem_filter, List.mem_range]
    simp
  · rw [CollectAllSplitPoints_eq]
    exact List.Pairwise.filter _ (List.pairwise_lt_range _)

end SplitPoints

/-! ## The total distortion of the reordering check -/

section TotalDistortion

theorem ComputeDistortionDistance_nonpos (numWordsCovered : WordsRange → Nat)
    (prev current : WordsRange) :
    ComputeDistortionDistance numWordsCovered prev current ≤ 0 := by
  simp only [ComputeDistortionDistance]
  exact neg_nonpos.mpr (abs_nonneg _)

/-- A block of `CheckValidReordering` in terms of the distortion of its link (`0` for an
absent link). -/
theorem checkLink_eq (numWordsCovered : WordsRange → Nat) (maxDistortion total : Int)
    (link : Option (WordsRange × WordsRange)) :
    checkLink numWordsCovered maxDistortion link total
      = if link.isSome = true ∧
            |(link.map fun l => ComputeDistortionDistance numWordsCovered l.1 l.2).getD 0|
              > maxDistortion
        then Except.error total
        else Except.ok
          (total + (link.map fun l => ComputeDistortionDistance numWordsCovered l.1 l.2).getD 0) := by
  cases link with
  | none => simp [checkLink]
  | some l =>
      obtain ⟨prev, current⟩ := l
      simp only [checkLink, Option.isSome_some, true_and, Option.map_some', Option.getD_some]

/-- The distortion of a link that passed its block lies between `-maxDistortion` and
`0`. -/
theorem link_distortion_bounds (numWordsCovered : WordsRange → Nat) (maxDistortion : Int)
    (hmax : 0 ≤ maxDistortion) (link : Option (WordsRange × WordsRange))
    (h : ¬ (link.isSome = true ∧
      |(link.map fun l => ComputeDistortionDistance numWordsCovered l.1 l.2).getD 0|
        > maxDistortion)) :
    -maxDistortion
        ≤ (link.map fun l => ComputeDistortionDistance numWordsCovered l.1 l.2).getD 0 ∧
      (link.map fun l => ComputeDistortionDistance numWordsCovered l.1 l.2).getD 0 ≤ 0 := by
  cases link with
  | none =>
      simp only [Option.map_none', Option.getD_none]
      omega
  | some l =>
      simp only [Option.isSome_some, true_and, Option.map_some', Option.getD_some, gt_iff_lt,
        not_lt] at h ⊢
      exact ⟨(abs_le.mp h).1, ComputeDistortionDistance_nonpos _ _ _⟩

/-- A chain of four link checks that succeeds leaves the sum of the distortions of the
four links (`0` for an absent link), a value between `-4 * maxDistortion` and `0`. -/
theorem checkLink_chain_true_total (numWordsCovered : WordsRange → Nat)
    (maxDistortion : Int) (hmax : 0 ≤ maxDistortion)
    (l1 l2 l3 l4 : Option (WordsRange × WordsRange))
    (htrue : (match (do
          let totalDistortion ← checkLink numWordsCovered maxDistortion l1 0
          let totalDistortion ← checkLink numWordsCovered maxDistortion l2 totalDistortion
          let totalDistortion ← checkLink numWordsCovered maxDistortion l3 totalDistortion
          checkLink numWordsCovered maxDistortion l4 totalDistortion : Except Int Int) with
      | Except.ok totalDistortion => (true, totalDistortion)
      | Except.error totalDistortion => (false, totalDistortion)).1 = true) :
    (match (do
          let totalDistortion ← checkLink numWordsCovered maxDistortion l1 0
          let totalDistortion ← checkLink numWordsCovered maxDistortion l2 totalDistortion
          let totalDistortion ← checkLink numWordsCovered maxDistortion l3 totalDistortion
          checkLink numWordsCovered maxDistortion l4 totalDistortion : Except Int Int) with
      | Except.ok totalDistortion => (true, totalDistortion)
      | Except.error totalDistortion => (false, totalDistortion)).2
      = (l1.map fun l => ComputeDistortionDistance numWordsCovered l.1 l.2).getD 0
        + (l2.map fun l => ComputeDistortionDistance numWordsCovered l.1 l.2).getD 0
        + (l3.map fun l => ComputeDistortionDistance numWordsCovered l.1 l.2).getD 0
        + (l4.map fun l => ComputeDistortionDistance numWordsCovered l.1 l.2).getD 0 ∧
    -4 * maxDistortion
      ≤ (l1.map fun l => ComputeDistortionDistance numWordsCovered l.1 l.2).getD 0
        + (l2.map fun l => ComputeDistortionDistance numWordsCovered l.1 l.2).getD 0
        + (l3.map fun l => ComputeDistortionDistance numWordsCovered l.1 l.2).getD 0
        + (l4.map fun l => ComputeDistortionDistance numWordsCovered l.1 l.2).getD 0 ∧
    (l1.map fun l => ComputeDistortionDistance numWordsCovered l.1 l.2).getD 0
        + (l2.map fun l => ComputeDistortionDistance numWordsCovered l.1 l.2).getD 0
        + (l3.map fun l => ComputeDistortionDistance numWordsCovered l.1 l.2).getD 0
        + (l4.map fun l => ComputeDistortionDistance numWordsCovered l.1 l.2).getD 0 ≤ 0 := by
  simp only [checkLink_eq] at htrue ⊢
  by_cases h1 : l1.isSome = true ∧
      |(l1.map fun l => ComputeDistortionDistance numWordsCovered l.1 l.2).getD 0|
        > maxDistortion
  · exfalso
    simp [h1, bind, Except.bind] at htrue
  by_cases h2 : l2.isSome = true ∧
      |(l2.map fun l => ComputeDistortionDistance numWordsCovered l.1 l.2).getD 0|
        > maxDistortion
  · exfalso
    simp [h1, h2, bind, Except.bind] at htrue
  by_cases h3 : l3.isSome = true ∧
      |(l3.map fun l => ComputeDistortionDistance numWordsCovered l.1 l.2).getD 0|
        > maxDistortion
  · exfalso
    simp [h1, h2, h3, bind, Except.bind] at htrue
  by_cases h4 : l4.isSome = true ∧
      |(l4.map fun l => ComputeDistortionDistance numWordsCovered l.1 l.2).getD 0|
        > maxDistortion
  · exfalso
    simp [h1, h2, h3, h4, bind, Except.bind] at htrue
  have b1 := link_distortion_bounds numWordsCovered maxDistortion hmax l1 h1
  have b2 := link_distortion_bounds numWordsCovered maxDistortion hmax l2 h2
  have b3 := link_distortion_bounds numWordsCovered maxDistortion hmax l3 h3
  have b4 := link_distortion_bounds numWordsCovered maxDistortion hmax l4 h4
  refine ⟨?_, by linarith [b1.1, b2.1, b3.1, b4.1], by linarith [b1.2, b2.2, b3.2, b4.2]⟩
  simp only [if_neg h1, if_neg h2, if_neg h3, if_neg h4, bind, Except.bind, zero_add]

/-- C27: when `CheckValidReordering` returns true, the `totalDistortion` it leaves (the
parameter is set to `0` on entry, so its earlier value plays no part) is the sum of the
distortions of the links it evaluated: `leftPrev -> left`, `left -> leftNext`,
`rightPrev -> right` unless `rightPrev` is the left hypothesis (that link is then not
counted a second time), and `right -> rightNext`; for a non-negative maximum distortion
it lies between `-4 * maxDistortion` and `0`. -/
theorem CheckValidReordering_total_is_sum_of_links
    (numWordsCovered : WordsRange → Nat) (maxDistortion : Int) (hypo : Nat → Hypothesis)
    (leftTgtHypo rightTgtHypo : Nat)
    (leftTgtPrevHypo leftTgtNextHypo rightTgtPrevHypo rightTgtNextHypo : Option Nat)
    (hmax : 0 ≤ maxDistortion)
    (htrue : (CheckValidReordering numWordsCovered maxDistortion hypo leftTgtHypo
      rightTgtHypo leftTgtPrevHypo leftTgtNextHypo rightTgtPrevHypo rightTgtNextHypo).1
        = true) :
    (CheckValidReordering numWordsCovered maxDistortion hypo leftTgtHypo rightTgtHypo
        leftTgtPrevHypo leftTgtNextHypo rightTgtPrevHypo rightTgtNextHypo).2
      = (leftTgtPrevHypo.map fun p =>
            ComputeDistortionDistance numWordsCovered (hypo p).sourceRange
              (hypo leftTgtHypo).sourceRange).getD 0
        + (leftTgtNextHypo.map fun n =>
            ComputeDistortionDistance numWordsCovered (hypo leftTgtHypo).sourceRange
              (hypo n).sourceRange).getD 0
        + ((rightTgtPrevHypo.filter fun p => p ≠ leftTgtHypo).map fun p =>
            ComputeDistortionDistance numWordsCovered (hypo p).sourceRange
              (hypo rightTgtHypo).sourceRange).getD 0
        + (rightTgtNextHypo.map fun n =>
            ComputeDistortionDistance numWordsCovered (hypo rightTgtHypo).sourceRange
              (hypo n).sourceRange).getD 0 ∧
    ((rightTgtPrevHypo.filter fun p => p ≠ leftTgtHypo).map fun p =>
        ComputeDistortionDistance numWordsCovered (hypo p).sourceRange
          (hypo rightTgtHypo).sourceRange).getD 0
      = (if rightTgtPrevHypo = some leftTgtHypo then 0
         else (rightTgtPrevHypo.map fun p =>
            ComputeDistortionDistance numWordsCovered (hypo p).sourceRange
              (hypo rightTgtHypo).sourceRange).getD 0) ∧
    -4 * maxDistortion
      ≤ (CheckValidReordering numWordsCovered maxDistortion hypo leftTgtHypo rightTgtHypo
          leftTgtPrevHypo leftTgtNextHypo rightTgtPrevHypo rightTgtNextHypo).2 ∧
    (CheckValidReordering numWordsCovered maxDistortion hypo leftTgtHypo rightTgtHypo
        leftTgtPrevHypo leftTgtNextHypo rightTgtPrevHypo rightTgtNextHypo).2 ≤ 0 := by
  have hthird : ((rightTgtPrevHypo.filter fun p => p ≠ leftTgtHypo).map fun p =>
        ComputeDistortionDistance numWordsCovered (hypo p).sourceRange
          (hypo rightTgtHypo).sourceRange).getD 0
      = (if rightTgtPrevHypo = some leftTgtHypo then 0
         else (rightTgtPrevHypo.map fun p =>
            ComputeDistortionDistance numWordsCovered (hypo p).sourceRange
              (hypo rightTgtHypo).sourceRange).getD 0) := by
    cases rightTgtPrevHypo with
    | none => simp [Option.filter]
    | some q =>
        by_cases hq : q = leftTgtHypo
        · simp [Option.filter, hq]
        · simp [Option.filter, hq]
  have h := checkLink_chain_true_total numWordsCovered maxDistortion hmax
    (leftTgtPrevHypo.map fun p => ((hypo p).sourceRange, (hypo leftTgtHypo).sourceRange))
    (leftTgtNextHypo.map fun n => ((hypo leftTgtHypo).sourceRange, (hypo n).sourceRange))
    ((rightTgtPrevHypo.filter fun p => p ≠ leftTgtHypo).map
      fun p => ((hypo p).sourceRange, (hypo rightTgtHypo).sourceRange))
    (rightTgtNextHypo.map fun n => ((hypo rightTgtHypo).sourceRange, (hypo n).sourceRange))
    htrue
  simp only [Option.map_map, Function.comp_def] at h
  obtain ⟨hsum, hlow, hhigh⟩ := h
  exact ⟨hsum, hthird, hlow.trans (le_of_eq hsum.symm), (le_of_eq hsum).trans hhigh⟩

/-- Instance of C27: in `exampleSample` with maximum distortion `10`, the third hypothesis
as left and the first as right, both next to the second: the links have distortion `-8`
and `-10`. -/
theorem CheckValidReordering_total_is_sum_of_links_witness :
    (CheckValidReordering wordsCovered 10 exampleSample.hypo 3 1 none (some 2) (some 2)
        none).2 = -18 ∧
    -4 * 10 ≤ (CheckValidReordering wordsCovered 10 exampleSample.hypo 3 1 none (some 2)
        (some 2) none).2 :=
  ⟨by decide,
    (CheckValidReordering_total_is_sum_of_links wordsCovered 10 exampleSample.hypo 3 1
      none (some 2) (some 2) none (by decide) (by decide)).2.2.1⟩

/-- C28 (evaluation at a failing input): in `swappedExampleSample` with maximum distortion
`5` the pair examined by the forward loop is the hypothesis at address `2` (source
`[0,9]`) and the following hypothesis at address `1` (source `[10,10]`). The check of the
flipped configuration accepts (its one link has distortion `0`), the check of the current
configuration returns false at the link `[10,10] -> [0,9]` of distortion `-11`, and the
baseline delta is built with `totalDistortion = 0` instead of `-11`. -/
theorem flip_current_check_fails_after_flipped_check_accepts :
    CollectAllSplitPoints swappedExampleSample = [9, 10] ∧
    flippedCheck exampleEnv swappedExampleSample 2 1 = (true, 0) ∧
    currentCheck exampleEnv swappedExampleSample 2 1 = (false, 0) ∧
    ComputeDistortionDistance wordsCovered { startPos := 10, endPos := 10 }
      { startPos := 0, endPos := 9 } = -11 ∧
    (flipDeltasForward exampleEnv swappedExampleSample 2 1 0).2.map (fun d => d.desc)
      = some (DeltaDesc.flipDelta 11 21
          { leftHypo := none, rightHypo := some 2,
            segment := { startPos := 0, endPos := 0 } }
          { leftHypo := some 1, rightHypo := none,
            segment := { startPos := 1, endPos := 10 } } 0) := by
  rw [CollectAllSplitPoints_eq]
  decide

end TotalDistortion

/-! ## The positions visited by an iteration -/

section Visits

/-- A counting loop whose body always succeeds and appends `entries k` to a log appends
the entries of `i, i + 1, ..., bound - 1`, in this order. -/
theorem forUp_log {σ ε β : Type} (body : Nat → σ → Except ε σ) (log : σ → List β)
    (entries : Nat → List β) (bound : Nat)
    (hbody : ∀ k s, k < bound →
      ∃ s', body k s = Except.ok s' ∧ log s' = log s ++ entries k) (n : Nat) :
    ∀ (i : Nat) (s : σ), bound - i = n →
      ∃ s', forUp body bound i s = Except.ok s' ∧
        log s' = log s ++ (List.range' i (bound - i)).flatMap entries := by
  induction n with
  | zero =>
      intro i s hn
      refine ⟨s, ?_, ?_⟩
      · rw [forUp, if_neg (by omega)]
      · rw [hn]
        simp
  | succ n ih =>
      intro i s hn
      have hlt : i < bound := by omega
      obtain ⟨s1, hs1, hlog1⟩ := hbody i s hlt
      obtain ⟨s2, hs2, hlog2⟩ := ih (i + 1) s1 (by omega)
      refine ⟨s2, ?_, ?_⟩
      · rw [forUp, if_pos hlt, hs1]
        exact hs2
      · have hrange : List.range' i (bound - i)
            = i :: List.range' (i + 1) (bound - (i + 1)) := by
          have : bound - i = (bound - (i + 1)) + 1 := by omega
          rw [this, List.range'_succ]
        rw [hlog2, hlog1, hrange, List.flatMap_cons, List.append_assoc]

/-- A descending loop whose body always succeeds and appends `entries k` to a log appends
the entries of `k - 1, ..., 1, 0`, in this order. -/
theorem forDown_log {σ ε β : Type} (body : Nat → σ → Except ε σ) (log : σ → List β)
    (entries : Nat → List β)
    (hbody : ∀ k s, ∃ s', body k s = Except.ok s' ∧ log s' = log s ++ entries k) :
    ∀ (k : Nat) (s : σ),
      ∃ s', forDown body k s = Except.ok s' ∧
        log s' = log s ++ (List.range k).reverse.flatMap entries := by
  intro k
  induction k with
  | zero =>
      intro s
      exact ⟨s, rfl, by simp⟩
  | succ k ih =>
      intro s
      obtain ⟨s1, hs1, hlog1⟩ := hbody k s
      obtain ⟨s2, hs2, hlog2⟩ := ih s1
      refine ⟨s2, ?_, ?_⟩
      · rw [forDown, hs1]
        exact hs2
      · rw [hlog2, hlog1, List.range_succ, List.reverse_append, List.reverse_singleton,
          List.singleton_append, List.flatMap_cons, List.append_assoc]

/-- A counting loop whose body either succeeds and appends `entry k` to a log or stops
with a failed assertion and the state as it is: the loop either appends the entries of
all of `i, ..., bound - 1`, or stops at some `i + m` after appending those before it. -/
theorem forUp_log_or_assertion {σ β : Type} (body : Nat → σ → Except (Failure × σ) σ)
    (log : σ → List β) (entry : Nat → β) (bound : Nat)
    (hbody : ∀ k s, k < bound →
      (∃ s', body k s = Except.ok s' ∧ log s' = log s ++ [entry k]) ∨
      body k s = Except.error (Failure.assertion, s)) (n : Nat) :
    ∀ (i : Nat) (s : σ), bound - i = n →
      (∃ s', forUp body bound i s = Except.ok s' ∧
        log s' = log s ++ (List.range' i (bound - i)).map entry) ∨
      (∃ s' m, forUp body bound i s = Except.error (Failure.assertion, s') ∧
        m < bound - i ∧ log s' = log s ++ (List.range' i m).map entry ∧
        body (i + m) s' = Except.error (Failure.assertion, s')) := by
  induction n with
  | zero =>
      intro i s hn
      left
      refine ⟨s, ?_, ?_⟩
      · rw [forUp, if_neg (by omega)]
      · rw [hn]
        simp
  | succ n ih =>
      intro i s hn
      have hlt : i < bound := by omega
      rcases hbody i s hlt with ⟨s1, hs1, hlog1⟩ | hfail
      · rcases ih (i + 1) s1 (by omega) with ⟨s2, hs2, hlog2⟩ | ⟨s2, m, hs2, hm, hlog2, hb⟩
        · left
          refine ⟨s2, ?_, ?_⟩
          · rw [forUp, if_pos hlt, hs1]
            exact hs2
          · have hrange : List.range' i (bound - i)
                = i :: List.range' (i + 1) (bound - (i + 1)) := by
              have : bound - i = (bound - (i + 1)) + 1 := by omega
              rw [this, List.range'_succ]
            rw [hlog2, hlog1, hrange, List.map_cons, List.append_assoc,
              List.singleton_append]
        · right
          refine ⟨s2, m + 1, ?_, by omega, ?_, ?_⟩
          · rw [forUp, if_pos hlt, hs1]
            exact hs2
          · rw [hlog2, hlog1, List.range'_succ, List.map_cons, List.append_assoc,
              List.singleton_append]
          · have : i + (m + 1) = i + 1 + m := by omega
            rw [this]
            exact hb
      · right
        refine ⟨s, 0, ?_, by omega, by simp, ?_⟩
        · rw [forUp, if_pos hlt, hfail]
        · exact hfail

section

variable {α π : Type} [LinearOrderedField α]

/-- One invocation of `doSample` with a non-null baseline, or with an empty list, returns. -/
theorem doSample_isSome (exp log : α → α) (T random : α) ( m_gf : Bool)
    (deltas : List (TranslationDelta α)) (noChangeDelta : Option (TranslationDelta α))
    (h : deltas = [] ∨ ∃ noChange, noChangeDelta = some noChange) :
    ∃ calls, doSample exp log T m_gf deltas noChangeDelta random = some calls := by
  cases deltas with
  | nil => exact ⟨[], rfl⟩
  | cons d0 drest =>
      rcases h with h | ⟨noChange, h⟩
      · exact absurd h (by simp)
      · subst h
        have hlt := chosenIndex_lt_length exp log T random d0 drest
        exact ⟨_, doSample_eq exp log T random m_gf d0 drest noChange _
          (List.getElem?_eq_getElem hlt)⟩

/-- The call of `doSample` at a position, when it returns, adds one invocation at that
position to the record. -/
theorem sampleAt_ok (cfg : SamplerConfig α) (position : π)
    (built : List (TranslationDelta α) × Option (TranslationDelta α)) (allocated : Nat)
    (st : OperatorState α π)
    (h : built.1 = [] ∨ ∃ noChange, built.2 = some noChange) :
    ∃ st', sampleAt cfg position built allocated st = Except.ok st' ∧
      st'.sampled.map (fun c => c.position)
        = st.sampled.map (fun c => c.position) ++ [position] := by
  obtain ⟨calls, hcalls⟩ := doSample_isSome cfg.exp cfg.log cfg.T (cfg.random st.draws)
    cfg.m_gf built.1 built.2 h
  have hs : sampleAt cfg position built allocated st
      = Except.ok
        { sample := sampleAfter cfg.applyDelta st.sample calls,
          draws := st.draws + randomDraws calls,
          nextAddr := st.nextAddr + allocated,
          sampled := st.sampled ++
            [{ position := position, deltas := built.1, noChangeDelta := built.2,
               calls := calls }] } := by
    simp only [sampleAt, hcalls]
  refine ⟨_, hs, ?_⟩
  simp

end

section MergeSplitVisits

variable {α : Type} [LinearOrderedField α]

/-- At a boundary on an existing split no deltas are built exactly when one of the two
assertions fails. -/
theorem mergeSplitDeltas_none_iff {γ : Type} (env : Collaborators γ) (sample : Sample)
    (splitIndex nextAddr : Nat)
    (hsplit : (sample.hypo (sample.hypAtSourceIndex splitIndex)).sourceRange.startPos
      = splitIndex) :
    mergeSplitDeltas env sample splitIndex nextAddr = none ↔
      ((sample.hypo (sample.hypAtSourceIndex splitIndex)).sourcePrevHypo = none ∨
        ∃ prev, (sample.hypo (sample.hypAtSourceIndex splitIndex)).sourcePrevHypo = some prev ∧
          (sample.hypo prev).sourcePrevHypo = none) := by
  cases hp : (sample.hypo (sample.hypAtSourceIndex splitIndex)).sourcePrevHypo with
  | none => simp [mergeSplitDeltas, hsplit, hp]
  | some prev =>
      cases hpp : (sample.hypo prev).sourcePrevHypo with
      | none => simp [mergeSplitDeltas, hsplit, hp, hpp]
      | some prevPrev =>
          rw [mergeSplitDeltas_existing_split env sample splitIndex nextAddr prev prevPrev
            hsplit hp hpp]
          simp [hpp]

/-- The body of the merge-split loop either samples at the boundary or stops with a
failed assertion and the state as it is. -/
theorem mergeSplitBody_cases (cfg : SamplerConfig α) (splitIndex : Nat)
    (st : OperatorState α Nat) :
    (∃ st', mergeSplitBody cfg splitIndex st = Except.ok st' ∧
      st'.sampled.map (fun c => c.position)
        = st.sampled.map (fun c => c.position) ++ [splitIndex]) ∨
    (mergeSplitBody cfg splitIndex st = Except.error (Failure.assertion, st) ∧
      mergeSplitDeltas (cfg.collaborators st.sample) st.sample splitIndex st.nextAddr
        = none) := by
  cases hms : mergeSplitDeltas (cfg.collaborators st.sample) st.sample splitIndex
      st.nextAddr with
  | none =>
      right
      exact ⟨by simp only [mergeSplitBody, hms], rfl⟩
  | some built =>
      left
      obtain ⟨deltas, baseline⟩ := built
      obtain ⟨noChange, hnc, _⟩ := mergeSplitDeltas_baseline_fresh
        (cfg.collaborators st.sample) st.sample splitIndex st.nextAddr deltas baseline hms
      obtain ⟨st', hst', hpos⟩ := sampleAt_ok cfg splitIndex (deltas, baseline)
        (deltas.length + 1) st (Or.inr ⟨noChange, hnc⟩)
      exact ⟨st', by simp only [mergeSplitBody, hms]; exact hst', hpos⟩

/-- C25: an iteration of the merge-split operator over a sample of source length `n`
that runs to its end has invoked `doSample` exactly once for each of the boundaries
`1, 2, ..., n - 1`, in ascending order (so never for `0` or `n`); the only other way to
end is a failed assertion at a boundary `1 + m`, after the boundaries `1, ..., m` were
sampled; for `n ≤ 1` nothing is sampled. -/
theorem mergeSplit_samples_each_internal_boundary_once (cfg : SamplerConfig α)
    (st : OperatorState α Nat) :
    ((∃ st', MergeSplitOperator.doIteration cfg st = Except.ok st' ∧
        st'.sampled.map (fun c => c.position)
          = st.sampled.map (fun c => c.position)
            ++ List.range' 1 (st.sample.sourceSize - 1)) ∨
      (∃ st' m, MergeSplitOperator.doIteration cfg st
          = Except.error (Failure.assertion, st') ∧
        m < st.sample.sourceSize - 1 ∧
        st'.sampled.map (fun c => c.position)
          = st.sampled.map (fun c => c.position) ++ List.range' 1 m ∧
        mergeSplitDeltas (cfg.collaborators st'.sample) st'.sample (1 + m) st'.nextAddr
          = none)) ∧
    (∀ k ∈ List.range' 1 (st.sample.sourceSize - 1), 1 ≤ k ∧ k < st.sample.sourceSize) ∧
    (List.range' 1 (st.sample.sourceSize - 1)).length = st.sample.sourceSize - 1 ∧
    (List.range' 1 (st.sample.sourceSize - 1)).Pairwise (fun a b => a < b) ∧
    (st.sample.sourceSize ≤ 1 → MergeSplitOperator.doIteration cfg st = Except.ok st) := by
  refine ⟨?_, ?_, by simp, List.pairwise_lt_range' 1 _, ?_⟩
  · have h := forUp_log_or_assertion (mergeSplitBody cfg)
      (fun s : OperatorState α Nat => s.sampled.map (fun c => c.position)) id
      st.sample.sourceSize
      (fun k s _ => by
        rcases mergeSplitBody_cases cfg k s with ⟨s', h1, h2⟩ | ⟨h1, _⟩
        · exact Or.inl ⟨s', h1, h2⟩
        · exact Or.inr h1)
      (st.sample.sourceSize - 1) 1 st rfl
    simp only [List.map_id] at h
    rcases h with ⟨st', h1, h2⟩ | ⟨st', m, h1, hm, h2, h3⟩
    · exact Or.inl ⟨st', h1, h2⟩
    · right
      refine ⟨st', m, h1, hm, h2, ?_⟩
      rcases mergeSplitBody_cases cfg (1 + m) st' with ⟨s', h4, _⟩ | ⟨_, h5⟩
      · rw [h3] at h4
        exact absurd h4 (by simp)
      · exact h5
  · intro k hk
    rw [List.mem_range'_1] at hk
    omega
  · intro hn
    rw [MergeSplitOperator.doIteration, forUp, if_neg (by omega)]

/-- C26: at a boundary on an existing split the merge-split operator stops with a failed
assertion exactly when the segment starting at the boundary has no source-order
predecessor or that predecessor has none itself; no delta is built and `doSample` is not
called, the state (sample, draws, allocations, invocations) is as it was, and the loop
ends there. -/
theorem mergeSplit_asserts_source_predecessors (cfg : SamplerConfig α)
    (splitIndex bound : Nat) (st : OperatorState α Nat)
    (hsplit : (st.sample.hypo (st.sample.hypAtSourceIndex splitIndex)).sourceRange.startPos
      = splitIndex) :
    (mergeSplitBody cfg splitIndex st = Except.error (Failure.assertion, st) ↔
      ((st.sample.hypo (st.sample.hypAtSourceIndex splitIndex)).sourcePrevHypo = none ∨
        ∃ prev,
          (st.sample.hypo (st.sample.hypAtSourceIndex splitIndex)).sourcePrevHypo
            = some prev ∧
          (st.sample.hypo prev).sourcePrevHypo = none)) ∧
    (mergeSplitBody cfg splitIndex st = Except.error (Failure.assertion, st) ↔
      mergeSplitDeltas (cfg.collaborators st.sample) st.sample splitIndex st.nextAddr
        = none) ∧
    (mergeSplitBody cfg splitIndex st = Except.error (Failure.assertion, st) →
      splitIndex < bound →
      forUp (mergeSplitBody cfg) bound splitIndex st
        = Except.error (Failure.assertion, st)) ∧
    (∀ failure st', mergeSplitBody cfg splitIndex st = Except.error (failure, st') →
      failure = Failure.assertion ∧ st' = st) := by
  have hiff : mergeSplitBody cfg splitIndex st = Except.error (Failure.assertion, st) ↔
      mergeSplitDeltas (cfg.collaborators st.sample) st.sample splitIndex st.nextAddr
        = none := by
    constructor
    · intro h
      rcases mergeSplitBody_cases cfg splitIndex st with ⟨s', h1, _⟩ | ⟨_, h2⟩
      · rw [h] at h1
        exact absurd h1 (by simp)
      · exact h2
    · intro h
      simp only [mergeSplitBody, h]
  refine ⟨?_, hiff, ?_, ?_⟩
  · rw [hiff]
    exact mergeSplitDeltas_none_iff (cfg.collaborators st.sample) st.sample splitIndex
      st.nextAddr hsplit
  · intro h hlt
    rw [forUp, if_pos hlt, h]
  · intro failure st' h
    rcases mergeSplitBody_cases cfg splitIndex st with ⟨s', h1, _⟩ | ⟨h2, _⟩
    · rw [h] at h1
      exact absurd h1 (by simp)
    · rw [h2] at h
      simp only [Except.error.injEq, Prod.mk.injEq] at h
      exact ⟨h.1.symm, h.2.symm⟩

/-- Instance of C26: at the boundary `2` of `mergeExampleSample` the segment `[2,3]` has
the predecessor `[0,1]`, which has no source-order predecessor: the assertion fails and
the state is as it was. -/
theorem mergeSplit_asserts_source_predecessors_witness :
    mergeSplitBody exampleConfig 2 exampleState
      = Except.error (Failure.assertion, exampleState) :=
  (mergeSplit_asserts_source_predecessors exampleConfig 2 6 exampleState
    (by decide)).1.mpr (Or.inr ⟨1, by decide, by decide⟩)

end MergeSplitVisits

section FlipVisits

theorem flatMap_singleton_eq_map {β γ : Type} (l : List β) (f : β → γ) :
    l.flatMap (fun x => [f x]) = l.map f := by
  induction l with
  | nil => rfl
  | cons x xs ih => rw [List.flatMap_cons, ih, List.map_cons, List.singleton_append]

theorem length_flatMap_of_const {β γ : Type} (l : List β) (f : β → List γ) (c : Nat)
    (h : ∀ x ∈ l, (f x).length = c) : (l.flatMap f).length = l.length * c := by
  induction l with
  | nil => simp
  | cons x xs ih =>
      rw [List.flatMap_cons, List.length_append, h x (List.mem_cons_self _ _),
        ih (fun y hy => h y (List.mem_cons_of_mem _ hy)), List.length_cons]
      ring

/-- The pairs `(i, j)` in the order of the loops of the flip operator: every ordered pair
of distinct indices below `n`, each once. -/
theorem flip_pairs_properties (n : Nat) :
    ((List.range n).flatMap fun i =>
        (List.range' (i + 1) (n - (i + 1))).map (fun j => (i, j)) ++
          (List.range i).reverse.map (fun j => (i, j))).length = n * (n - 1) ∧
    ((List.range n).flatMap fun i =>
        (List.range' (i + 1) (n - (i + 1))).map (fun j => (i, j)) ++
          (List.range i).reverse.map (fun j => (i, j))).Nodup ∧
    (∀ i j, (i, j) ∈ ((List.range n).flatMap fun i =>
        (List.range' (i + 1) (n - (i + 1))).map (fun j => (i, j)) ++
          (List.range i).reverse.map (fun j => (i, j))) ↔ i < n ∧ j < n ∧ i ≠ j) := by
  refine ⟨?_, ?_, ?_⟩
  · rw [length_flatMap_of_const _ _ (n - 1), List.length_range]
    intro i hi
    rw [List.mem_range] at hi
    simp only [List.length_append, List.length_map, List.length_range', List.length_reverse,
      List.length_range]
    omega
  · rw [List.nodup_flatMap]
    constructor
    · intro i _
      rw [List.nodup_append]
      refine ⟨?_, ?_, ?_⟩
      · exact List.Nodup.map (fun a b h => (Prod.mk.inj h).2) (List.nodup_range' _ _)
      · exact List.Nodup.map (fun a b h => (Prod.mk.inj h).2)
          (List.nodup_reverse.mpr (List.nodup_range _))
      · intro p hp1 hp2
        simp only [List.mem_map, List.mem_range'_1, List.mem_reverse, List.mem_range] at hp1 hp2
        obtain ⟨a, ha, rfl⟩ := hp1
        obtain ⟨b, hb, hab⟩ := hp2
        have := (Prod.mk.inj hab).2
        omega
    · apply List.Pairwise.imp _ (List.nodup_range n)
      intro a b hab p hp1 hp2
      simp only [List.mem_append, List.mem_map, List.mem_range'_1, List.mem_reverse,
        List.mem_range] at hp1 hp2
      have h1 : p.1 = a := by
        rcases hp1 with ⟨x, _, rfl⟩ | ⟨x, _, rfl⟩ <;> rfl
      have h2 : p.1 = b := by
        rcases hp2 with ⟨x, _, rfl⟩ | ⟨x, _, rfl⟩ <;> rfl
      exact hab (h1.symm.trans h2)
  · intro i j
    simp only [List.mem_flatMap, List.mem_range, List.mem_append, List.mem_map,
      List.mem_range'_1, List.mem_reverse, Prod.mk.injEq]
    constructor
    · rintro ⟨a, ha, ⟨x, hx, rfl, rfl⟩ | ⟨x, hx, rfl, rfl⟩⟩
      · omega
      · omega
    · rintro ⟨hi, hj, hne⟩
      refine ⟨i, hi, ?_⟩
      rcases Nat.lt_or_gt_of_ne hne with h | h
      · exact Or.inl ⟨j, by omega, rfl, rfl⟩
      · exact Or.inr ⟨j, h, rfl, rfl⟩

variable {α : Type} [LinearOrderedField α]

/-- What the flip operator hands to `doSample` is the empty list or comes with a
baseline. -/
theorem flipDeltas_sampleable {γ : Type} (env : Collaborators γ) (sample : Sample)
    (hypothesis followingHyp nextAddr : Nat) :
    ((flipDeltasForward env sample hypothesis followingHyp nextAddr).1 = [] ∨
      ∃ noChange,
        (flipDeltasForward env sample hypothesis followingHyp nextAddr).2 = some noChange) ∧
    ((flipDeltasBackward env sample hypothesis followingHyp nextAddr).1 = [] ∨
      ∃ noChange,
        (flipDeltasBackward env sample hypothesis followingHyp nextAddr).2 = some noChange) := by
  obtain ⟨hf, hb⟩ := flipDeltas_eq env sample hypothesis followingHyp nextAddr
  rw [hf, hb]
  by_cases hv : (flippedCheck env sample hypothesis followingHyp).1 = true
  · rw [if_pos hv]
    exact ⟨Or.inr ⟨_, rfl⟩, Or.inr ⟨_, rfl⟩⟩
  · rw [if_neg hv]
    exact ⟨Or.inl rfl, Or.inl rfl⟩

/-- C24: an iteration of the flip operator over a sample with `n` collected split points
runs to its end and invokes `doSample` once for every ordered pair `(i, j)` of distinct
split-point indices, `n * (n - 1)` times in all: for each `i` in ascending order, first
the `j > i` in ascending order, then the `j < i` in descending order; for `n ≤ 1` it
never samples. -/
theorem flip_samples_each_ordered_pair_once (cfg : SamplerConfig α)
    (st : OperatorState α (Nat × Nat)) :
    (∃ st', FlipOperator.doIteration cfg st = Except.ok st' ∧
      st'.sampled.map (fun c => c.position)
        = st.sampled.map (fun c => c.position) ++
          ((List.range (CollectAllSplitPoints st.sample).length).flatMap fun i =>
            (List.range' (i + 1) ((CollectAllSplitPoints st.sample).length - (i + 1))).map
                (fun j => (i, j)) ++
              (List.range i).reverse.map (fun j => (i, j)))) ∧
    ((List.range (CollectAllSplitPoints st.sample).length).flatMap fun i =>
        (List.range' (i + 1) ((CollectAllSplitPoints st.sample).length - (i + 1))).map
            (fun j => (i, j)) ++
          (List.range i).reverse.map (fun j => (i, j))).length
      = (CollectAllSplitPoints st.sample).length
          * ((CollectAllSplitPoints st.sample).length - 1) ∧
    ((List.range (CollectAllSplitPoints st.sample).length).flatMap fun i =>
        (List.range' (i + 1) ((CollectAllSplitPoints st.sample).length - (i + 1))).map
            (fun j => (i, j)) ++
          (List.range i).reverse.map (fun j => (i, j))).Nodup ∧
    (∀ i j, (i, j) ∈ ((List.range (CollectAllSplitPoints st.sample).length).flatMap fun i =>
        (List.range' (i + 1) ((CollectAllSplitPoints st.sample).length - (i + 1))).map
            (fun j => (i, j)) ++
          (List.range i).reverse.map (fun j => (i, j))) ↔
      i < (CollectAllSplitPoints st.sample).length ∧
        j < (CollectAllSplitPoints st.sample).length ∧ i ≠ j) ∧
    ((CollectAllSplitPoints st.sample).length ≤ 1 →
      ∃ st', FlipOperator.doIteration cfg st = Except.ok st' ∧
        st'.sampled.map (fun c => c.position) = st.sampled.map (fun c => c.position)) := by
  obtain ⟨hlen, hnodup, hmem⟩ := flip_pairs_properties (CollectAllSplitPoints st.sample).length
  have hforward : ∀ (i j : Nat) (s : OperatorState α (Nat × Nat)),
      ∃ s', flipForwardBody cfg (CollectAllSplitPoints st.sample) i j s = Except.ok s' ∧
        s'.sampled.map (fun c => c.position)
          = s.sampled.map (fun c => c.position) ++ [(i, j)] := by
    intro i j s
    exact sampleAt_ok cfg (i, j) _ _ s (flipDeltas_sampleable _ _ _ _ _).1
  have hbackward : ∀ (i j : Nat) (s : OperatorState α (Nat × Nat)),
      ∃ s', flipBackwardBody cfg (CollectAllSplitPoints st.sample) i j s = Except.ok s' ∧
        s'.sampled.map (fun c => c.position)
          = s.sampled.map (fun c => c.position) ++ [(i, j)] := by
    intro i j s
    exact sampleAt_ok cfg (i, j) _ _ s (flipDeltas_sampleable _ _ _ _ _).2
  have houter := forUp_log
    (fun i s =>
      match forUp (flipForwardBody cfg (CollectAllSplitPoints st.sample) i)
          (CollectAllSplitPoints st.sample).length (i + 1) s with
      | Except.ok s' => forDown (flipBackwardBody cfg (CollectAllSplitPoints st.sample) i) i s'
      | Except.error e => Except.error e)
    (fun s : OperatorState α (Nat × Nat) => s.sampled.map (fun c => c.position))
    (fun i =>
      (List.range' (i + 1) ((CollectAllSplitPoints st.sample).length - (i + 1))).map
          (fun j => (i, j)) ++
        (List.range i).reverse.map (fun j => (i, j)))
    (CollectAllSplitPoints st.sample).length
    (fun i s _ => by
      obtain ⟨s1, hs1, hlog1⟩ := forUp_log
        (flipForwardBody cfg (CollectAllSplitPoints st.sample) i)
        (fun s : OperatorState α (Nat × Nat) => s.sampled.map (fun c => c.position))
        (fun j => [(i, j)]) (CollectAllSplitPoints st.sample).length
        (fun j s _ => hforward i j s) _ (i + 1) s rfl
      obtain ⟨s2, hs2, hlog2⟩ := forDown_log
        (flipBackwardBody cfg (CollectAllSplitPoints st.sample) i)
        (fun s : OperatorState α (Nat × Nat) => s.sampled.map (fun c => c.position))
        (fun j => [(i, j)]) (fun j s => hbackward i j s) i s1
      refine ⟨s2, ?_, ?_⟩
      · simp only [hs1]
        exact hs2
      · beta_reduce
        rw [hlog2, hlog1, flatMap_singleton_eq_map, flatMap_singleton_eq_map,
          List.append_assoc])
    _ 0 st rfl
  have hrun : ∃ st', FlipOperator.doIteration cfg st = Except.ok st' ∧
      st'.sampled.map (fun c => c.position)
        = st.sampled.map (fun c => c.position) ++
          ((List.range (CollectAllSplitPoints st.sample).length).flatMap fun i =>
            (List.range' (i + 1) ((CollectAllSplitPoints st.sample).length - (i + 1))).map
                (fun j => (i, j)) ++
              (List.range i).reverse.map (fun j => (i, j))) := by
    obtain ⟨st', h1, h2⟩ := houter
    refine ⟨st', h1, ?_⟩
    beta_reduce at h2
    rw [h2, Nat.sub_zero, ← List.range_eq_range']
  refine ⟨hrun, hlen, hnodup, hmem, ?_⟩
  intro hn
  obtain ⟨st', h1, h2⟩ := hrun
  refine ⟨st', h1, ?_⟩
  rw [h2]
  have hempty : ((List.range (CollectAllSplitPoints st.sample).length).flatMap fun i =>
      (List.range' (i + 1) ((CollectAllSplitPoints st.sample).length - (i + 1))).map
          (fun j => (i, j)) ++
        (List.range i).reverse.map (fun j => (i, j))) = [] := by
    apply List.eq_nil_of_length_eq_zero
    rw [hlen]
    rcases Nat.lt_or_ge (CollectAllSplitPoints st.sample).length 1 with h | h
    · have : (CollectAllSplitPoints st.sample).length = 0 := by omega
      rw [this]
    · have : (CollectAllSplitPoints st.sample).length = 1 := by omega
      rw [this]
  rw [hempty, List.append_nil]

end FlipVisits

end Visits

/-! ## The backward loop of the flip operator -/

section BackwardForward

variable {α : Type} [LinearOrderedField α]

/-- The split points are collected in ascending order, so a smaller index is a smaller
source position. -/
theorem CollectAllSplitPoints_lt (sample : Sample) (a b : Nat) (hab : a < b)
    (hb : b < (CollectAllSplitPoints sample).length) :
    (CollectAllSplitPoints sample).getD a 0 < (CollectAllSplitPoints sample).getD b 0 := by
  have hsorted : (CollectAllSplitPoints sample).Pairwise (fun x y => x < y) := by
    rw [CollectAllSplitPoints_eq]
    exact List.Pairwise.filter _ (List.pairwise_lt_range _)
  have ha : a < (CollectAllSplitPoints sample).length := by omega
  rw [List.getD_eq_getElem _ _ ha, List.getD_eq_getElem _ _ hb]
  exact List.pairwise_iff_getElem.mp hsorted a b ha hb hab

/-- C31: for split-point indices `a` and `b` and every state, the backward branch with
outer index `b` and inner index `a` takes the same `hypothesis` (the one at
`splitPoints[a]`, the lower source position when `a < b`) and the same `followingHyp`
(the one at `splitPoints[b]`) as the forward branch for `(a, b)`, builds the same delta
list and the same baseline (same validity decision, gaps, options and total
distortions), and, `doSample` being called with the same arguments and the same draw,
leaves the same sample, draw count and allocations; only the recorded position differs. -/
theorem flip_backward_branch_equals_forward_branch (cfg : SamplerConfig α)
    (splitPoints : List Nat) (a b : Nat) (st : OperatorState α (Nat × Nat)) :
    let hypothesis := st.sample.hypAtSourceIndex (splitPoints.getD a 0)
    let followingHyp := st.sample.hypAtSourceIndex (splitPoints.getD b 0)
    let env := cfg.collaborators st.sample
    let built := flipDeltasForward env st.sample hypothesis followingHyp st.nextAddr
    flipDeltasBackward env st.sample hypothesis followingHyp st.nextAddr = built ∧
    built = (if (flippedCheck env st.sample hypothesis followingHyp).1 = true then
        ([newDelta env st.nextAddr
            (DeltaDesc.flipDelta
              (if env.rangeLt (st.sample.hypo hypothesis).targetRange
                  (st.sample.hypo followingHyp).targetRange = true
                then st.sample.hypo followingHyp
                else st.sample.hypo hypothesis).translationOption
              (if env.rangeLt (st.sample.hypo hypothesis).targetRange
                  (st.sample.hypo followingHyp).targetRange = true
                then st.sample.hypo hypothesis
                else st.sample.hypo followingHyp).translationOption
              (gapOf (if env.rangeLt (st.sample.hypo hypothesis).targetRange
                  (st.sample.hypo followingHyp).targetRange = true
                then st.sample.hypo hypothesis
                else st.sample.hypo followingHyp))
              (gapOf (if env.rangeLt (st.sample.hypo hypothesis).targetRange
                  (st.sample.hypo followingHyp).targetRange = true
                then st.sample.hypo followingHyp
                else st.sample.hypo hypothesis))
              (flippedCheck env st.sample hypothesis followingHyp).2),
          newDelta env (st.nextAddr + 1)
            (DeltaDesc.flipDelta
              (if env.rangeLt (st.sample.hypo hypothesis).targetRange
                  (st.sample.hypo followingHyp).targetRange = true
                then st.sample.hypo hypothesis
                else st.sample.hypo followingHyp).translationOption
              (if env.rangeLt (st.sample.hypo hypothesis).targetRange
                  (st.sample.hypo followingHyp).targetRange = true
                then st.sample.hypo followingHyp
                else st.sample.hypo hypothesis).translationOption
              (gapOf (if env.rangeLt (st.sample.hypo hypothesis).targetRange
                  (st.sample.hypo followingHyp).targetRange = true
                then st.sample.hypo hypothesis
                else st.sample.hypo followingHyp))
              (gapOf (if env.rangeLt (st.sample.hypo hypothesis).targetRange
                  (st.sample.hypo followingHyp).targetRange = true
                then st.sample.hypo followingHyp
                else st.sample.hypo hypothesis))
              (currentCheck env st.sample hypothesis followingHyp).2)],
         some (newDelta env (st.nextAddr + 1)
            (DeltaDesc.flipDelta
              (if env.rangeLt (st.sample.hypo hypothesis).targetRange
                  (st.sample.hypo followingHyp).targetRange = true
                then st.sample.hypo hypothesis
                else st.sample.hypo followingHyp).translationOption
              (if env.rangeLt (st.sample.hypo hypothesis).targetRange
                  (st.sample.hypo followingHyp).targetRange = true
                then st.sample.hypo followingHyp
                else st.sample.hypo hypothesis).translationOption
              (gapOf (if env.rangeLt (st.sample.hypo hypothesis).targetRange
                  (st.sample.hypo followingHyp).targetRange = true
                then st.sample.hypo hypothesis
                else st.sample.hypo followingHyp))
              (gapOf (if env.rangeLt (st.sample.hypo hypothesis).targetRange
                  (st.sample.hypo followingHyp).targetRange = true
                then st.sample.hypo followingHyp
                else st.sample.hypo hypothesis))
              (currentCheck env st.sample hypothesis followingHyp).2)))
      else ([], none)) ∧
    flipForwardBody cfg splitPoints a b st = sampleAt cfg (a, b) built built.1.length st ∧
    flipBackwardBody cfg splitPoints b a st = sampleAt cfg (b, a) built built.1.length st ∧
    (∃ calls,
      doSample cfg.exp cfg.log cfg.T cfg.m_gf built.1 built.2 (cfg.random st.draws)
        = some calls ∧
      flipForwardBody cfg splitPoints a b st
        = Except.ok
          { sample := sampleAfter cfg.applyDelta st.sample calls,
            draws := st.draws + randomDraws calls,
            nextAddr := st.nextAddr + built.1.length,
            sampled := st.sampled ++
              [{ position := (a, b), deltas := built.1, noChangeDelta := built.2,
                 calls := calls }] } ∧
      flipBackwardBody cfg splitPoints b a st
        = Except.ok
          { sample := sampleAfter cfg.applyDelta st.sample calls,
            draws := st.draws + randomDraws calls,
            nextAddr := st.nextAddr + built.1.length,
            sampled := st.sampled ++
              [{ position := (b, a), deltas := built.1, noChangeDelta := built.2,
                 calls := calls }] }) ∧
    (a < b → b < (CollectAllSplitPoints st.sample).length →
      (CollectAllSplitPoints st.sample).getD a 0
        < (CollectAllSplitPoints st.sample).getD b 0) := by
  intro hypothesis followingHyp env built
  obtain ⟨hf, hb⟩ := flipDeltas_eq env st.sample hypothesis followingHyp st.nextAddr
  have hback : flipDeltasBackward env st.sample hypothesis followingHyp st.nextAddr
      = built := by
    rw [hb]
    exact hf.symm
  have hfwdBody : flipForwardBody cfg splitPoints a b st
      = sampleAt cfg (a, b) built built.1.length st := rfl
  have hbwdBody : flipBackwardBody cfg splitPoints b a st
      = sampleAt cfg (b, a) built built.1.length st := by
    show sampleAt cfg (b, a)
        (flipDeltasBackward env st.sample hypothesis followingHyp st.nextAddr)
        (flipDeltasBackward env st.sample hypothesis followingHyp st.nextAddr).1.length st
      = sampleAt cfg (b, a) built built.1.length st
    rw [hback]
  obtain ⟨calls, hcalls⟩ := doSample_isSome cfg.exp cfg.log cfg.T (cfg.random st.draws)
    cfg.m_gf built.1 built.2 (flipDeltas_sampleable env st.sample hypothesis followingHyp
      st.nextAddr).1
  refine ⟨hback, hf, hfwdBody, hbwdBody, ⟨calls, hcalls, ?_, ?_⟩, ?_⟩
  · rw [hfwdBody]
    simp only [sampleAt, hcalls]
  · rw [hbwdBody]
    simp only [sampleAt, hcalls]
  · intro hab hlen
    exact CollectAllSplitPoints_lt st.sample a b hab hlen

end BackwardForward

end Josiah
